import Mathlib

/-! # MiniDecaf: lowering of the annotated AST to three-address code

A shallow embedding of `src/translation/translation.cpp` (the third
translation pass) and of the `ForStmt` constructors of
`src/ast/ast_while_stmt.cpp`.

* The visitor object `Translation` becomes an explicit state that is threaded
  through the `visit` functions; the symbol objects the AST points to
  (`ATTR(sym)`) live in that state as two tables indexed by a symbol id.
* `e->accept(this)` followed by a read of `e->ATTR(val)` becomes a function
  that returns the value temporary together with the new state.
* `mind_assert(false)` and the read of a field through a null pointer are the
  two ways the pass can abort; both are results of type `Except TransError`.
* The helper class `TransHelper` (label and temporary allocator, instruction
  builder) is not part of the translated sources; it is modelled from the
  specification.
-/

namespace MiniDecaf

/-- Labels are opaque identifiers; the allocator numbers them. -/
abbrev Label := Nat

/-- Temporaries are opaque identifiers; the allocator numbers them. -/
abbrev Temp := Nat

/-- The thirteen binary operators of the intermediate representation. -/
inductive BinaryOp where
  | ADD | SUB | MUL | DIV | MOD | LES | GTR | LEQ | GEQ | EQU | NEQ | LAND | LOR
  deriving DecidableEq, Repr

/-- The three unary operators of the intermediate representation. -/
inductive UnaryOp where
  | NEG | LNOT | BNOT
  deriving DecidableEq, Repr

/-- Three-address instructions: one operator plus operands that are
temporaries, labels or immediates. -/
inductive Tac where
  | LoadImm4 (dst : Temp) (value : Int)
  | Binary (op : BinaryOp) (dst a b : Temp)
  | Unary (op : UnaryOp) (dst a : Temp)
  | Assign (dst src : Temp)
  | Jump (target : Label)
  | JZero (target : Label) (cond : Temp)
  | Mark (label : Label)
  | Return (value : Temp)
  | FuncEnter
  | FuncExit
  deriving DecidableEq, Repr

/-- The two fatal outcomes of the pass: a failed `mind_assert`, and the read
of a node attribute through a null pointer. -/
inductive TransError where
  | assertion_failed
  | null_dereference
  deriving DecidableEq, Repr

/-- Modelled from the spec: the helper class `TransHelper` (declared in
`tac/trans_helper.hpp`, not among the translated sources). One monotonic
counter per identifier kind, an append-only instruction sequence for the
function being lowered, the finished per-function sequences, and the
parameter offset counter. -/
structure TransHelper where
  labelCount : Nat
  tempCount : Nat
  tacs : List Tac
  pieces : List (List Tac)
  parameterOffset : Int
  deriving DecidableEq, Repr

namespace TransHelper

/-- Modelled from the spec: a helper with nothing allocated and nothing
emitted, as created by `new TransHelper(md)`. -/
def create : TransHelper :=
  { labelCount := 0, tempCount := 0, tacs := [], pieces := [], parameterOffset := 0 }

/-- Modelled from the spec: `getNewLabel` issues the next label of the
monotonic label counter. -/
def getNewLabel (tr : TransHelper) : Label × TransHelper :=
  (tr.labelCount, { tr with labelCount := tr.labelCount + 1 })

/-- Modelled from the spec: `getNewEntryLabel` issues a label for a
function entry from the same counter. -/
def getNewEntryLabel (tr : TransHelper) : Label × TransHelper :=
  tr.getNewLabel

/-- Modelled from the spec: `getNewTempI4` issues the next temporary of the
monotonic temporary counter. -/
def getNewTempI4 (tr : TransHelper) : Temp × TransHelper :=
  (tr.tempCount, { tr with tempCount := tr.tempCount + 1 })

/-- Modelled from the spec: instructions are appended to the sequence of the
current function, never mutated or reordered. -/
def chainUp (tr : TransHelper) (t : Tac) : TransHelper :=
  { tr with tacs := tr.tacs ++ [t] }

/-- Modelled from the spec: load-immediate into a fresh temporary. -/
def genLoadImm4 (tr : TransHelper) (value : Int) : Temp × TransHelper :=
  let r := tr.getNewTempI4
  (r.1, r.2.chainUp (Tac.LoadImm4 r.1 value))

/-- Modelled from the spec: a binary instruction into a fresh temporary. -/
def genBinary (op : BinaryOp) (tr : TransHelper) (a b : Temp) : Temp × TransHelper :=
  let r := tr.getNewTempI4
  (r.1, r.2.chainUp (Tac.Binary op r.1 a b))

/-- Modelled from the spec: a unary instruction into a fresh temporary. -/
def genUnary (op : UnaryOp) (tr : TransHelper) (a : Temp) : Temp × TransHelper :=
  let r := tr.getNewTempI4
  (r.1, r.2.chainUp (Tac.Unary op r.1 a))

def genAdd := genBinary BinaryOp.ADD

def genSub := genBinary BinaryOp.SUB

def genMul := genBinary BinaryOp.MUL

def genDiv := genBinary BinaryOp.DIV

def genMod := genBinary BinaryOp.MOD

def genLes := genBinary BinaryOp.LES

def genGtr := genBinary BinaryOp.GTR

def genLeq := genBinary BinaryOp.LEQ

def genGeq := genBinary BinaryOp.GEQ

def genEqu := genBinary BinaryOp.EQU

def genNeq := genBinary BinaryOp.NEQ

def genLAnd := genBinary BinaryOp.LAND

def genLOr := genBinary BinaryOp.LOR

def genNeg := genUnary UnaryOp.NEG

def genLNot := genUnary UnaryOp.LNOT

def genBNot := genUnary UnaryOp.BNOT

/-- Modelled from the spec: emission of an assignment. -/
def genAssign (tr : TransHelper) (dst src : Temp) : TransHelper :=
  tr.chainUp (Tac.Assign dst src)

/-- Modelled from the spec: emission of an unconditional jump. -/
def genJump (tr : TransHelper) (dest : Label) : TransHelper :=
  tr.chainUp (Tac.Jump dest)

/-- Modelled from the spec: emission of a conditional-jump-if-zero. -/
def genJumpOnZero (tr : TransHelper) (dest : Label) (cond : Temp) : TransHelper :=
  tr.chainUp (Tac.JZero dest cond)

/-- Modelled from the spec: emission of a mark-label. -/
def genMarkLabel (tr : TransHelper) (label : Label) : TransHelper :=
  tr.chainUp (Tac.Mark label)

/-- Modelled from the spec: emission of a return. -/
def genReturn (tr : TransHelper) (value : Temp) : TransHelper :=
  tr.chainUp (Tac.Return value)

/-- Modelled from the spec: `startFunc` opens the instruction sequence of a
function with the function-enter marker. -/
def startFunc (tr : TransHelper) : TransHelper :=
  { tr with tacs := [Tac.FuncEnter] }

/-- Modelled from the spec: `endFunc` closes the sequence with the
function-exit marker and hands it over as one finished piece. -/
def endFunc (tr : TransHelper) : TransHelper :=
  { tr with pieces := tr.pieces ++ [tr.tacs ++ [Tac.FuncExit]], tacs := [] }

/-- Modelled from the spec: `OffsetCounter::reset(PARAMETER)`, the counter is
reset at function entry. -/
def resetOffset (tr : TransHelper) : TransHelper :=
  { tr with parameterOffset := 0 }

/-- Modelled from the spec: `OffsetCounter::next(PARAMETER, x)` returns the
current offset and advances the counter by `x`. -/
def nextOffset (tr : TransHelper) (x : Int) : Int × TransHelper :=
  (tr.parameterOffset, { tr with parameterOffset := tr.parameterOffset + x })

end TransHelper

/-- Modelled from the spec: the pointer-sized unit `POINTER_SIZE` of
`config.hpp` (not among the translated sources). -/
def POINTER_SIZE : Int := 4

/-- Modelled from the spec: the size in bytes of a temporary made by
`getNewTempI4` (the field `size` of a `Temp`). -/
def tempSizeI4 : Int := 4

/-- A variable symbol: the temporary attached to it, its parameter order and
its offset. -/
structure Variable where
  temp : Temp
  order : Int
  offset : Int
  deriving DecidableEq, Repr

/-- A function symbol: its entry label, its order and its offset. -/
structure Function where
  entry : Label
  order : Int
  offset : Int
  deriving DecidableEq, Repr

/-- The kinds of lvalue (`ast::Lvalue::lv_kind`): a plain variable, or any
other kind. -/
inductive LvKind where
  | SIMPLE_VAR
  | OTHER (kind : Nat)
  deriving DecidableEq, Repr

/-- A variable reference node with its resolved symbol and lvalue kind. -/
structure VarRef where
  sym : Nat
  lv_kind : LvKind
  deriving DecidableEq, Repr

/-- Expression nodes. -/
inductive Expr where
  | AssignExpr (left : VarRef) (e : Expr)
  | AddExpr (e1 e2 : Expr)
  | SubExpr (e1 e2 : Expr)
  | MulExpr (e1 e2 : Expr)
  | DivExpr (e1 e2 : Expr)
  | ModExpr (e1 e2 : Expr)
  | LesExpr (e1 e2 : Expr)
  | GrtExpr (e1 e2 : Expr)
  | LeqExpr (e1 e2 : Expr)
  | GeqExpr (e1 e2 : Expr)
  | EquExpr (e1 e2 : Expr)
  | NeqExpr (e1 e2 : Expr)
  | AndExpr (e1 e2 : Expr)
  | OrExpr (e1 e2 : Expr)
  | IntConst (value : Int)
  | NegExpr (e : Expr)
  | NotExpr (e : Expr)
  | BitNotExpr (e : Expr)
  | LvalueExpr (lvalue : VarRef)
  | IfExpr (condition true_brch false_brch : Expr)
  deriving DecidableEq, Repr

/-- A variable declaration node: the declared symbol and the initializer,
`none` for the null pointer. -/
structure VarDecl where
  sym : Nat
  init : Option Expr
  deriving DecidableEq, Repr

mutual
/-- Statement nodes. A null child pointer of a `ForStmt` is `none`. -/
inductive Stmt where
  | VarDecl (decl : VarDecl)
  | ExprStmt (e : Expr)
  | IfStmt (condition : Expr) (true_brch false_brch : Stmt)
  | WhileStmt (condition : Expr) (loop_body : Stmt)
  | DoWhileStmt (condition : Expr) (loop_body : Stmt)
  | ForStmt (exprInit : Option Expr) (varDeclInit : Option VarDecl)
      (condition : Option Expr) (update : Option Expr) (loop_body : Stmt)
  | BreakStmt
  | ContStmt
  | CompStmt (stmts : StmtList)
  | ReturnStmt (e : Expr)
  | EmptyStmt
/-- A statement list (`ast::StmtList`). -/
inductive StmtList where
  | nil
  | cons (head : Stmt) (tail : StmtList)
end

/-- The first `ForStmt` constructor: an expression initializer. -/
def ForStmt.ofExprInit (_init _condition _update : Option Expr) (_body : Stmt) : Stmt :=
  Stmt.ForStmt _init none _condition _update _body

/-- The second `ForStmt` constructor: a declaration initializer. -/
def ForStmt.ofVarDeclInit (_init : Option VarDecl) (_condition _update : Option Expr)
    (_body : Stmt) : Stmt :=
  Stmt.ForStmt none _init _condition _update _body

/-- A function definition node. -/
structure FuncDefn where
  sym : Nat
  formals : List VarDecl
  stmts : StmtList

/-- A program node: the list of its function definitions. -/
structure Program where
  func_and_globals : List FuncDefn

/-- The state of the pass: the visitor's members `tr`,
`current_break_label`, `current_continue_label`, and the symbol objects the
annotated AST refers to. -/
structure Translation where
  tr : TransHelper
  current_break_label : Label
  current_continue_label : Label
  vars : Nat → Variable
  funs : Nat → Function

namespace Translation

/-- The constructor `Translation::Translation(helper)` only stores the
helper; the two label members keep whatever value they had, here the two
extra arguments. -/
def create (helper : TransHelper) (break_label continue_label : Label)
    (vars : Nat → Variable) (funs : Nat → Function) : Translation :=
  { tr := helper, current_break_label := break_label,
    current_continue_label := continue_label, vars := vars, funs := funs }

/-- The call `v->attachTemp(t)` on the variable symbol `sym`. -/
def attachTemp (st : Translation) (sym : Nat) (t : Temp) : Translation :=
  { st with vars := Function.update st.vars sym { st.vars sym with temp := t } }

/-- The call `v->setOrder(order)` on the variable symbol `sym`. -/
def setOrder (st : Translation) (sym : Nat) (order : Int) : Translation :=
  { st with vars := Function.update st.vars sym { st.vars sym with order := order } }

/-- The assignment `v->offset = offset` on the variable symbol `sym`. -/
def setOffset (st : Translation) (sym : Nat) (offset : Int) : Translation :=
  { st with vars := Function.update st.vars sym { st.vars sym with offset := offset } }

/-- The call `sym->getTemp()`. -/
def getTemp (st : Translation) (sym : Nat) : Temp :=
  (st.vars sym).temp

/-- The call `tr->getNewLabel()`. -/
def getNewLabel (st : Translation) : Label × Translation :=
  (st.tr.getNewLabel.1, { st with tr := st.tr.getNewLabel.2 })

/-- The call `tr->getNewTempI4()`. -/
def getNewTempI4 (st : Translation) : Temp × Translation :=
  (st.tr.getNewTempI4.1, { st with tr := st.tr.getNewTempI4.2 })

/-- A call `tr->genXxx(a, b)` of one of the thirteen binary emitters. -/
def genBinary (gen : TransHelper → Temp → Temp → Temp × TransHelper)
    (st : Translation) (a b : Temp) : Temp × Translation :=
  ((gen st.tr a b).1, { st with tr := (gen st.tr a b).2 })

/-- A call `tr->genXxx(a)` of one of the three unary emitters. -/
def genUnary (gen : TransHelper → Temp → Temp × TransHelper)
    (st : Translation) (a : Temp) : Temp × Translation :=
  ((gen st.tr a).1, { st with tr := (gen st.tr a).2 })

/-- The call `tr->genLoadImm4(value)`. -/
def genLoadImm4 (st : Translation) (value : Int) : Temp × Translation :=
  ((st.tr.genLoadImm4 value).1, { st with tr := (st.tr.genLoadImm4 value).2 })

/-- The call `tr->genAssign(dst, src)`. -/
def genAssign (st : Translation) (dst src : Temp) : Translation :=
  { st with tr := st.tr.genAssign dst src }

/-- The call `tr->genJump(dest)`. -/
def genJump (st : Translation) (dest : Label) : Translation :=
  { st with tr := st.tr.genJump dest }

/-- The call `tr->genJumpOnZero(dest, cond)`. -/
def genJumpOnZero (st : Translation) (dest : Label) (cond : Temp) : Translation :=
  { st with tr := st.tr.genJumpOnZero dest cond }

/-- The call `tr->genMarkLabel(label)`. -/
def genMarkLabel (st : Translation) (label : Label) : Translation :=
  { st with tr := st.tr.genMarkLabel label }

/-- The call `tr->genReturn(value)`. -/
def genReturn (st : Translation) (value : Temp) : Translation :=
  { st with tr := st.tr.genReturn value }

/-- The call `tr->startFunc(fun)`. -/
def startFunc (st : Translation) : Translation :=
  { st with tr := st.tr.startFunc }

/-- The call `tr->endFunc()`. -/
def endFunc (st : Translation) : Translation :=
  { st with tr := st.tr.endFunc }

/-- The two assignments to `current_break_label` and
`current_continue_label`. -/
def setLabels (st : Translation) (break_label continue_label : Label) : Translation :=
  { st with current_break_label := break_label, current_continue_label := continue_label }

end Translation

/-- Translating an `ast::VarRef` node: only the lvalue kind is checked. -/
def visitVarRef (ref : VarRef) (st : Translation) : Except TransError Translation :=
  match ref.lv_kind with
  | LvKind.SIMPLE_VAR => Except.ok st
  | LvKind.OTHER _ => Except.error TransError.assertion_failed

/-- The common shape of the thirteen binary visits: left operand, right
operand, then the instruction made by `gen`. -/
def visitBinary (gen : TransHelper → Temp → Temp → Temp × TransHelper)
    (visit1 visit2 : Translation → Except TransError (Temp × Translation))
    (st : Translation) : Except TransError (Temp × Translation) := do
  let r1 ← visit1 st
  let r2 ← visit2 r1.2
  pure (r2.2.genBinary gen r1.1 r2.1)

/-- The common shape of the three unary visits: the operand, then the
instruction made by `gen`. -/
def visitUnary (gen : TransHelper → Temp → Temp × TransHelper)
    (visit1 : Translation → Except TransError (Temp × Translation))
    (st : Translation) : Except TransError (Temp × Translation) := do
  let r1 ← visit1 st
  pure (r1.2.genUnary gen r1.1)

/-- Translating an expression node; the result carries `ATTR(val)`. -/
def visitExpr : Expr → Translation → Except TransError (Temp × Translation)
  | Expr.AssignExpr left e, st => do
      let s1 ← visitVarRef left st
      let r ← visitExpr e s1
      pure (r.1, r.2.genAssign (r.2.getTemp left.sym) r.1)
  | Expr.AddExpr e1 e2, st => visitBinary TransHelper.genAdd (visitExpr e1) (visitExpr e2) st
  | Expr.SubExpr e1 e2, st => visitBinary TransHelper.genSub (visitExpr e1) (visitExpr e2) st
  | Expr.MulExpr e1 e2, st => visitBinary TransHelper.genMul (visitExpr e1) (visitExpr e2) st
  | Expr.DivExpr e1 e2, st => visitBinary TransHelper.genDiv (visitExpr e1) (visitExpr e2) st
  | Expr.ModExpr e1 e2, st => visitBinary TransHelper.genMod (visitExpr e1) (visitExpr e2) st
  | Expr.LesExpr e1 e2, st => visitBinary TransHelper.genLes (visitExpr e1) (visitExpr e2) st
  | Expr.GrtExpr e1 e2, st => visitBinary TransHelper.genGtr (visitExpr e1) (visitExpr e2) st
  | Expr.LeqExpr e1 e2, st => visitBinary TransHelper.genLeq (visitExpr e1) (visitExpr e2) st
  | Expr.GeqExpr e1 e2, st => visitBinary TransHelper.genGeq (visitExpr e1) (visitExpr e2) st
  | Expr.EquExpr e1 e2, st => visitBinary TransHelper.genEqu (visitExpr e1) (visitExpr e2) st
  | Expr.NeqExpr e1 e2, st => visitBinary TransHelper.genNeq (visitExpr e1) (visitExpr e2) st
  | Expr.AndExpr e1 e2, st => visitBinary TransHelper.genLAnd (visitExpr e1) (visitExpr e2) st
  | Expr.OrExpr e1 e2, st => visitBinary TransHelper.genLOr (visitExpr e1) (visitExpr e2) st
  | Expr.IntConst value, st => pure (st.genLoadImm4 value)
  | Expr.NegExpr e, st => visitUnary TransHelper.genNeg (visitExpr e) st
  | Expr.NotExpr e, st => visitUnary TransHelper.genLNot (visitExpr e) st
  | Expr.BitNotExpr e, st => visitUnary TransHelper.genBNot (visitExpr e) st
  | Expr.LvalueExpr lvalue, st => do
      let s1 ← visitVarRef lvalue st
      pure (s1.getTemp lvalue.sym, s1)
  | Expr.IfExpr condition true_brch false_brch, st => do
      let l1 := st.getNewLabel
      let l2 := l1.2.getNewLabel
      let L1 := l1.1
      let L2 := l2.1
      let c ← visitExpr condition l2.2
      let g := c.2.getNewTempI4
      let temp := g.1
      let t ← visitExpr true_brch (g.2.genJumpOnZero L1 c.1)
      let s1 := ((t.2.genAssign temp t.1).genJump L2).genMarkLabel L1
      let f ← visitExpr false_brch s1
      pure (temp, (f.2.genAssign temp f.1).genMarkLabel L2)

/-- Translating an `ast::VarRef` node, with the state of the visitor at the
failed `mind_assert` kept in the failure: the instructions emitted until
then are the ones of that state. -/
def visitVarRefTraced (ref : VarRef) (st : Translation) :
    Except (TransError × Translation) Translation :=
  match ref.lv_kind with
  | LvKind.SIMPLE_VAR => Except.ok st
  | LvKind.OTHER _ => Except.error (TransError.assertion_failed, st)

/-- The common shape of the thirteen binary visits, with the state at a
failure kept. -/
def visitBinaryTraced (gen : TransHelper → Temp → Temp → Temp × TransHelper)
    (visit1 visit2 : Translation → Except (TransError × Translation) (Temp × Translation))
    (st : Translation) : Except (TransError × Translation) (Temp × Translation) := do
  let r1 ← visit1 st
  let r2 ← visit2 r1.2
  pure (r2.2.genBinary gen r1.1 r2.1)

/-- The common shape of the three unary visits, with the state at a failure
kept. -/
def visitUnaryTraced (gen : TransHelper → Temp → Temp × TransHelper)
    (visit1 : Translation → Except (TransError × Translation) (Temp × Translation))
    (st : Translation) : Except (TransError × Translation) (Temp × Translation) := do
  let r1 ← visit1 st
  pure (r1.2.genUnary gen r1.1)

/-- Translating an expression node, statement by statement as `visitExpr`,
with the state of the visitor at a failed `mind_assert` kept in the failure:
its instruction sequence is what was emitted before the pass aborted. -/
def visitExprTraced : Expr → Translation → Except (TransError × Translation) (Temp × Translation)
  | Expr.AssignExpr left e, st => do
      let s1 ← visitVarRefTraced left st
      let r ← visitExprTraced e s1
      pure (r.1, r.2.genAssign (r.2.getTemp left.sym) r.1)
  | Expr.AddExpr e1 e2, st =>
      visitBinaryTraced TransHelper.genAdd (visitExprTraced e1) (visitExprTraced e2) st
  | Expr.SubExpr e1 e2, st =>
      visitBinaryTraced TransHelper.genSub (visitExprTraced e1) (visitExprTraced e2) st
  | Expr.MulExpr e1 e2, st =>
      visitBinaryTraced TransHelper.genMul (visitExprTraced e1) (visitExprTraced e2) st
  | Expr.DivExpr e1 e2, st =>
      visitBinaryTraced TransHelper.genDiv (visitExprTraced e1) (visitExprTraced e2) st
  | Expr.ModExpr e1 e2, st =>
      visitBinaryTraced TransHelper.genMod (visitExprTraced e1) (visitExprTraced e2) st
  | Expr.LesExpr e1 e2, st =>
      visitBinaryTraced TransHelper.genLes (visitExprTraced e1) (visitExprTraced e2) st
  | Expr.GrtExpr e1 e2, st =>
      visitBinaryTraced TransHelper.genGtr (visitExprTraced e1) (visitExprTraced e2) st
  | Expr.LeqExpr e1 e2, st =>
      visitBinaryTraced TransHelper.genLeq (visitExprTraced e1) (visitExprTraced e2) st
  | Expr.GeqExpr e1 e2, st =>
      visitBinaryTraced TransHelper.genGeq (visitExprTraced e1) (visitExprTraced e2) st
  | Expr.EquExpr e1 e2, st =>
      visitBinaryTraced TransHelper.genEqu (visitExprTraced e1) (visitExprTraced e2) st
  | Expr.NeqExpr e1 e2, st =>
      visitBinaryTraced TransHelper.genNeq (visitExprTraced e1) (visitExprTraced e2) st
  | Expr.AndExpr e1 e2, st =>
      visitBinaryTraced TransHelper.genLAnd (visitExprTraced e1) (visitExprTraced e2) st
  | Expr.OrExpr e1 e2, st =>
      visitBinaryTraced TransHelper.genLOr (visitExprTraced e1) (visitExprTraced e2) st
  | Expr.IntConst value, st => pure (st.genLoadImm4 value)
  | Expr.NegExpr e, st => visitUnaryTraced TransHelper.genNeg (visitExprTraced e) st
  | Expr.NotExpr e, st => visitUnaryTraced TransHelper.genLNot (visitExprTraced e) st
  | Expr.BitNotExpr e, st => visitUnaryTraced TransHelper.genBNot (visitExprTraced e) st
  | Expr.LvalueExpr lvalue, st => do
      let s1 ← visitVarRefTraced lvalue st
      pure (s1.getTemp lvalue.sym, s1)
  | Expr.IfExpr condition true_brch false_brch, st => do
      let l1 := st.getNewLabel
      let l2 := l1.2.getNewLabel
      let L1 := l1.1
      let L2 := l2.1
      let c ← visitExprTraced condition l2.2
      let g := c.2.getNewTempI4
      let temp := g.1
      let t ← visitExprTraced true_brch (g.2.genJumpOnZero L1 c.1)
      let s1 := ((t.2.genAssign temp t.1).genJump L2).genMarkLabel L1
      let f ← visitExprTraced false_brch s1
      pure (temp, (f.2.genAssign temp f.1).genMarkLabel L2)

/-- Translating an `ast::VarDecl` node. -/
def visitVarDecl (decl : VarDecl) (st : Translation) : Except TransError Translation :=
  let g := st.getNewTempI4
  let s1 := g.2.attachTemp decl.sym g.1
  match decl.init with
  | some init => do
      let r ← visitExpr init s1
      pure (r.2.genAssign (r.2.getTemp decl.sym) r.1)
  | none => pure s1

/-- The initializer of a `for`:
`if(s->exprInit!=nullptr) ... else if(s->varDeclInit!=nullptr) ...`. -/
def visitForInit (exprInit : Option Expr) (varDeclInit : Option VarDecl)
    (st : Translation) : Except TransError Translation :=
  match exprInit, varDeclInit with
  | some init, _ => (visitExpr init st).map Prod.snd
  | none, some decl => visitVarDecl decl st
  | none, none => pure st

/-- The guarded visit of the condition of a `for`:
`if(s->condition!=nullptr) s->condition->accept(this);`. The first
component is the `ATTR(val)` of the condition node when there is a node. -/
def visitForCondition (condition : Option Expr) (st : Translation) :
    Except TransError (Option Temp × Translation) :=
  match condition with
  | some cond => (visitExpr cond st).map (fun r => (some r.1, r.2))
  | none => pure (none, st)

/-- The read `s->condition->ATTR(val)`, which goes through the pointer
`s->condition` whether or not it is null. -/
def readConditionVal (val : Option Temp) : Except TransError Temp :=
  match val with
  | some v => pure v
  | none => Except.error TransError.null_dereference

/-- The update of a `for`: `if(s->update!=nullptr) s->update->accept(this);`. -/
def visitForUpdate (update : Option Expr) (st : Translation) :
    Except TransError Translation :=
  match update with
  | some upd => (visitExpr upd st).map Prod.snd
  | none => pure st

mutual
/-- Translating a statement node. -/
def visitStmt : Stmt → Translation → Except TransError Translation
  | Stmt.VarDecl decl, st => visitVarDecl decl st
  | Stmt.ExprStmt e, st => do
      let r ← visitExpr e st
      pure r.2
  | Stmt.IfStmt condition true_brch false_brch, st => do
      let l1 := st.getNewLabel
      let l2 := l1.2.getNewLabel
      let L1 := l1.1
      let L2 := l2.1
      let c ← visitExpr condition l2.2
      let s1 ← visitStmt true_brch (c.2.genJumpOnZero L1 c.1)
      let s2 ← visitStmt false_brch ((s1.genJump L2).genMarkLabel L1)
      pure (s2.genMarkLabel L2)
  | Stmt.WhileStmt condition loop_body, st => do
      let l1 := st.getNewLabel
      let l2 := l1.2.getNewLabel
      let l3 := l2.2.getNewLabel
      let L1 := l1.1
      let L2 := l2.1
      let L3 := l3.1
      let old_break := l3.2.current_break_label
      let old_continue := l3.2.current_continue_label
      let s0 := l3.2.setLabels L2 L3
      let c ← visitExpr condition (s0.genMarkLabel L1)
      let s1 ← visitStmt loop_body (c.2.genJumpOnZero L2 c.1)
      let s2 := ((s1.genMarkLabel L3).genJump L1).genMarkLabel L2
      pure (s2.setLabels old_break old_continue)
  | Stmt.DoWhileStmt condition loop_body, st => do
      let l1 := st.getNewLabel
      let l2 := l1.2.getNewLabel
      let l3 := l2.2.getNewLabel
      let L1 := l1.1
      let L2 := l2.1
      let L3 := l3.1
      let old_break := l3.2.current_break_label
      let old_continue := l3.2.current_continue_label
      let s0 := l3.2.setLabels L2 L3
      let s1 ← visitStmt loop_body (s0.genMarkLabel L1)
      let c ← visitExpr condition (s1.genMarkLabel L3)
      let s2 := ((c.2.genJumpOnZero L2 c.1).genJump L1).genMarkLabel L2
      pure (s2.setLabels old_break old_continue)
  | Stmt.ForStmt exprInit varDeclInit condition update loop_body, st => do
      let l1 := st.getNewLabel
      let l2 := l1.2.getNewLabel
      let l3 := l2.2.getNewLabel
      let L1 := l1.1
      let L2 := l2.1
      let L3 := l3.1
      let old_break := l3.2.current_break_label
      let old_continue := l3.2.current_continue_label
      let s0 := l3.2.setLabels L2 L3
      let s1 ← visitForInit exprInit varDeclInit s0
      let c ← visitForCondition condition (s1.genMarkLabel L1)
      let val ← readConditionVal c.1
      let s2 ← visitStmt loop_body (c.2.genJumpOnZero L2 val)
      let s3 ← visitForUpdate update (s2.genMarkLabel L3)
      let s4 := (s3.genJump L1).genMarkLabel L2
      pure (s4.setLabels old_break old_continue)
  | Stmt.BreakStmt, st => pure (st.genJump st.current_break_label)
  | Stmt.ContStmt, st => pure (st.genJump st.current_continue_label)
  | Stmt.CompStmt stmts, st => visitStmtList stmts st
  | Stmt.ReturnStmt e, st => do
      let r ← visitExpr e st
      pure (r.2.genReturn r.1)
  | Stmt.EmptyStmt, st => pure st
/-- Translating the statements of a list one by one, in order. -/
def visitStmtList : StmtList → Translation → Except TransError Translation
  | StmtList.nil, st => pure st
  | StmtList.cons head tail, st => do
      let s1 ← visitStmt head st
      visitStmtList tail s1
end

/-- The first loop over the formals of `visit(ast::FuncDefn *)`: each formal
gets the next order and a new temporary. -/
def attachFormals : List VarDecl → Int → Translation → Translation
  | [], _, st => st
  | v :: rest, order, st =>
      let s1 := st.setOrder v.sym order
      let g := s1.getNewTempI4
      attachFormals rest (order + 1) (g.2.attachTemp v.sym g.1)

/-- The second loop over the formals: each formal gets the next parameter
offset. -/
def offsetFormals : List VarDecl → Translation → Translation
  | [], st => st
  | v :: rest, st =>
      let n := st.tr.nextOffset tempSizeI4
      offsetFormals rest (({ st with tr := n.2 } : Translation).setOffset v.sym n.1)

/-- Translating an `ast::FuncDefn` node. -/
def visitFuncDefn (f : FuncDefn) (st : Translation) : Except TransError Translation := do
  let l := st.tr.getNewEntryLabel
  let s0 : Translation :=
    { st with tr := l.2,
              funs := Function.update st.funs f.sym { st.funs f.sym with entry := l.1 } }
  let s1 := attachFormals f.formals 0 s0
  let s2 : Translation :=
    { s1 with funs := Function.update s1.funs f.sym
                { s1.funs f.sym with offset := (s1.funs f.sym).order * POINTER_SIZE } }
  let s3 := { s2 with tr := s2.tr.resetOffset }
  let s4 := offsetFormals f.formals s3
  let s5 ← visitStmtList f.stmts s4.startFunc
  let g := s5.genLoadImm4 0
  pure (g.2.genReturn g.1).endFunc

/-- Translating the function definitions of a program one by one. -/
def visitFuncDefns : List FuncDefn → Translation → Except TransError Translation
  | [], st => pure st
  | f :: rest, st => do
      let s1 ← visitFuncDefn f st
      visitFuncDefns rest s1

/-- Translating an `ast::Program` node. -/
def visitProgram (p : Program) (st : Translation) : Except TransError Translation :=
  visitFuncDefns p.func_and_globals st

/-- The entry point `MindCompiler::translate`: a new helper, a new visitor,
and the resulting piece list. -/
def translate (tree : Program) (break_label continue_label : Label)
    (vars : Nat → Variable) (funs : Nat → Function) : Except TransError (List (List Tac)) :=
  (visitProgram tree
    (Translation.create TransHelper.create break_label continue_label vars funs)).map
    (fun st => st.tr.pieces)

/-! ## Definitions used in the statements and proofs below -/

namespace TransHelper

/-- The helper after `nl` more labels and `nt` more temporaries were issued. -/
def bump (tr : TransHelper) (nl nt : Nat) : TransHelper :=
  { tr with labelCount := tr.labelCount + nl, tempCount := tr.tempCount + nt }

/-- The helper with the current instruction sequence replaced. -/
def setTacs (tr : TransHelper) (code : List Tac) : TransHelper :=
  { tr with tacs := code }

end TransHelper

namespace Translation

/-- The state after `nl` more labels and `nt` more temporaries were issued. -/
def bump (st : Translation) (nl nt : Nat) : Translation :=
  { st with tr := st.tr.bump nl nt }

/-- The state with the current instruction sequence replaced. -/
def setTacs (st : Translation) (code : List Tac) : Translation :=
  { st with tr := st.tr.setTacs code }

/-- The state with the variable symbols replaced. -/
def setVars (st : Translation) (vs : Nat → Variable) : Translation :=
  { st with vars := vs }

end Translation

/-- The node kinds of the thirteen binary expressions. -/
inductive BinaryKind where
  | add | sub | mul | div | mod | les | grt | leq | geq | equ | neq | and | or
  deriving DecidableEq, Repr

/-- The node kinds of the three unary expressions. -/
inductive UnaryKind where
  | neg | not | bitNot
  deriving DecidableEq, Repr

/-- The binary expression node of a kind. -/
def BinaryKind.toExpr : BinaryKind → Expr → Expr → Expr
  | .add => Expr.AddExpr | .sub => Expr.SubExpr | .mul => Expr.MulExpr
  | .div => Expr.DivExpr | .mod => Expr.ModExpr | .les => Expr.LesExpr
  | .grt => Expr.GrtExpr | .leq => Expr.LeqExpr | .geq => Expr.GeqExpr
  | .equ => Expr.EquExpr | .neq => Expr.NeqExpr | .and => Expr.AndExpr
  | .or => Expr.OrExpr

/-- The instruction operator that the visit of a binary node kind emits. -/
def BinaryKind.op : BinaryKind → BinaryOp
  | .add => BinaryOp.ADD | .sub => BinaryOp.SUB | .mul => BinaryOp.MUL
  | .div => BinaryOp.DIV | .mod => BinaryOp.MOD | .les => BinaryOp.LES
  | .grt => BinaryOp.GTR | .leq => BinaryOp.LEQ | .geq => BinaryOp.GEQ
  | .equ => BinaryOp.EQU | .neq => BinaryOp.NEQ | .and => BinaryOp.LAND
  | .or => BinaryOp.LOR

/-- The unary expression node of a kind. -/
def UnaryKind.toExpr : UnaryKind → Expr → Expr
  | .neg => Expr.NegExpr | .not => Expr.NotExpr | .bitNot => Expr.BitNotExpr

/-- The instruction operator that the visit of a unary node kind emits. -/
def UnaryKind.op : UnaryKind → UnaryOp
  | .neg => UnaryOp.NEG | .not => UnaryOp.LNOT | .bitNot => UnaryOp.BNOT

/-- The shape of the state after a visit that may rebind variable symbols. -/
def FrameOf (visit : Translation → Except TransError Translation)
    (st st' : Translation) : Prop :=
  ∃ nl nt code vs, st' = ((st.setVars vs).bump nl nt).setTacs (st.tr.tacs ++ code) ∧
    ∀ t, visit (st.setTacs t) = Except.ok (((st.setVars vs).bump nl nt).setTacs (t ++ code))

/-- The number of mark-label instructions of `l` in a sequence. -/
def markCount (l : Nat) (code : List Tac) : Nat :=
  code.count (Tac.Mark l)

/-- The instruction is an unconditional jump or a conditional-jump-if-zero
to `l`. -/
def Tac.jumpsTo (l : Nat) : Tac → Bool
  | Tac.Jump m => decide (m = l)
  | Tac.JZero m _ => decide (m = l)
  | _ => false

/-- The number of jumps and conditional jumps to `l` in a sequence. -/
def targetCount (l : Nat) (code : List Tac) : Nat :=
  code.countP (Tac.jumpsTo l)

/-- The label `l` is the target of an unconditional jump or of a
conditional-jump-if-zero of the sequence. -/
def IsJumpTarget (l : Nat) (code : List Tac) : Prop :=
  Tac.Jump l ∈ code ∨ ∃ t, Tac.JZero l t ∈ code

/-- The labels of a piece of emitted code are in order: every label is
marked at most once, the marked labels were issued between the counter values
`lo` and `hi`, and every jump target is marked in the code, or is the
current break label `brk` when `fb` holds, or the current continue label
`cont` when `fc` holds. -/
structure LabelsOK (lo hi : Nat) (fb fc : Bool) (brk cont : Nat) (code : List Tac) : Prop where
  le : lo ≤ hi
  once : ∀ l : Nat, markCount l code ≤ 1
  range : ∀ l : Nat, markCount l code = 0 ∨ (lo ≤ l ∧ l < hi)
  closed : ∀ l : Nat, targetCount l code = 0 ∨ 0 < markCount l code
    ∨ (fb = true ∧ l = brk) ∨ (fc = true ∧ l = cont)

mutual
/-- The statement contains a `break` that is not inside a loop of the
statement. -/
def Stmt.freeBreak : Stmt → Bool
  | Stmt.BreakStmt => true
  | Stmt.IfStmt _ t f => t.freeBreak || f.freeBreak
  | Stmt.CompStmt l => l.freeBreak
  | _ => false
/-- Some statement of the list contains a `break` that is not inside a loop
of the statement. -/
def StmtList.freeBreak : StmtList → Bool
  | StmtList.nil => false
  | StmtList.cons s l => s.freeBreak || l.freeBreak
end

mutual
/-- The statement contains a `continue` that is not inside a loop of the
statement. -/
def Stmt.freeCont : Stmt → Bool
  | Stmt.ContStmt => true
  | Stmt.IfStmt _ t f => t.freeCont || f.freeCont
  | Stmt.CompStmt l => l.freeCont
  | _ => false
/-- Some statement of the list contains a `continue` that is not inside a
loop of the statement. -/
def StmtList.freeCont : StmtList → Bool
  | StmtList.nil => false
  | StmtList.cons s l => s.freeCont || l.freeCont
end

/-- Every lvalue of the expression is a plain variable. -/
def Expr.plainLvalues : Expr → Bool
  | Expr.AssignExpr left e => decide (left.lv_kind = LvKind.SIMPLE_VAR) && e.plainLvalues
  | Expr.AddExpr e1 e2 => e1.plainLvalues && e2.plainLvalues
  | Expr.SubExpr e1 e2 => e1.plainLvalues && e2.plainLvalues
  | Expr.MulExpr e1 e2 => e1.plainLvalues && e2.plainLvalues
  | Expr.DivExpr e1 e2 => e1.plainLvalues && e2.plainLvalues
  | Expr.ModExpr e1 e2 => e1.plainLvalues && e2.plainLvalues
  | Expr.LesExpr e1 e2 => e1.plainLvalues && e2.plainLvalues
  | Expr.GrtExpr e1 e2 => e1.plainLvalues && e2.plainLvalues
  | Expr.LeqExpr e1 e2 => e1.plainLvalues && e2.plainLvalues
  | Expr.GeqExpr e1 e2 => e1.plainLvalues && e2.plainLvalues
  | Expr.EquExpr e1 e2 => e1.plainLvalues && e2.plainLvalues
  | Expr.NeqExpr e1 e2 => e1.plainLvalues && e2.plainLvalues
  | Expr.AndExpr e1 e2 => e1.plainLvalues && e2.plainLvalues
  | Expr.OrExpr e1 e2 => e1.plainLvalues && e2.plainLvalues
  | Expr.IntConst _ => true
  | Expr.NegExpr e => e.plainLvalues
  | Expr.NotExpr e => e.plainLvalues
  | Expr.BitNotExpr e => e.plainLvalues
  | Expr.LvalueExpr lvalue => decide (lvalue.lv_kind = LvKind.SIMPLE_VAR)
  | Expr.IfExpr c t f => c.plainLvalues && t.plainLvalues && f.plainLvalues

/-- Every lvalue of an optional expression is a plain variable. -/
def optPlainLvalues : Option Expr → Bool
  | some e => e.plainLvalues
  | none => true

/-- Every lvalue of the initializer of the declaration is a plain variable. -/
def VarDecl.plainLvalues (d : VarDecl) : Bool :=
  optPlainLvalues d.init

mutual
/-- Every lvalue of the statement is a plain variable. -/
def Stmt.plainLvalues : Stmt → Bool
  | Stmt.VarDecl decl => decl.plainLvalues
  | Stmt.ExprStmt e => e.plainLvalues
  | Stmt.IfStmt c t f => c.plainLvalues && t.plainLvalues && f.plainLvalues
  | Stmt.WhileStmt c b => c.plainLvalues && b.plainLvalues
  | Stmt.DoWhileStmt c b => c.plainLvalues && b.plainLvalues
  | Stmt.ForStmt ei vi cond upd b =>
      optPlainLvalues ei && (match vi with | some d => d.plainLvalues | none => true)
        && optPlainLvalues cond && optPlainLvalues upd && b.plainLvalues
  | Stmt.BreakStmt => true
  | Stmt.ContStmt => true
  | Stmt.CompStmt l => l.plainLvalues
  | Stmt.ReturnStmt e => e.plainLvalues
  | Stmt.EmptyStmt => true
/-- Every lvalue of the statements of the list is a plain variable. -/
def StmtList.plainLvalues : StmtList → Bool
  | StmtList.nil => true
  | StmtList.cons s l => s.plainLvalues && l.plainLvalues
end

mutual
/-- Every `for` of the statement has a condition. -/
def Stmt.forsHaveCondition : Stmt → Bool
  | Stmt.IfStmt _ t f => t.forsHaveCondition && f.forsHaveCondition
  | Stmt.WhileStmt _ b => b.forsHaveCondition
  | Stmt.DoWhileStmt _ b => b.forsHaveCondition
  | Stmt.ForStmt _ _ cond _ b => cond.isSome && b.forsHaveCondition
  | Stmt.CompStmt l => l.forsHaveCondition
  | _ => true
/-- Every `for` of the statements of the list has a condition. -/
def StmtList.forsHaveCondition : StmtList → Bool
  | StmtList.nil => true
  | StmtList.cons s l => s.forsHaveCondition && l.forsHaveCondition
end

/-- The state after the entry label of the function was attached. -/
def funcLabelled (f : FuncDefn) (st : Translation) : Translation :=
  { st with tr := st.tr.getNewEntryLabel.2,
            funs := Function.update st.funs f.sym
              { st.funs f.sym with entry := st.tr.getNewEntryLabel.1 } }

/-- The state in which the statements of a function body are visited: the
entry label attached, the formals bound, the offsets set and the instruction
sequence of the function opened. -/
def funcBodyStart (f : FuncDefn) (st : Translation) : Translation :=
  let s1 := attachFormals f.formals 0 (funcLabelled f st)
  let s2 : Translation :=
    { s1 with funs := Function.update s1.funs f.sym
                { s1.funs f.sym with offset := (s1.funs f.sym).order * POINTER_SIZE } }
  let s3 := { s2 with tr := s2.tr.resetOffset }
  (offsetFormals f.formals s3).startFunc

/-- A state of the pass as `MindCompiler::translate` creates it: a new
helper, both current labels 0, every symbol unbound. -/
def sampleState : Translation :=
  Translation.create TransHelper.create 0 0 (fun _ => ⟨0, 0, 0⟩) (fun _ => ⟨0, 0, 0⟩)

/-- The plain variable with symbol `x`. -/
def plainVar (x : Nat) : VarRef := ⟨x, LvKind.SIMPLE_VAR⟩

/-- The function `int main() { while (x < 3) { if (x) break; else continue; } }`. -/
def sampleLoopFunc : FuncDefn :=
  { sym := 0, formals := [],
    stmts := StmtList.cons
      (Stmt.WhileStmt (Expr.LesExpr (Expr.LvalueExpr (plainVar 1)) (Expr.IntConst 3))
        (Stmt.IfStmt (Expr.LvalueExpr (plainVar 1)) Stmt.BreakStmt Stmt.ContStmt))
      StmtList.nil }

/-- The function `int main() { return 7; }`. -/
def sampleReturnFunc : FuncDefn :=
  { sym := 0, formals := [], stmts := StmtList.cons (Stmt.ReturnStmt (Expr.IntConst 7)) StmtList.nil }

/-- The function `int main() { for (;;) break; }`. -/
def sampleForeverFunc : FuncDefn :=
  { sym := 0, formals := [],
    stmts := StmtList.cons (Stmt.ForStmt none none none none Stmt.BreakStmt) StmtList.nil }

/-- A node that is lowered: a statement or an expression. -/
inductive Node where
  | stmt (s : Stmt)
  | expr (e : Expr)

/-- The lowering of a node (`node->accept(this)`). -/
def visitNode : Node → Translation → Except TransError Translation
  | Node.stmt s, st => visitStmt s st
  | Node.expr e, st => (visitExpr e st).map Prod.snd

/-- The statement `while (1) { do { for (;1;) break; } while (0); }`. -/
def sampleNestedLoops : Stmt :=
  Stmt.WhileStmt (Expr.IntConst 1) (Stmt.DoWhileStmt (Expr.IntConst 0)
    (Stmt.ForStmt none none (some (Expr.IntConst 1)) none Stmt.BreakStmt))

/-- The head of a loop with a condition: everything of a `while`, `do-while`
or `for` node but its body. -/
inductive LoopHead where
  | whileLoop (condition : Expr)
  | doWhileLoop (condition : Expr)
  | forLoop (exprInit : Option Expr) (varDeclInit : Option VarDecl) (condition : Expr)
      (update : Option Expr)

/-- The loop statement with the given head and body. -/
def LoopHead.toStmt : LoopHead → Stmt → Stmt
  | LoopHead.whileLoop c, body => Stmt.WhileStmt c body
  | LoopHead.doWhileLoop c, body => Stmt.DoWhileStmt c body
  | LoopHead.forLoop ei vi c upd, body => Stmt.ForStmt ei vi (some c) upd body

/-- The two kinds of jump statement. -/
inductive JumpKind where
  | breakJump
  | continueJump
  deriving DecidableEq, Repr

/-- The statement node of a jump kind. -/
def JumpKind.toStmt : JumpKind → Stmt
  | JumpKind.breakJump => Stmt.BreakStmt
  | JumpKind.continueJump => Stmt.ContStmt

/-- The exit label `L2` that a loop lowered from `st` issues. -/
def exitLabel (st : Translation) : Label :=
  st.getNewLabel.2.getNewLabel.1

/-- The continue label `L3` that a loop lowered from `st` issues. -/
def continueLabel (st : Translation) : Label :=
  st.getNewLabel.2.getNewLabel.2.getNewLabel.1

/-- The label of the loop lowered from `st` that belongs to a jump kind: the
exit label for `break`, the continue label for `continue`. -/
def JumpKind.loopLabel (j : JumpKind) (st : Translation) : Label :=
  match j with
  | JumpKind.breakJump => exitLabel st
  | JumpKind.continueJump => continueLabel st

/-- The concatenation of two statement lists. -/
def StmtList.append : StmtList → StmtList → StmtList
  | StmtList.nil, l => l
  | StmtList.cons s r, l => StmtList.cons s (r.append l)

/-- A position in a statement that is reached without entering a loop:
through the branches of `if` statements and the members of compound
statements. -/
inductive Ctx where
  | hole
  | ifTrue (condition : Expr) (inner : Ctx) (false_brch : Stmt)
  | ifFalse (condition : Expr) (true_brch : Stmt) (inner : Ctx)
  | comp (before : StmtList) (inner : Ctx) (after : StmtList)

/-- The statement with `x` at the position. -/
def Ctx.plug : Ctx → Stmt → Stmt
  | Ctx.hole, x => x
  | Ctx.ifTrue c inner f, x => Stmt.IfStmt c (inner.plug x) f
  | Ctx.ifFalse c t inner, x => Stmt.IfStmt c t (inner.plug x)
  | Ctx.comp before inner after, x =>
      Stmt.CompStmt (before.append (StmtList.cons (inner.plug x) after))

/-- The lowering of `F x` from `st` to `st'` goes through the lowering of
`x` from `sx` to `sx'`: the code `before` is emitted first, the code of `x`
next, the code `after` last, and a statement that behaves as `x` up to the
code it emits can take its place. -/
def LowersThrough (F : Stmt → Stmt) (x : Stmt) (st st' sx sx' : Translation)
    (before after : List Tac) : Prop :=
  visitStmt x sx = Except.ok sx' ∧ sx.tr.tacs = st.tr.tacs ++ before
    ∧ st'.tr.tacs = sx'.tr.tacs ++ after
    ∧ ∀ y code, visitStmt y sx = Except.ok (sx'.setTacs (sx.tr.tacs ++ code)) →
        visitStmt (F y) st = Except.ok (st'.setTacs (st.tr.tacs ++ before ++ code ++ after))

/-- The statement `while (1) { while (2) { break; } continue; }`. -/
def sampleLoopInLoop : Stmt :=
  Stmt.WhileStmt (Expr.IntConst 1) (Stmt.CompStmt (StmtList.cons
    (Stmt.WhileStmt (Expr.IntConst 2) Stmt.BreakStmt) (StmtList.cons Stmt.ContStmt StmtList.nil)))

/-- Modelled from the spec: the value computed by a binary instruction, on
integers; a comparison or a logical operator yields 1 or 0. -/
def BinaryOp.eval : BinaryOp → Int → Int → Int
  | BinaryOp.ADD, a, b => a + b
  | BinaryOp.SUB, a, b => a - b
  | BinaryOp.MUL, a, b => a * b
  | BinaryOp.DIV, a, b => a / b
  | BinaryOp.MOD, a, b => a % b
  | BinaryOp.LES, a, b => if a < b then 1 else 0
  | BinaryOp.GTR, a, b => if a > b then 1 else 0
  | BinaryOp.LEQ, a, b => if a ≤ b then 1 else 0
  | BinaryOp.GEQ, a, b => if a ≥ b then 1 else 0
  | BinaryOp.EQU, a, b => if a = b then 1 else 0
  | BinaryOp.NEQ, a, b => if a = b then 0 else 1
  | BinaryOp.LAND, a, b => if a = 0 then 0 else if b = 0 then 0 else 1
  | BinaryOp.LOR, a, b => if a = 0 then (if b = 0 then 0 else 1) else 1

/-- Modelled from the spec: the value computed by a unary instruction. -/
def UnaryOp.eval : UnaryOp → Int → Int
  | UnaryOp.NEG, a => -a
  | UnaryOp.LNOT, a => if a = 0 then 1 else 0
  | UnaryOp.BNOT, a => -a - 1

/-- A machine that runs an instruction sequence: the index of the next
instruction and the contents of the temporaries. -/
structure Machine where
  pc : Nat
  regs : Temp → Int

/-- The machine after a write of `v` to the temporary `d`, at the next
instruction. -/
def Machine.write (m : Machine) (d : Temp) (v : Int) : Machine :=
  { pc := m.pc + 1, regs := fun x => if x = d then v else m.regs x }

/-- The machine at the next instruction. -/
def Machine.next (m : Machine) : Machine :=
  { m with pc := m.pc + 1 }

/-- Modelled from the spec: a jump to `l` continues at the mark-label
instruction of `l`; there is none to continue at when `l` is not marked. -/
def jumpTo (P : List Tac) (l : Label) (m : Machine) : Option Machine :=
  if Tac.Mark l ∈ P then some { m with pc := P.indexOf (Tac.Mark l) } else none

/-- Modelled from the spec: one step of the machine on the sequence `P`;
`none` when the machine stops (past the end of the sequence, at a return, at
function-exit, or at a jump to a label that is not marked). -/
def step (P : List Tac) (m : Machine) : Option Machine :=
  match P[m.pc]? with
  | none => none
  | some (Tac.LoadImm4 d v) => some (m.write d v)
  | some (Tac.Binary op d a b) => some (m.write d (op.eval (m.regs a) (m.regs b)))
  | some (Tac.Unary op d a) => some (m.write d (op.eval (m.regs a)))
  | some (Tac.Assign d s) => some (m.write d (m.regs s))
  | some (Tac.Jump l) => jumpTo P l m
  | some (Tac.JZero l c) => if m.regs c = 0 then jumpTo P l m else some m.next
  | some (Tac.Mark _) => some m.next
  | some (Tac.Return _) => none
  | some Tac.FuncEnter => some m.next
  | some Tac.FuncExit => none

/-- At most `n` steps of the machine: the machine reached and the indices of
the instructions executed, in order. -/
def exec (P : List Tac) : Nat → Machine → Machine × List Nat
  | 0, m => (m, [])
  | n + 1, m =>
    match step P m with
    | none => (m, [])
    | some m' => ((exec P n m').1, m.pc :: (exec P n m').2)

/-- The machine gets from `m` to `m'` on `P`, executing the instructions at
the indices `trace`. -/
inductive Runs (P : List Tac) : Machine → Machine → List Nat → Prop where
  | done (m : Machine) : Runs P m m []
  | more {m m1 m2 : Machine} {trace : List Nat} :
      step P m = some m1 → Runs P m1 m2 trace → Runs P m m2 (m.pc :: trace)

/-- The instruction sequence of a conditional expression, from the codes of
its three parts, its two labels, the value temporaries of the parts and the
result temporary `r`. -/
def ternaryCode (cc ct cf : List Tac) (elseEntry join : Label) (vc r vt vf : Temp) :
    List Tac :=
  cc ++ [Tac.JZero elseEntry vc] ++ ct
    ++ [Tac.Assign r vt, Tac.Jump join, Tac.Mark elseEntry] ++ cf
    ++ [Tac.Assign r vf, Tac.Mark join]

/-- The expression `(a < b) ? 1 : 2`, for the plain variables 1 and 2. -/
def sampleTernary : Expr :=
  Expr.IfExpr (Expr.LesExpr (Expr.LvalueExpr (plainVar 1)) (Expr.LvalueExpr (plainVar 2)))
    (Expr.IntConst 1) (Expr.IntConst 2)

/-- The starting state in which the variable 1 is bound to the temporary 10
and the variable 2 to the temporary 11. -/
def sampleTernaryState : Translation :=
  sampleState.setVars (fun s => if s = 1 then ⟨10, 0, 0⟩ else ⟨11, 0, 0⟩)

/-- The instructions `sampleTernary` lowers to, from `sampleTernaryState`. -/
def sampleTernaryCode : List Tac :=
  [Tac.Binary BinaryOp.LES 0 10 11, Tac.JZero 0 0, Tac.LoadImm4 2 1, Tac.Assign 1 2,
    Tac.Jump 1, Tac.Mark 0, Tac.LoadImm4 3 2, Tac.Assign 1 3, Tac.Mark 1]

/-- The temporaries in which `a` (the temporary 10) holds `x`, `b` (the
temporary 11) holds `y`, and the others 0. -/
def sampleRegs (x y : Int) : Temp → Int :=
  fun k => if k = 10 then x else if k = 11 then y else 0

/-- The label that a jump statement lowered in the state `st` jumps to: the
current break label for `break`, the current continue label for `continue`. -/
def JumpKind.currentLabel (j : JumpKind) (st : Translation) : Label :=
  match j with
  | JumpKind.breakJump => st.current_break_label
  | JumpKind.continueJump => st.current_continue_label

/-- The state in which the first part of a loop is lowered: the three labels
issued, the exit and continue labels current. -/
def loopStart (st : Translation) : Translation :=
  st.getNewLabel.2.getNewLabel.2.getNewLabel.2.setLabels (exitLabel st) (continueLabel st)

/-- The statement `do { continue; } while (0);`. -/
def sampleDoWhile : Stmt :=
  Stmt.DoWhileStmt (Expr.IntConst 0) Stmt.ContStmt

/-- The statement `while (1) continue;`. -/
def sampleWhileContinue : Stmt :=
  Stmt.WhileStmt (Expr.IntConst 1) Stmt.ContStmt

/-- The statement `for (1; 2; 3) continue;`. -/
def sampleFor : Stmt :=
  Stmt.ForStmt (some (Expr.IntConst 1)) none (some (Expr.IntConst 2)) (some (Expr.IntConst 3))
    Stmt.ContStmt

/-- The statement `if (1) return 2;`, with the empty statement as its false
branch. -/
def sampleIf : Stmt :=
  Stmt.IfStmt (Expr.IntConst 1) (Stmt.ReturnStmt (Expr.IntConst 2)) Stmt.EmptyStmt

/-- The expression `1 && 2`. -/
def sampleAnd : Expr :=
  Expr.AndExpr (Expr.IntConst 1) (Expr.IntConst 2)

/-- The declaration `int x = 5;` of the variable 1. -/
def sampleDecl : VarDecl :=
  { sym := 1, init := some (Expr.IntConst 5) }

/-- The expression `a + (a = 5)`, for the plain variable 1. -/
def sampleAddAssign : Expr :=
  Expr.AddExpr (Expr.LvalueExpr (plainVar 1))
    (Expr.AssignExpr (plainVar 1) (Expr.IntConst 5))

/-- The for node with both initializers set: the expression `1` and the
declaration `int x = 5;`, the condition `2`, no update, an empty body. -/
def sampleForBothInits : Stmt :=
  Stmt.ForStmt (some (Expr.IntConst 1)) (some sampleDecl) (some (Expr.IntConst 2)) none
    Stmt.EmptyStmt

/-- Modelled from the spec: the temporaries an instruction reads. -/
def Tac.reads : Tac → List Temp
  | Tac.Binary _ _ a b => [a, b]
  | Tac.Unary _ _ a => [a]
  | Tac.Assign _ s => [s]
  | Tac.JZero _ c => [c]
  | Tac.Return v => [v]
  | _ => []

/-- Modelled from the spec: the temporary an instruction writes. -/
def Tac.writes : Tac → Option Temp
  | Tac.LoadImm4 d _ => some d
  | Tac.Binary _ d _ _ => some d
  | Tac.Unary _ d _ => some d
  | Tac.Assign d _ => some d
  | _ => none

/-- The label an instruction may jump to. -/
def Tac.target : Tac → Option Label
  | Tac.Jump l => some l
  | Tac.JZero l _ => some l
  | _ => none

/-- Modelled from the spec: control goes on from the instruction to the next
one of the sequence; it does not after an unconditional jump, a return and
function-exit. -/
def Tac.fallsThrough : Tac → Bool
  | Tac.Jump _ => false
  | Tac.Return _ => false
  | Tac.FuncExit => false
  | _ => true

/-- Modelled from the spec: the indices control can get to from the
instruction at index `k` of the sequence `P`: the next index by fall-through,
and the index of the mark-label instruction of the target of a jump or
conditional jump. -/
def succs (P : List Tac) (k : Nat) : List Nat :=
  match P[k]? with
  | some (Tac.Jump l) => if Tac.Mark l ∈ P then [P.indexOf (Tac.Mark l)] else []
  | some (Tac.JZero l _) =>
      (k + 1) :: (if Tac.Mark l ∈ P then [P.indexOf (Tac.Mark l)] else [])
  | some (Tac.Return _) => []
  | some Tac.FuncExit => []
  | some _ => [k + 1]
  | none => []

/-- The check that each index of the list is followed by one control can get
to from it in the sequence `P`. -/
def isPath (P : List Tac) : List Nat → Bool
  | a :: b :: rest => decide (b ∈ succs P a) && isPath P (b :: rest)
  | _ => true

/-- A control-flow path through the sequence `P`: each index is followed by
one control can get to from it. -/
def IsPath (P : List Tac) (path : List Nat) : Prop :=
  isPath P path = true

instance (P : List Tac) (path : List Nat) : Decidable (IsPath P path) :=
  inferInstanceAs (Decidable (isPath P path = true))

/-- The condition on one instruction in a sequence annotated with sets of
temporaries that are written on every path: `D` is the set before the
instruction and `D'` the set before the next one, `L l` the set at the mark
of the label `l`, and `V` the temporaries that need not be written. Every
temporary read is in `D` or in `V`; the set of a jump target is within `D`;
the set before a mark is within the set of its label; and when control goes
on to the next instruction, `D'` is within `D` and the temporary written. -/
def StepOK (V : Temp → Prop) (L : Nat → Temp → Prop) (i : Tac) (D D' : Temp → Prop) : Prop :=
  (∀ t ∈ i.reads, D t ∨ V t)
  ∧ (∀ l, i.target = some l → ∀ t, L l t → D t)
  ∧ (∀ l, i = Tac.Mark l → ∀ t, D t → L l t)
  ∧ (i.fallsThrough = true → ∀ t, D' t → D t ∨ i.writes = some t)

/-- A sequence of instructions can be annotated: from the set `W` before it
to the set `W'` after it, with the condition `StepOK` on each instruction. -/
def Flow (V : Temp → Prop) (L : Nat → Temp → Prop) :
    (Temp → Prop) → List Tac → (Temp → Prop) → Prop
  | W, [], W' => ∀ t, W' t → W t
  | W, i :: rest, W' =>
      ∃ D D' : Temp → Prop, (∀ t, D t → W t) ∧ StepOK V L i D D' ∧ Flow V L D' rest W'

/-- The sets of labels below `b` taken from `f`, the others from `g`. -/
def pickLabels (b : Nat) (f g : Nat → Temp → Prop) : Nat → Temp → Prop :=
  fun l => if l < b then f l else g l

/-- The code of a statement can be annotated, from the empty set to the
empty set, with every choice of sets for the labels that is some fixed
choice on the labels from `lo` up to `hi` and is empty on the current break
label when `fb` holds and on the current continue label when `fc` holds. -/
def Annotated (V : Temp → Prop) (lo hi : Nat) (fb fc : Bool) (brk cont : Nat)
    (code : List Tac) : Prop :=
  ∃ Lf : Nat → Temp → Prop, ∀ L : Nat → Temp → Prop,
    (∀ l : Nat, lo ≤ l → l < hi → L l = Lf l) →
    (fb = true → ∀ t, ¬ L brk t) → (fc = true → ∀ t, ¬ L cont t) →
    Flow V L (fun _ => False) code (fun _ => False)

/-- The code of an expression with the value `v` can be annotated, from any
set to a set that has it and, unless it is in `V`, the temporary `v`, with
every choice of sets for the labels that is some fixed choice on the labels
from `lo` up to `hi`. -/
def ExprAnnotated (V : Temp → Prop) (lo hi : Nat) (code : List Tac) (v : Temp) : Prop :=
  ∀ W : Temp → Prop, ∃ (W' : Temp → Prop) (Lf : Nat → Temp → Prop),
    (∀ t, W t → W' t) ∧ (W' v ∨ V v)
    ∧ ∀ L : Nat → Temp → Prop, (∀ l : Nat, lo ≤ l → l < hi → L l = Lf l) → Flow V L W code W'

/-- The symbol that the initializer of a `for` declares, if any: the
declaration initializer is lowered only when there is no expression
initializer. -/
def forDecls (exprInit : Option Expr) (varDeclInit : Option VarDecl) : List Nat :=
  match exprInit, varDeclInit with
  | none, some d => [d.sym]
  | _, _ => []

mutual
/-- The symbols that the declarations of the statement bind, in the order
of the lowering. -/
def Stmt.decls : Stmt → List Nat
  | Stmt.VarDecl d => [d.sym]
  | Stmt.IfStmt _ t f => t.decls ++ f.decls
  | Stmt.WhileStmt _ b => b.decls
  | Stmt.DoWhileStmt _ b => b.decls
  | Stmt.ForStmt ei vi _ _ b => forDecls ei vi ++ b.decls
  | Stmt.CompStmt l => l.decls
  | _ => []
/-- The symbols that the declarations of the statements of the list bind. -/
def StmtList.decls : StmtList → List Nat
  | StmtList.nil => []
  | StmtList.cons s l => s.decls ++ l.decls
end

/-- The function `int main() { int x; return x; }`, `x` the variable 1. -/
def sampleUninitFunc : FuncDefn :=
  { sym := 0, formals := [],
    stmts := StmtList.cons (Stmt.VarDecl { sym := 1, init := none })
      (StmtList.cons (Stmt.ReturnStmt (Expr.LvalueExpr (plainVar 1))) StmtList.nil) }

/-- The piece of `sampleUninitFunc`. -/
def sampleUninitPiece : List Tac :=
  [Tac.FuncEnter, Tac.Return 0, Tac.LoadImm4 1 0, Tac.Return 1, Tac.FuncExit]

/-- The function `int main() { return 1 ? 2 : 3; }`. -/
def sampleTernaryFunc : FuncDefn :=
  { sym := 0, formals := [],
    stmts := StmtList.cons (Stmt.ReturnStmt
      (Expr.IfExpr (Expr.IntConst 1) (Expr.IntConst 2) (Expr.IntConst 3))) StmtList.nil }

/-- The piece of `sampleTernaryFunc`. -/
def sampleTernaryPiece : List Tac :=
  [Tac.FuncEnter, Tac.LoadImm4 0 1, Tac.JZero 1 0, Tac.LoadImm4 2 2, Tac.Assign 1 2,
    Tac.Jump 2, Tac.Mark 1, Tac.LoadImm4 3 3, Tac.Assign 1 3, Tac.Mark 2, Tac.Return 1,
    Tac.LoadImm4 4 0, Tac.Return 4, Tac.FuncExit]

/-- The expression `x = (y = 5)` in which the lvalue `y` of the inner
assignment is not a plain variable and the lvalue `x` of the outer one is. -/
def sampleBadInner : Expr :=
  Expr.AssignExpr (plainVar 1) (Expr.AssignExpr ⟨2, LvKind.OTHER 0⟩ (Expr.IntConst 5))

/-- The expression `x = 5 + (y = 6)` in which the lvalue `y` is not a plain
variable and the lvalue `x` is. -/
def sampleBadSum : Expr :=
  Expr.AssignExpr (plainVar 1)
    (Expr.AddExpr (Expr.IntConst 5) (Expr.AssignExpr ⟨2, LvKind.OTHER 0⟩ (Expr.IntConst 6)))

/-! ## Auxiliary facts about `Except` -/

theorem bind_eq_ok {ε α β : Type} (x : Except ε α) (f : α → Except ε β) (b : β) :
    (x >>= f) = Except.ok b ↔ ∃ a, x = Except.ok a ∧ f a = Except.ok b := by
  cases x <;> simp [bind, Except.bind]

theorem map_eq_ok {ε α β : Type} (x : Except ε α) (f : α → β) (b : β) :
    (x.map f) = Except.ok b ↔ ∃ a, x = Except.ok a ∧ f a = b := by
  cases x <;> simp [Except.map]

theorem pure_eq_ok {ε α : Type} (a b : α) :
    (pure a : Except ε α) = Except.ok b ↔ a = b := by
  simp [pure, Except.pure]

/-! ## Normal forms of states

Every state reached by the pass from a state `st` is `st` with some labels
and temporaries issued, some symbols rebound, the two current labels set and
the instruction sequence replaced; the four operations below commute, and the
rewriting rules bring a state into the order
`(((st.setLabels b c).setVars vs).bump nl nt).setTacs code`. -/

namespace Translation

section projections

variable (st : Translation) (nl nt : Nat) (code : List Tac) (vs : Nat → Variable)
  (b c : Label) (x : Nat) (t : Temp)

@[simp] theorem bump_labelCount : (st.bump nl nt).tr.labelCount = st.tr.labelCount + nl := rfl

@[simp] theorem bump_tempCount : (st.bump nl nt).tr.tempCount = st.tr.tempCount + nt := rfl

@[simp] theorem bump_tacs : (st.bump nl nt).tr.tacs = st.tr.tacs := rfl

@[simp] theorem bump_pieces : (st.bump nl nt).tr.pieces = st.tr.pieces := rfl

@[simp] theorem bump_parameterOffset :
    (st.bump nl nt).tr.parameterOffset = st.tr.parameterOffset := rfl

@[simp] theorem bump_break :
    (st.bump nl nt).current_break_label = st.current_break_label := rfl

@[simp] theorem bump_continue :
    (st.bump nl nt).current_continue_label = st.current_continue_label := rfl

@[simp] theorem bump_vars : (st.bump nl nt).vars = st.vars := rfl

@[simp] theorem bump_funs : (st.bump nl nt).funs = st.funs := rfl

@[simp] theorem bump_getTemp : (st.bump nl nt).getTemp x = st.getTemp x := rfl

@[simp] theorem setTacs_labelCount : (st.setTacs code).tr.labelCount = st.tr.labelCount := rfl

@[simp] theorem setTacs_tempCount : (st.setTacs code).tr.tempCount = st.tr.tempCount := rfl

@[simp] theorem setTacs_tacs : (st.setTacs code).tr.tacs = code := rfl

@[simp] theorem setTacs_pieces : (st.setTacs code).tr.pieces = st.tr.pieces := rfl

@[simp] theorem setTacs_parameterOffset :
    (st.setTacs code).tr.parameterOffset = st.tr.parameterOffset := rfl

@[simp] theorem setTacs_break :
    (st.setTacs code).current_break_label = st.current_break_label := rfl

@[simp] theorem setTacs_continue :
    (st.setTacs code).current_continue_label = st.current_continue_label := rfl

@[simp] theorem setTacs_vars : (st.setTacs code).vars = st.vars := rfl

@[simp] theorem setTacs_funs : (st.setTacs code).funs = st.funs := rfl

@[simp] theorem setTacs_getTemp : (st.setTacs code).getTemp x = st.getTemp x := rfl

@[simp] theorem setVars_tr : (st.setVars vs).tr = st.tr := rfl

@[simp] theorem setVars_break :
    (st.setVars vs).current_break_label = st.current_break_label := rfl

@[simp] theorem setVars_continue :
    (st.setVars vs).current_continue_label = st.current_continue_label := rfl

@[simp] theorem setVars_vars : (st.setVars vs).vars = vs := rfl

@[simp] theorem setVars_funs : (st.setVars vs).funs = st.funs := rfl

@[simp] theorem setVars_getTemp : (st.setVars vs).getTemp x = (vs x).temp := rfl

@[simp] theorem setLabels_tr : (st.setLabels b c).tr = st.tr := rfl

@[simp] theorem setLabels_break : (st.setLabels b c).current_break_label = b := rfl

@[simp] theorem setLabels_continue : (st.setLabels b c).current_continue_label = c := rfl

@[simp] theorem setLabels_vars : (st.setLabels b c).vars = st.vars := rfl

@[simp] theorem setLabels_funs : (st.setLabels b c).funs = st.funs := rfl

@[simp] theorem setLabels_getTemp : (st.setLabels b c).getTemp x = st.getTemp x := rfl

end projections

section rewriting

variable (st : Translation) (nl nt ml mt : Nat) (code code2 : List Tac)
  (vs ws : Nat → Variable) (b c b2 c2 : Label)

@[simp] theorem setTacs_setTacs : (st.setTacs code).setTacs code2 = st.setTacs code2 := rfl

@[simp] theorem bump_setTacs : (st.setTacs code).bump nl nt = (st.bump nl nt).setTacs code := rfl

@[simp] theorem setVars_setTacs :
    (st.setTacs code).setVars vs = (st.setVars vs).setTacs code := rfl

@[simp] theorem setLabels_setTacs :
    (st.setTacs code).setLabels b c = (st.setLabels b c).setTacs code := rfl

@[simp] theorem bump_bump : (st.bump nl nt).bump ml mt = st.bump (nl + ml) (nt + mt) := by
  simp [bump, TransHelper.bump, Nat.add_assoc]

@[simp] theorem setVars_bump : (st.bump nl nt).setVars vs = (st.setVars vs).bump nl nt := rfl

@[simp] theorem setLabels_bump :
    (st.bump nl nt).setLabels b c = (st.setLabels b c).bump nl nt := rfl

@[simp] theorem setVars_setVars : (st.setVars vs).setVars ws = st.setVars ws := rfl

@[simp] theorem setLabels_setVars :
    (st.setVars vs).setLabels b c = (st.setLabels b c).setVars vs := rfl

@[simp] theorem setLabels_setLabels :
    (st.setLabels b c).setLabels b2 c2 = st.setLabels b2 c2 := rfl

@[simp] theorem setLabels_self :
    st.setLabels st.current_break_label st.current_continue_label = st := rfl

@[simp] theorem setVars_self : st.setVars st.vars = st := rfl

@[simp] theorem setTacs_self : st.setTacs st.tr.tacs = st := rfl

@[simp] theorem bump_zero : st.bump 0 0 = st := rfl

end rewriting

section emitters

variable (st : Translation)

@[simp] theorem genAssign_eq (d s : Temp) :
    st.genAssign d s = st.setTacs (st.tr.tacs ++ [Tac.Assign d s]) := rfl

@[simp] theorem genJump_eq (l : Label) :
    st.genJump l = st.setTacs (st.tr.tacs ++ [Tac.Jump l]) := rfl

@[simp] theorem genJumpOnZero_eq (l : Label) (c : Temp) :
    st.genJumpOnZero l c = st.setTacs (st.tr.tacs ++ [Tac.JZero l c]) := rfl

@[simp] theorem genMarkLabel_eq (l : Label) :
    st.genMarkLabel l = st.setTacs (st.tr.tacs ++ [Tac.Mark l]) := rfl

@[simp] theorem genReturn_eq (t : Temp) :
    st.genReturn t = st.setTacs (st.tr.tacs ++ [Tac.Return t]) := rfl

@[simp] theorem getNewLabel_eq : st.getNewLabel = (st.tr.labelCount, st.bump 1 0) := rfl

@[simp] theorem getNewTempI4_eq : st.getNewTempI4 = (st.tr.tempCount, st.bump 0 1) := rfl

@[simp] theorem genLoadImm4_eq (v : Int) :
    st.genLoadImm4 v
      = (st.tr.tempCount,
          (st.bump 0 1).setTacs (st.tr.tacs ++ [Tac.LoadImm4 st.tr.tempCount v])) := rfl

@[simp] theorem genBinary_eq (op : BinaryOp) (a b : Temp) :
    st.genBinary (TransHelper.genBinary op) a b
      = (st.tr.tempCount,
          (st.bump 0 1).setTacs (st.tr.tacs ++ [Tac.Binary op st.tr.tempCount a b])) := rfl

@[simp] theorem genUnary_eq (op : UnaryOp) (a : Temp) :
    st.genUnary (TransHelper.genUnary op) a
      = (st.tr.tempCount,
          (st.bump 0 1).setTacs (st.tr.tacs ++ [Tac.Unary op st.tr.tempCount a])) := rfl

@[simp] theorem attachTemp_eq (x : Nat) (t : Temp) :
    st.attachTemp x t
      = st.setVars (Function.update st.vars x { st.vars x with temp := t }) := rfl

end emitters

end Translation

/-! ## The equations of the visits, on normal forms -/

/-- Induction over expressions with the thirteen binary and the three unary
node kinds treated uniformly. -/
theorem Expr.induction_by_kind {motive : Expr → Prop}
    (assign : ∀ left e, motive e → motive (Expr.AssignExpr left e))
    (binary : ∀ (k : BinaryKind) e1 e2, motive e1 → motive e2 → motive (k.toExpr e1 e2))
    (const : ∀ value, motive (Expr.IntConst value))
    (unary : ∀ (k : UnaryKind) e, motive e → motive (k.toExpr e))
    (lvalue : ∀ lv, motive (Expr.LvalueExpr lv))
    (ifExpr : ∀ c t f, motive c → motive t → motive f → motive (Expr.IfExpr c t f)) :
    ∀ e, motive e := by
  intro e
  induction e with
  | AssignExpr left e ih => exact assign left e ih
  | AddExpr e1 e2 ih1 ih2 => exact binary .add e1 e2 ih1 ih2
  | SubExpr e1 e2 ih1 ih2 => exact binary .sub e1 e2 ih1 ih2
  | MulExpr e1 e2 ih1 ih2 => exact binary .mul e1 e2 ih1 ih2
  | DivExpr e1 e2 ih1 ih2 => exact binary .div e1 e2 ih1 ih2
  | ModExpr e1 e2 ih1 ih2 => exact binary .mod e1 e2 ih1 ih2
  | LesExpr e1 e2 ih1 ih2 => exact binary .les e1 e2 ih1 ih2
  | GrtExpr e1 e2 ih1 ih2 => exact binary .grt e1 e2 ih1 ih2
  | LeqExpr e1 e2 ih1 ih2 => exact binary .leq e1 e2 ih1 ih2
  | GeqExpr e1 e2 ih1 ih2 => exact binary .geq e1 e2 ih1 ih2
  | EquExpr e1 e2 ih1 ih2 => exact binary .equ e1 e2 ih1 ih2
  | NeqExpr e1 e2 ih1 ih2 => exact binary .neq e1 e2 ih1 ih2
  | AndExpr e1 e2 ih1 ih2 => exact binary .and e1 e2 ih1 ih2
  | OrExpr e1 e2 ih1 ih2 => exact binary .or e1 e2 ih1 ih2
  | IntConst value => exact const value
  | NegExpr e ih => exact unary .neg e ih
  | NotExpr e ih => exact unary .not e ih
  | BitNotExpr e ih => exact unary .bitNot e ih
  | LvalueExpr lv => exact lvalue lv
  | IfExpr c t f ihc iht ihf => exact ifExpr c t f ihc iht ihf

theorem visitVarRef_ok (ref : VarRef) (st st' : Translation) :
    visitVarRef ref st = Except.ok st' ↔ ref.lv_kind = LvKind.SIMPLE_VAR ∧ st' = st := by
  unfold visitVarRef
  cases ref.lv_kind <;> simp [eq_comm]

theorem visitExpr_assign (left : VarRef) (e : Expr) (st : Translation) :
    visitExpr (Expr.AssignExpr left e) st = (do
      let s1 ← visitVarRef left st
      let r ← visitExpr e s1
      pure (r.1, r.2.setTacs (r.2.tr.tacs ++ [Tac.Assign (r.2.getTemp left.sym) r.1]))) := by
  rw [visitExpr]; rfl

theorem visitExpr_binary (k : BinaryKind) (e1 e2 : Expr) (st : Translation) :
    visitExpr (k.toExpr e1 e2) st = (do
      let r1 ← visitExpr e1 st
      let r2 ← visitExpr e2 r1.2
      pure (r2.2.tr.tempCount,
        (r2.2.bump 0 1).setTacs (r2.2.tr.tacs ++ [Tac.Binary k.op r2.2.tr.tempCount r1.1 r2.1]))) := by
  cases k <;> (simp only [BinaryKind.toExpr]; rw [visitExpr]; rfl)

theorem visitExpr_const (value : Int) (st : Translation) :
    visitExpr (Expr.IntConst value) st
      = Except.ok (st.tr.tempCount,
          (st.bump 0 1).setTacs (st.tr.tacs ++ [Tac.LoadImm4 st.tr.tempCount value])) := by
  rw [visitExpr]; rfl

theorem visitExpr_unary (k : UnaryKind) (e : Expr) (st : Translation) :
    visitExpr (k.toExpr e) st = (do
      let r1 ← visitExpr e st
      pure (r1.2.tr.tempCount,
        (r1.2.bump 0 1).setTacs (r1.2.tr.tacs ++ [Tac.Unary k.op r1.2.tr.tempCount r1.1]))) := by
  cases k <;> (simp only [UnaryKind.toExpr]; rw [visitExpr]; rfl)

theorem visitExpr_lvalue (lv : VarRef) (st : Translation) :
    visitExpr (Expr.LvalueExpr lv) st = (do
      let s1 ← visitVarRef lv st
      pure (s1.getTemp lv.sym, s1)) := by
  rw [visitExpr]

theorem visitExpr_ifExpr (c t f : Expr) (st : Translation) :
    visitExpr (Expr.IfExpr c t f) st = (do
      let rc ← visitExpr c (st.bump 2 0)
      let rt ← visitExpr t
        ((rc.2.bump 0 1).setTacs (rc.2.tr.tacs ++ [Tac.JZero st.tr.labelCount rc.1]))
      let rf ← visitExpr f
        (rt.2.setTacs (rt.2.tr.tacs ++ [Tac.Assign rc.2.tr.tempCount rt.1,
          Tac.Jump (st.tr.labelCount + 1), Tac.Mark st.tr.labelCount]))
      pure (rc.2.tr.tempCount,
        rf.2.setTacs (rf.2.tr.tacs ++ [Tac.Assign rc.2.tr.tempCount rf.1,
          Tac.Mark (st.tr.labelCount + 1)]))) := by
  rw [visitExpr]; simp

/-! ## The emitted code does not depend on the instructions emitted before -/

theorem ok_bind {ε α β : Type} (a : α) (f : α → Except ε β) :
    ((Except.ok a : Except ε α) >>= f) = f a := rfl

/-- Expressions: a visit leaves the state as it was up to the identifiers it
issued and the code it appended, and the visit from `st` with any other
instruction sequence issues the same identifiers and appends the same code. -/
theorem visitExpr_frame (e : Expr) :
    ∀ (st : Translation) (v : Temp) (st' : Translation),
      visitExpr e st = Except.ok (v, st') →
      ∃ nl nt code, st' = (st.bump nl nt).setTacs (st.tr.tacs ++ code) ∧
        ∀ t, visitExpr e (st.setTacs t)
          = Except.ok (v, (st.bump nl nt).setTacs (t ++ code)) := by
  induction e using Expr.induction_by_kind with
  | assign left e ih =>
    intro st v st' h
    rw [visitExpr_assign] at h
    simp only [bind_eq_ok, pure_eq_ok, visitVarRef_ok] at h
    obtain ⟨s1, ⟨hk, rfl⟩, ⟨v1, s2⟩, hr, heq⟩ := h
    obtain ⟨nl, nt, code, rfl, F⟩ := ih _ _ _ hr
    simp only [Prod.mk.injEq] at heq
    obtain ⟨rfl, rfl⟩ := heq
    refine ⟨nl, nt, code ++ [Tac.Assign (s1.getTemp left.sym) v1], by simp, fun t => ?_⟩
    have hv : (visitVarRef left (s1.setTacs t)) = Except.ok (s1.setTacs t) := by
      rw [visitVarRef_ok]; exact ⟨hk, rfl⟩
    rw [visitExpr_assign, hv, ok_bind, F t, ok_bind]
    simp [pure, Except.pure]
  | binary k e1 e2 ih1 ih2 =>
    intro st v st' h
    rw [visitExpr_binary] at h
    simp only [bind_eq_ok, pure_eq_ok] at h
    obtain ⟨⟨v1, s1⟩, h1, ⟨v2, s2⟩, h2, heq⟩ := h
    obtain ⟨nl1, nt1, c1, rfl, F1⟩ := ih1 _ _ _ h1
    obtain ⟨nl2, nt2, c2, rfl, F2⟩ := ih2 _ _ _ h2
    simp only [Prod.mk.injEq] at heq
    obtain ⟨rfl, rfl⟩ := heq
    refine ⟨nl1 + nl2, nt1 + nt2 + 1,
      c1 ++ c2 ++ [Tac.Binary k.op (st.tr.tempCount + nt1 + nt2) v1 v2], by simp [Nat.add_assoc],
      fun t => ?_⟩
    have F2t := F2 (t ++ c1)
    simp only [Translation.setTacs_setTacs] at F2t
    rw [visitExpr_binary, F1 t, ok_bind, F2t, ok_bind]
    simp [pure, Except.pure, Nat.add_assoc]
  | const value =>
    intro st v st' h
    rw [visitExpr_const] at h
    simp only [Except.ok.injEq, Prod.mk.injEq] at h
    obtain ⟨rfl, rfl⟩ := h
    refine ⟨0, 1, [Tac.LoadImm4 st.tr.tempCount value], rfl, fun t => ?_⟩
    rw [visitExpr_const]
    simp
  | unary k e ih =>
    intro st v st' h
    rw [visitExpr_unary] at h
    simp only [bind_eq_ok, pure_eq_ok] at h
    obtain ⟨⟨v1, s1⟩, h1, heq⟩ := h
    obtain ⟨nl1, nt1, c1, rfl, F1⟩ := ih _ _ _ h1
    simp only [Prod.mk.injEq] at heq
    obtain ⟨rfl, rfl⟩ := heq
    refine ⟨nl1, nt1 + 1, c1 ++ [Tac.Unary k.op (st.tr.tempCount + nt1) v1], by simp, fun t => ?_⟩
    rw [visitExpr_unary, F1 t, ok_bind]
    simp [pure, Except.pure]
  | lvalue lv =>
    intro st v st' h
    rw [visitExpr_lvalue] at h
    simp only [bind_eq_ok, pure_eq_ok, visitVarRef_ok] at h
    obtain ⟨s1, ⟨hk, rfl⟩, heq⟩ := h
    simp only [Prod.mk.injEq] at heq
    obtain ⟨rfl, rfl⟩ := heq
    refine ⟨0, 0, [], by simp, fun t => ?_⟩
    have hv : (visitVarRef lv (s1.setTacs t)) = Except.ok (s1.setTacs t) := by
      rw [visitVarRef_ok]; exact ⟨hk, rfl⟩
    rw [visitExpr_lvalue, hv, ok_bind]
    simp [pure, Except.pure]
  | ifExpr c t f ihc iht ihf =>
    intro st v st' h
    rw [visitExpr_ifExpr] at h
    simp only [bind_eq_ok, pure_eq_ok] at h
    obtain ⟨⟨vc, sc⟩, hc, ⟨vt, s1⟩, h1, ⟨vf, s2⟩, h2, heq⟩ := h
    obtain ⟨nlc, ntc, cc, rfl, Fc⟩ := ihc _ _ _ hc
    simp at h1 Fc
    obtain ⟨nlt, ntt, ct, rfl, Ft⟩ := iht _ _ _ h1
    simp at h2 Ft
    obtain ⟨nlf, ntf, cf, rfl, Ff⟩ := ihf _ _ _ h2
    simp at Ff
    simp only [Prod.mk.injEq] at heq
    obtain ⟨rfl, rfl⟩ := heq
    refine ⟨2 + nlc + nlt + nlf, ntc + 1 + ntt + ntf,
      cc ++ [Tac.JZero st.tr.labelCount vc] ++ ct
        ++ [Tac.Assign (st.tr.tempCount + ntc) vt, Tac.Jump (st.tr.labelCount + 1),
            Tac.Mark st.tr.labelCount]
        ++ cf ++ [Tac.Assign (st.tr.tempCount + ntc) vf, Tac.Mark (st.tr.labelCount + 1)],
      ?_, fun u => ?_⟩
    · simp [Nat.add_assoc]
    · rw [visitExpr_ifExpr]
      simp [Fc, ok_bind, Ft, Ff, pure, Except.pure]

theorem visitVarDecl_eq (decl : VarDecl) (st : Translation) :
    visitVarDecl decl st =
      match decl.init with
      | some init => (do
          let r ← visitExpr init ((st.setVars (Function.update st.vars decl.sym
            { st.vars decl.sym with temp := st.tr.tempCount })).bump 0 1)
          pure (r.2.setTacs (r.2.tr.tacs ++ [Tac.Assign (r.2.getTemp decl.sym) r.1])))
      | none => pure ((st.setVars (Function.update st.vars decl.sym
            { st.vars decl.sym with temp := st.tr.tempCount })).bump 0 1) := by
  unfold visitVarDecl
  cases decl.init <;> simp

theorem visitStmt_varDecl (decl : VarDecl) (st : Translation) :
    visitStmt (Stmt.VarDecl decl) st = visitVarDecl decl st := by
  rw [visitStmt]

theorem visitStmt_exprStmt (e : Expr) (st : Translation) :
    visitStmt (Stmt.ExprStmt e) st = (do let r ← visitExpr e st; pure r.2) := by
  rw [visitStmt]

theorem visitStmt_if (c : Expr) (t f : Stmt) (st : Translation) :
    visitStmt (Stmt.IfStmt c t f) st = (do
      let rc ← visitExpr c (st.bump 2 0)
      let s1 ← visitStmt t (rc.2.setTacs (rc.2.tr.tacs ++ [Tac.JZero st.tr.labelCount rc.1]))
      let s2 ← visitStmt f (s1.setTacs (s1.tr.tacs ++
        [Tac.Jump (st.tr.labelCount + 1), Tac.Mark st.tr.labelCount]))
      pure (s2.setTacs (s2.tr.tacs ++ [Tac.Mark (st.tr.labelCount + 1)]))) := by
  rw [visitStmt]; simp

theorem visitStmt_while (c : Expr) (b : Stmt) (st : Translation) :
    visitStmt (Stmt.WhileStmt c b) st = (do
      let rc ← visitExpr c
        (((st.setLabels (st.tr.labelCount + 1) (st.tr.labelCount + 2)).bump 3 0).setTacs
          (st.tr.tacs ++ [Tac.Mark st.tr.labelCount]))
      let s1 ← visitStmt b (rc.2.setTacs (rc.2.tr.tacs ++ [Tac.JZero (st.tr.labelCount + 1) rc.1]))
      pure ((s1.setLabels st.current_break_label st.current_continue_label).setTacs
        (s1.tr.tacs ++ [Tac.Mark (st.tr.labelCount + 2), Tac.Jump st.tr.labelCount,
          Tac.Mark (st.tr.labelCount + 1)]))) := by
  rw [visitStmt]; simp

theorem visitStmt_doWhile (c : Expr) (b : Stmt) (st : Translation) :
    visitStmt (Stmt.DoWhileStmt c b) st = (do
      let s1 ← visitStmt b
        (((st.setLabels (st.tr.labelCount + 1) (st.tr.labelCount + 2)).bump 3 0).setTacs
          (st.tr.tacs ++ [Tac.Mark st.tr.labelCount]))
      let rc ← visitExpr c (s1.setTacs (s1.tr.tacs ++ [Tac.Mark (st.tr.labelCount + 2)]))
      pure ((rc.2.setLabels st.current_break_label st.current_continue_label).setTacs
        (rc.2.tr.tacs ++ [Tac.JZero (st.tr.labelCount + 1) rc.1, Tac.Jump st.tr.labelCount,
          Tac.Mark (st.tr.labelCount + 1)]))) := by
  rw [visitStmt]; simp

theorem visitStmt_for (ei : Option Expr) (vi : Option VarDecl) (cond upd : Option Expr)
    (b : Stmt) (st : Translation) :
    visitStmt (Stmt.ForStmt ei vi cond upd b) st = (do
      let s1 ← visitForInit ei vi
        ((st.setLabels (st.tr.labelCount + 1) (st.tr.labelCount + 2)).bump 3 0)
      let rc ← visitForCondition cond (s1.setTacs (s1.tr.tacs ++ [Tac.Mark st.tr.labelCount]))
      let val ← readConditionVal rc.1
      let s2 ← visitStmt b (rc.2.setTacs (rc.2.tr.tacs ++ [Tac.JZero (st.tr.labelCount + 1) val]))
      let s3 ← visitForUpdate upd (s2.setTacs (s2.tr.tacs ++ [Tac.Mark (st.tr.labelCount + 2)]))
      pure ((s3.setLabels st.current_break_label st.current_continue_label).setTacs
        (s3.tr.tacs ++ [Tac.Jump st.tr.labelCount, Tac.Mark (st.tr.labelCount + 1)]))) := by
  rw [visitStmt]; simp

theorem visitStmt_break (st : Translation) :
    visitStmt Stmt.BreakStmt st
      = Except.ok (st.setTacs (st.tr.tacs ++ [Tac.Jump st.current_break_label])) := by
  rw [visitStmt]; rfl

theorem visitStmt_cont (st : Translation) :
    visitStmt Stmt.ContStmt st
      = Except.ok (st.setTacs (st.tr.tacs ++ [Tac.Jump st.current_continue_label])) := by
  rw [visitStmt]; rfl

theorem visitStmt_comp (l : StmtList) (st : Translation) :
    visitStmt (Stmt.CompStmt l) st = visitStmtList l st := by
  rw [visitStmt]

theorem visitStmt_return (e : Expr) (st : Translation) :
    visitStmt (Stmt.ReturnStmt e) st = (do
      let r ← visitExpr e st
      pure (r.2.setTacs (r.2.tr.tacs ++ [Tac.Return r.1]))) := by
  rw [visitStmt]; rfl

theorem visitStmt_empty (st : Translation) :
    visitStmt Stmt.EmptyStmt st = Except.ok st := by
  rw [visitStmt]; rfl

theorem visitStmtList_nil (st : Translation) :
    visitStmtList StmtList.nil st = Except.ok st := by
  rw [visitStmtList]; rfl

theorem visitStmtList_cons (s : Stmt) (l : StmtList) (st : Translation) :
    visitStmtList (StmtList.cons s l) st = (do
      let s1 ← visitStmt s st
      visitStmtList l s1) := by
  rw [visitStmtList]

theorem visitVarDecl_frame (decl : VarDecl) (st st' : Translation)
    (h : visitVarDecl decl st = Except.ok st') : FrameOf (visitVarDecl decl) st st' := by
  rw [visitVarDecl_eq] at h
  cases hi : decl.init with
  | none =>
    rw [hi] at h
    simp only [pure_eq_ok] at h
    subst h
    refine ⟨0, 1, [], Function.update st.vars decl.sym
      { st.vars decl.sym with temp := st.tr.tempCount }, ?_, fun t => ?_⟩
    · rw [List.append_nil]; rfl
    · rw [visitVarDecl_eq, hi]
      simp [pure, Except.pure]
  | some init =>
    rw [hi] at h
    simp only [bind_eq_ok, pure_eq_ok] at h
    obtain ⟨⟨v, s1⟩, h1, rfl⟩ := h
    obtain ⟨nl, nt, code, rfl, F⟩ := visitExpr_frame init _ _ _ h1
    simp at F
    refine ⟨nl, 1 + nt, code ++ [Tac.Assign st.tr.tempCount v], Function.update st.vars decl.sym
      { st.vars decl.sym with temp := st.tr.tempCount }, ?_, fun t => ?_⟩
    · simp
    · rw [visitVarDecl_eq, hi]
      simp [F, ok_bind, pure, Except.pure]

theorem visitForInit_frame (ei : Option Expr) (vi : Option VarDecl) (st st' : Translation)
    (h : visitForInit ei vi st = Except.ok st') : FrameOf (visitForInit ei vi) st st' := by
  unfold visitForInit at h
  cases ei with
  | some init =>
    simp only [map_eq_ok] at h
    obtain ⟨⟨v, s1⟩, h1, rfl⟩ := h
    obtain ⟨nl, nt, code, rfl, F⟩ := visitExpr_frame init _ _ _ h1
    refine ⟨nl, nt, code, st.vars, rfl, fun t => ?_⟩
    unfold visitForInit
    simp [F, Except.map]
  | none =>
    cases vi with
    | some decl =>
      simp only at h
      obtain ⟨nl, nt, code, vs, rfl, F⟩ := visitVarDecl_frame decl _ _ h
      refine ⟨nl, nt, code, vs, rfl, fun t => ?_⟩
      unfold visitForInit
      simp [F]
    | none =>
      simp only [pure_eq_ok] at h
      subst h
      refine ⟨0, 0, [], st.vars, by simp, fun t => ?_⟩
      unfold visitForInit
      simp [pure, Except.pure]

theorem visitForUpdate_frame (upd : Option Expr) (st st' : Translation)
    (h : visitForUpdate upd st = Except.ok st') : FrameOf (visitForUpdate upd) st st' := by
  unfold visitForUpdate at h
  cases upd with
  | some u =>
    simp only [map_eq_ok] at h
    obtain ⟨⟨v, s1⟩, h1, rfl⟩ := h
    obtain ⟨nl, nt, code, rfl, F⟩ := visitExpr_frame u _ _ _ h1
    refine ⟨nl, nt, code, st.vars, rfl, fun t => ?_⟩
    unfold visitForUpdate
    simp [F, Except.map]
  | none =>
    simp only [pure_eq_ok] at h
    subst h
    refine ⟨0, 0, [], st.vars, by simp, fun t => ?_⟩
    unfold visitForUpdate
    simp [pure, Except.pure]

/-- A `for` whose lowering completes has a condition: the value of the
condition is read and lowered in between. -/
theorem for_condition_ok (cond : Option Expr) (st : Translation) (val : Temp)
    (r : Option Temp × Translation)
    (h1 : visitForCondition cond st = Except.ok r) (h2 : readConditionVal r.1 = Except.ok val) :
    ∃ c, cond = some c ∧ visitExpr c st = Except.ok (val, r.2) := by
  cases cond with
  | none =>
    simp only [visitForCondition, pure_eq_ok] at h1
    subst h1
    simp [readConditionVal] at h2
  | some c =>
    simp only [visitForCondition, map_eq_ok] at h1
    obtain ⟨⟨v, s⟩, hv, rfl⟩ := h1
    simp only [readConditionVal, pure_eq_ok] at h2
    subst h2
    exact ⟨c, rfl, hv⟩

mutual
/-- Statements: a visit leaves the state as it was up to the identifiers it
issued, the symbols it rebound and the code it appended, and the visit from
`st` with any other instruction sequence does the same. -/
theorem visitStmt_frame : ∀ (s : Stmt) (st st' : Translation),
    visitStmt s st = Except.ok st' → FrameOf (visitStmt s) st st'
  | Stmt.VarDecl decl, st, st', h => by
    rw [visitStmt_varDecl] at h
    obtain ⟨nl, nt, code, vs, rfl, F⟩ := visitVarDecl_frame decl _ _ h
    exact ⟨nl, nt, code, vs, rfl, fun t => by rw [visitStmt_varDecl]; exact F t⟩
  | Stmt.ExprStmt e, st, st', h => by
    rw [visitStmt_exprStmt] at h
    simp only [bind_eq_ok, pure_eq_ok] at h
    obtain ⟨⟨v, s1⟩, h1, rfl⟩ := h
    obtain ⟨nl, nt, code, rfl, F⟩ := visitExpr_frame e _ _ _ h1
    refine ⟨nl, nt, code, st.vars, rfl, fun t => ?_⟩
    rw [visitStmt_exprStmt, F t]
    rfl
  | Stmt.IfStmt c t f, st, st', h => by
    rw [visitStmt_if] at h
    simp only [bind_eq_ok, pure_eq_ok] at h
    obtain ⟨⟨vc, sc⟩, hc, s1, h1, s2, h2, rfl⟩ := h
    obtain ⟨nlc, ntc, cc, rfl, Fc⟩ := visitExpr_frame c _ _ _ hc
    simp at h1 Fc
    obtain ⟨nlt, ntt, ct, vst, rfl, Ft⟩ := visitStmt_frame t _ _ h1
    simp at h2 Ft
    obtain ⟨nlf, ntf, cf, vsf, rfl, Ff⟩ := visitStmt_frame f _ _ h2
    simp at Ff
    refine ⟨2 + nlc + nlt + nlf, ntc + ntt + ntf,
      cc ++ [Tac.JZero st.tr.labelCount vc] ++ ct
        ++ [Tac.Jump (st.tr.labelCount + 1), Tac.Mark st.tr.labelCount]
        ++ cf ++ [Tac.Mark (st.tr.labelCount + 1)], vsf, ?_, fun u => ?_⟩
    · simp
    · rw [visitStmt_if]
      simp [Fc, ok_bind, Ft, Ff, pure, Except.pure]
  | Stmt.WhileStmt c b, st, st', h => by
    rw [visitStmt_while] at h
    simp only [bind_eq_ok, pure_eq_ok] at h
    obtain ⟨⟨vc, sc⟩, hc, s1, h1, rfl⟩ := h
    obtain ⟨nlc, ntc, cc, rfl, Fc⟩ := visitExpr_frame c _ _ _ hc
    simp at h1 Fc
    obtain ⟨nlb, ntb, cb, vsb, rfl, Fb⟩ := visitStmt_frame b _ _ h1
    simp at Fb
    refine ⟨3 + nlc + nlb, ntc + ntb,
      [Tac.Mark st.tr.labelCount] ++ cc ++ [Tac.JZero (st.tr.labelCount + 1) vc] ++ cb
        ++ [Tac.Mark (st.tr.labelCount + 2), Tac.Jump st.tr.labelCount,
            Tac.Mark (st.tr.labelCount + 1)], vsb, ?_, fun u => ?_⟩
    · simp
    · rw [visitStmt_while]
      simp [Fc, ok_bind, Fb, pure, Except.pure]
  | Stmt.DoWhileStmt c b, st, st', h => by
    rw [visitStmt_doWhile] at h
    simp only [bind_eq_ok, pure_eq_ok] at h
    obtain ⟨s1, h1, ⟨vc, sc⟩, hc, rfl⟩ := h
    obtain ⟨nlb, ntb, cb, vsb, rfl, Fb⟩ := visitStmt_frame b _ _ h1
    simp at hc Fb
    obtain ⟨nlc, ntc, cc, rfl, Fc⟩ := visitExpr_frame c _ _ _ hc
    simp at Fc
    refine ⟨3 + nlb + nlc, ntb + ntc,
      [Tac.Mark st.tr.labelCount] ++ cb ++ [Tac.Mark (st.tr.labelCount + 2)] ++ cc
        ++ [Tac.JZero (st.tr.labelCount + 1) vc, Tac.Jump st.tr.labelCount,
            Tac.Mark (st.tr.labelCount + 1)], vsb, ?_, fun u => ?_⟩
    · simp
    · rw [visitStmt_doWhile]
      simp [Fc, ok_bind, Fb, pure, Except.pure]
  | Stmt.ForStmt ei vi cond upd b, st, st', h => by
    rw [visitStmt_for] at h
    simp only [bind_eq_ok, pure_eq_ok] at h
    obtain ⟨s1, h1, rc, hrc, val, hval, s2, h2, s3, h3, rfl⟩ := h
    obtain ⟨c, rfl, hc⟩ := for_condition_ok _ _ _ _ hrc hval
    obtain ⟨nli, nti, ci, vsi, rfl, Fi⟩ := visitForInit_frame ei vi _ _ h1
    simp at hc Fi
    obtain ⟨nlc, ntc, cc, hsc, Fc⟩ := visitExpr_frame c _ _ _ hc
    rw [hsc] at h2
    simp at h2 Fc
    obtain ⟨nlb, ntb, cb, vsb, rfl, Fb⟩ := visitStmt_frame b _ _ h2
    simp at h3 Fb
    obtain ⟨nlu, ntu, cu, vsu, rfl, Fu⟩ := visitForUpdate_frame upd _ _ h3
    simp at Fu
    refine ⟨3 + nli + nlc + nlb + nlu, nti + ntc + ntb + ntu,
      ci ++ [Tac.Mark st.tr.labelCount] ++ cc ++ [Tac.JZero (st.tr.labelCount + 1) val] ++ cb
        ++ [Tac.Mark (st.tr.labelCount + 2)] ++ cu
        ++ [Tac.Jump st.tr.labelCount, Tac.Mark (st.tr.labelCount + 1)], vsu, ?_, fun u => ?_⟩
    · simp
    · rw [visitStmt_for]
      simp [Fi, ok_bind, visitForCondition, Fc, Except.map, readConditionVal, Fb, Fu, pure,
        Except.pure]
  | Stmt.BreakStmt, st, st', h => by
    rw [visitStmt_break] at h
    simp only [Except.ok.injEq] at h
    subst h
    refine ⟨0, 0, [Tac.Jump st.current_break_label], st.vars, rfl, fun t => ?_⟩
    rw [visitStmt_break]
    rfl
  | Stmt.ContStmt, st, st', h => by
    rw [visitStmt_cont] at h
    simp only [Except.ok.injEq] at h
    subst h
    refine ⟨0, 0, [Tac.Jump st.current_continue_label], st.vars, rfl, fun t => ?_⟩
    rw [visitStmt_cont]
    rfl
  | Stmt.CompStmt l, st, st', h => by
    rw [visitStmt_comp] at h
    obtain ⟨nl, nt, code, vs, rfl, F⟩ := visitStmtList_frame l _ _ h
    exact ⟨nl, nt, code, vs, rfl, fun t => by rw [visitStmt_comp]; exact F t⟩
  | Stmt.ReturnStmt e, st, st', h => by
    rw [visitStmt_return] at h
    simp only [bind_eq_ok, pure_eq_ok] at h
    obtain ⟨⟨v, s1⟩, h1, rfl⟩ := h
    obtain ⟨nl, nt, code, rfl, F⟩ := visitExpr_frame e _ _ _ h1
    refine ⟨nl, nt, code ++ [Tac.Return v], st.vars, by simp, fun t => ?_⟩
    rw [visitStmt_return, F t]
    simp [ok_bind, pure, Except.pure]
  | Stmt.EmptyStmt, st, st', h => by
    rw [visitStmt_empty] at h
    simp only [Except.ok.injEq] at h
    subst h
    refine ⟨0, 0, [], st.vars, by simp, fun t => ?_⟩
    rw [visitStmt_empty]
    simp
theorem visitStmtList_frame : ∀ (l : StmtList) (st st' : Translation),
    visitStmtList l st = Except.ok st' → FrameOf (visitStmtList l) st st'
  | StmtList.nil, st, st', h => by
    rw [visitStmtList_nil] at h
    simp only [Except.ok.injEq] at h
    subst h
    refine ⟨0, 0, [], st.vars, by simp, fun t => ?_⟩
    rw [visitStmtList_nil]
    simp
  | StmtList.cons s l, st, st', h => by
    rw [visitStmtList_cons] at h
    simp only [bind_eq_ok] at h
    obtain ⟨s1, h1, h2⟩ := h
    obtain ⟨nl1, nt1, c1, vs1, rfl, F1⟩ := visitStmt_frame s _ _ h1
    obtain ⟨nl2, nt2, c2, vs2, rfl, F2⟩ := visitStmtList_frame l _ _ h2
    simp at F2
    refine ⟨nl1 + nl2, nt1 + nt2, c1 ++ c2, vs2, by simp, fun t => ?_⟩
    rw [visitStmtList_cons, F1 t, ok_bind]
    simp [F2]
end

/-! ## Labels of the emitted code -/

section labelFacts

variable (l m : Nat) (a b : List Tac)

@[simp] theorem markCount_nil : markCount l [] = 0 := rfl

@[simp] theorem markCount_append : markCount l (a ++ b) = markCount l a + markCount l b := by
  simp [markCount]

@[simp] theorem markCount_mark :
    markCount l (Tac.Mark m :: a) = markCount l a + (if m = l then 1 else 0) := by
  simp [markCount, List.count_cons]

@[simp] theorem markCount_jump : markCount l (Tac.Jump m :: a) = markCount l a := by
  simp [markCount, List.count_cons]

@[simp] theorem markCount_jzero (t : Temp) : markCount l (Tac.JZero m t :: a) = markCount l a := by
  simp [markCount, List.count_cons]

@[simp] theorem markCount_assign (d s : Temp) :
    markCount l (Tac.Assign d s :: a) = markCount l a := by
  simp [markCount, List.count_cons]

@[simp] theorem markCount_loadImm (d : Temp) (v : Int) :
    markCount l (Tac.LoadImm4 d v :: a) = markCount l a := by
  simp [markCount, List.count_cons]

@[simp] theorem markCount_binary (op : BinaryOp) (d x y : Temp) :
    markCount l (Tac.Binary op d x y :: a) = markCount l a := by
  simp [markCount, List.count_cons]

@[simp] theorem markCount_unary (op : UnaryOp) (d x : Temp) :
    markCount l (Tac.Unary op d x :: a) = markCount l a := by
  simp [markCount, List.count_cons]

@[simp] theorem markCount_return (x : Temp) : markCount l (Tac.Return x :: a) = markCount l a := by
  simp [markCount, List.count_cons]

@[simp] theorem markCount_funcEnter : markCount l (Tac.FuncEnter :: a) = markCount l a := by
  simp [markCount, List.count_cons]

@[simp] theorem markCount_funcExit : markCount l (Tac.FuncExit :: a) = markCount l a := by
  simp [markCount, List.count_cons]

@[simp] theorem targetCount_nil : targetCount l [] = 0 := rfl

@[simp] theorem targetCount_append :
    targetCount l (a ++ b) = targetCount l a + targetCount l b := by
  simp [targetCount]

@[simp] theorem targetCount_jump :
    targetCount l (Tac.Jump m :: a) = targetCount l a + (if m = l then 1 else 0) := by
  simp [targetCount, List.countP_cons, Tac.jumpsTo]

@[simp] theorem targetCount_jzero (t : Temp) :
    targetCount l (Tac.JZero m t :: a) = targetCount l a + (if m = l then 1 else 0) := by
  simp [targetCount, List.countP_cons, Tac.jumpsTo]

@[simp] theorem targetCount_mark : targetCount l (Tac.Mark m :: a) = targetCount l a := by
  simp [targetCount, List.countP_cons, Tac.jumpsTo]

@[simp] theorem targetCount_assign (d s : Temp) :
    targetCount l (Tac.Assign d s :: a) = targetCount l a := by
  simp [targetCount, List.countP_cons, Tac.jumpsTo]

@[simp] theorem targetCount_loadImm (d : Temp) (v : Int) :
    targetCount l (Tac.LoadImm4 d v :: a) = targetCount l a := by
  simp [targetCount, List.countP_cons, Tac.jumpsTo]

@[simp] theorem targetCount_binary (op : BinaryOp) (d x y : Temp) :
    targetCount l (Tac.Binary op d x y :: a) = targetCount l a := by
  simp [targetCount, List.countP_cons, Tac.jumpsTo]

@[simp] theorem targetCount_unary (op : UnaryOp) (d x : Temp) :
    targetCount l (Tac.Unary op d x :: a) = targetCount l a := by
  simp [targetCount, List.countP_cons, Tac.jumpsTo]

@[simp] theorem targetCount_return (x : Temp) :
    targetCount l (Tac.Return x :: a) = targetCount l a := by
  simp [targetCount, List.countP_cons, Tac.jumpsTo]

@[simp] theorem targetCount_funcEnter : targetCount l (Tac.FuncEnter :: a) = targetCount l a := by
  simp [targetCount, List.countP_cons, Tac.jumpsTo]

@[simp] theorem targetCount_funcExit : targetCount l (Tac.FuncExit :: a) = targetCount l a := by
  simp [targetCount, List.countP_cons, Tac.jumpsTo]

theorem isJumpTarget_iff : IsJumpTarget l a ↔ 0 < targetCount l a := by
  unfold IsJumpTarget targetCount
  rw [List.countP_pos_iff]
  constructor
  · rintro (h | ⟨t, h⟩)
    · exact ⟨_, h, by simp [Tac.jumpsTo]⟩
    · exact ⟨_, h, by simp [Tac.jumpsTo]⟩
  · rintro ⟨i, hi, hj⟩
    cases i <;> simp [Tac.jumpsTo] at hj
    · subst hj; exact Or.inl hi
    · subst hj; exact Or.inr ⟨_, hi⟩

end labelFacts

/-- Expressions mark and target only labels of their own. -/
theorem visitExpr_labels (e : Expr) :
    ∀ (st : Translation) (v : Temp) (st' : Translation) (code : List Tac),
      visitExpr e st = Except.ok (v, st') → st'.tr.tacs = st.tr.tacs ++ code →
      LabelsOK st.tr.labelCount st'.tr.labelCount false false 0 0 code := by
  induction e using Expr.induction_by_kind with
  | assign left e ih =>
    intro st v st' code h hcode
    rw [visitExpr_assign] at h
    simp only [bind_eq_ok, pure_eq_ok, visitVarRef_ok] at h
    obtain ⟨s1, ⟨hk, rfl⟩, ⟨v1, s2⟩, hr, heq⟩ := h
    obtain ⟨nl, nt, c1, rfl, -⟩ := visitExpr_frame _ _ _ _ hr
    simp only [Prod.mk.injEq] at heq
    obtain ⟨rfl, rfl⟩ := heq
    have I := ih _ _ _ c1 hr (by simp)
    simp at hcode
    subst hcode
    simp at I ⊢
    exact ⟨I.le, by simpa using I.once, by simpa using I.range, by simpa using I.closed⟩
  | binary k e1 e2 ih1 ih2 =>
    intro st v st' code h hcode
    rw [visitExpr_binary] at h
    simp only [bind_eq_ok, pure_eq_ok] at h
    obtain ⟨⟨v1, s1⟩, h1, ⟨v2, s2⟩, h2, heq⟩ := h
    obtain ⟨nl1, nt1, c1, rfl, -⟩ := visitExpr_frame _ _ _ _ h1
    obtain ⟨nl2, nt2, c2, rfl, -⟩ := visitExpr_frame _ _ _ _ h2
    simp only [Prod.mk.injEq] at heq
    obtain ⟨rfl, rfl⟩ := heq
    have I1 := ih1 _ _ _ c1 h1 (by simp)
    have I2 := ih2 _ _ _ c2 h2 (by simp)
    simp at hcode
    subst hcode
    simp at I1 I2 ⊢
    refine ⟨by omega, fun l => ?_, fun l => ?_, fun l => ?_⟩ <;>
    · have a1 := I1.once l; have a2 := I2.once l; have a3 := I1.range l; have a4 := I2.range l
      have a5 := I1.closed l; have a6 := I2.closed l
      simp at a5 a6 ⊢; omega
  | const value =>
    intro st v st' code h hcode
    rw [visitExpr_const] at h
    simp only [Except.ok.injEq, Prod.mk.injEq] at h
    obtain ⟨rfl, rfl⟩ := h
    simp at hcode
    subst hcode
    exact ⟨by simp, by simp, by simp, by simp⟩
  | unary k e ih =>
    intro st v st' code h hcode
    rw [visitExpr_unary] at h
    simp only [bind_eq_ok, pure_eq_ok] at h
    obtain ⟨⟨v1, s1⟩, h1, heq⟩ := h
    obtain ⟨nl1, nt1, c1, rfl, -⟩ := visitExpr_frame _ _ _ _ h1
    simp only [Prod.mk.injEq] at heq
    obtain ⟨rfl, rfl⟩ := heq
    have I := ih _ _ _ c1 h1 (by simp)
    simp at hcode
    subst hcode
    simp at I ⊢
    exact ⟨I.le, by simpa using I.once, by simpa using I.range, by simpa using I.closed⟩
  | lvalue lv =>
    intro st v st' code h hcode
    rw [visitExpr_lvalue] at h
    simp only [bind_eq_ok, pure_eq_ok, visitVarRef_ok] at h
    obtain ⟨s1, ⟨hk, rfl⟩, heq⟩ := h
    simp only [Prod.mk.injEq] at heq
    obtain ⟨rfl, rfl⟩ := heq
    simp at hcode
    subst hcode
    exact ⟨by simp, by simp, by simp, by simp⟩
  | ifExpr c t f ihc iht ihf =>
    intro st v st' code h hcode
    rw [visitExpr_ifExpr] at h
    simp only [bind_eq_ok, pure_eq_ok] at h
    obtain ⟨⟨vc, sc⟩, hc, ⟨vt, s1⟩, h1, ⟨vf, s2⟩, h2, heq⟩ := h
    obtain ⟨nlc, ntc, cc, rfl, -⟩ := visitExpr_frame _ _ _ _ hc
    have Ic := ihc _ _ _ cc hc (by simp)
    simp at h1
    obtain ⟨nlt, ntt, ct, rfl, -⟩ := visitExpr_frame _ _ _ _ h1
    have It := iht _ _ _ ct h1 (by simp)
    simp at h2
    obtain ⟨nlf, ntf, cf, rfl, -⟩ := visitExpr_frame _ _ _ _ h2
    have If := ihf _ _ _ cf h2 (by simp)
    simp only [Prod.mk.injEq] at heq
    obtain ⟨rfl, rfl⟩ := heq
    simp at hcode
    subst hcode
    simp at Ic It If ⊢
    refine ⟨by omega, fun l => ?_, fun l => ?_, fun l => ?_⟩ <;>
    · have a1 := Ic.once l; have a2 := It.once l; have a3 := If.once l
      have a4 := Ic.range l; have a5 := It.range l; have a6 := If.range l
      have a7 := Ic.closed l; have a8 := It.closed l; have a9 := If.closed l
      simp at a7 a8 a9 ⊢; first | omega | (split_ifs <;> omega)

theorem LabelsOK.weaken {lo hi : Nat} {code : List Tac} (h : LabelsOK lo hi false false 0 0 code)
    (fb fc : Bool) (brk cont : Nat) : LabelsOK lo hi fb fc brk cont code :=
  ⟨h.le, h.once, h.range, fun l => by have := h.closed l; simp at this; omega⟩

theorem visitVarDecl_labels (decl : VarDecl) (st st' : Translation) (code : List Tac)
    (h : visitVarDecl decl st = Except.ok st') (hcode : st'.tr.tacs = st.tr.tacs ++ code) :
    LabelsOK st.tr.labelCount st'.tr.labelCount false false 0 0 code := by
  rw [visitVarDecl_eq] at h
  cases hi : decl.init with
  | none =>
    rw [hi] at h
    simp only [pure_eq_ok] at h
    subst h
    simp at hcode
    subst hcode
    exact ⟨by simp, by simp, by simp, by simp⟩
  | some init =>
    rw [hi] at h
    simp only [bind_eq_ok, pure_eq_ok] at h
    obtain ⟨⟨v, s1⟩, h1, rfl⟩ := h
    obtain ⟨nl, nt, c1, rfl, -⟩ := visitExpr_frame init _ _ _ h1
    have I := visitExpr_labels init _ _ _ c1 h1 (by simp)
    simp at hcode
    subst hcode
    simp at I ⊢
    exact ⟨I.le, by simpa using I.once, by simpa using I.range, by simpa using I.closed⟩

theorem visitForInit_labels (ei : Option Expr) (vi : Option VarDecl) (st st' : Translation)
    (code : List Tac) (h : visitForInit ei vi st = Except.ok st')
    (hcode : st'.tr.tacs = st.tr.tacs ++ code) :
    LabelsOK st.tr.labelCount st'.tr.labelCount false false 0 0 code := by
  unfold visitForInit at h
  cases ei with
  | some init =>
    simp only [map_eq_ok] at h
    obtain ⟨⟨v, s1⟩, h1, rfl⟩ := h
    exact visitExpr_labels init _ _ _ code h1 hcode
  | none =>
    cases vi with
    | some decl => exact visitVarDecl_labels decl _ _ code h hcode
    | none =>
      simp only [pure_eq_ok] at h
      subst h
      simp at hcode
      subst hcode
      exact ⟨by simp, by simp, by simp, by simp⟩

theorem visitForUpdate_labels (upd : Option Expr) (st st' : Translation)
    (code : List Tac) (h : visitForUpdate upd st = Except.ok st')
    (hcode : st'.tr.tacs = st.tr.tacs ++ code) :
    LabelsOK st.tr.labelCount st'.tr.labelCount false false 0 0 code := by
  unfold visitForUpdate at h
  cases upd with
  | some u =>
    simp only [map_eq_ok] at h
    obtain ⟨⟨v, s1⟩, h1, rfl⟩ := h
    exact visitExpr_labels u _ _ _ code h1 hcode
  | none =>
    simp only [pure_eq_ok] at h
    subst h
    simp at hcode
    subst hcode
    exact ⟨by simp, by simp, by simp, by simp⟩

theorem LabelsOK.seq {a b c : Nat} {fb1 fc1 fb2 fc2 : Bool} {brk cont : Nat}
    {c1 c2 : List Tac} (I1 : LabelsOK a b fb1 fc1 brk cont c1)
    (I2 : LabelsOK b c fb2 fc2 brk cont c2) :
    LabelsOK a c (fb1 || fb2) (fc1 || fc2) brk cont (c1 ++ c2) := by
  have := I1.le; have := I2.le
  refine ⟨by omega, fun l => ?_, fun l => ?_, fun l => ?_⟩
  · have a1 := I1.once l; have a2 := I2.once l; have a4 := I1.range l; have a5 := I2.range l
    simp; omega
  · have a4 := I1.range l; have a5 := I2.range l
    simp; omega
  · have a7 := I1.closed l; have a8 := I2.closed l
    cases fb1 <;> cases fb2 <;> cases fc1 <;> cases fc2 <;> simp at a7 a8 ⊢ <;> omega

theorem LabelsOK.snoc {a b : Nat} {fb fc : Bool} {brk cont : Nat} {c1 : List Tac} (i : Tac)
    (I1 : LabelsOK a b fb fc brk cont c1) (hm : ∀ l, markCount l [i] = 0)
    (ht : ∀ l, targetCount l [i] = 0) :
    LabelsOK a b fb fc brk cont (c1 ++ [i]) := by
  refine ⟨I1.le, fun l => ?_, fun l => ?_, fun l => ?_⟩
  · have := I1.once l; have := hm l; simp only [markCount_append]; omega
  · have := I1.range l; have := hm l; simp only [markCount_append]; omega
  · have a := I1.closed l; have := hm l; have := ht l
    simp only [markCount_append, targetCount_append]
    rcases a with a | a | a | a
    · left; omega
    · right; left; omega
    · right; right; left; exact a
    · right; right; right; exact a

theorem LabelsOK.ifStmt (lc : Nat) {a b c d : Nat} {fbt fct fbf fcf : Bool} {brk cont : Nat}
    (vc : Temp) {cc ct cf : List Tac}
    (Ic : LabelsOK a b false false 0 0 cc) (It : LabelsOK b c fbt fct brk cont ct)
    (If : LabelsOK c d fbf fcf brk cont cf) (h0 : lc + 2 ≤ a) :
    LabelsOK lc d (fbt || fbf) (fct || fcf) brk cont
      (cc ++ [Tac.JZero lc vc] ++ ct ++ [Tac.Jump (lc + 1), Tac.Mark lc] ++ cf
        ++ [Tac.Mark (lc + 1)]) := by
  have := Ic.le; have := It.le; have := If.le
  refine ⟨by omega, fun l => ?_, fun l => ?_, fun l => ?_⟩
  · have a1 := Ic.once l; have a2 := It.once l; have a3 := If.once l
    have a4 := Ic.range l; have a5 := It.range l; have a6 := If.range l
    simp; split_ifs <;> omega
  · have a4 := Ic.range l; have a5 := It.range l; have a6 := If.range l
    simp; omega
  · have a7 := Ic.closed l; have a8 := It.closed l; have a9 := If.closed l
    cases fbt <;> cases fbf <;> cases fct <;> cases fcf <;>
      simp at a7 a8 a9 ⊢ <;> split_ifs <;> omega

theorem LabelsOK.whileStmt (lc : Nat) {a b c : Nat} {fb fc : Bool} (brk cont : Nat)
    (vc : Temp) {cc cb : List Tac}
    (Ic : LabelsOK a b false false 0 0 cc) (Ib : LabelsOK b c fb fc (lc + 1) (lc + 2) cb)
    (h0 : lc + 3 ≤ a) :
    LabelsOK lc c false false brk cont
      ([Tac.Mark lc] ++ cc ++ [Tac.JZero (lc + 1) vc] ++ cb
        ++ [Tac.Mark (lc + 2), Tac.Jump lc, Tac.Mark (lc + 1)]) := by
  have := Ic.le; have := Ib.le
  refine ⟨by omega, fun l => ?_, fun l => ?_, fun l => ?_⟩
  · have a1 := Ic.once l; have a2 := Ib.once l
    have a4 := Ic.range l; have a5 := Ib.range l
    simp; split_ifs <;> omega
  · have a4 := Ic.range l; have a5 := Ib.range l
    simp; omega
  · have a7 := Ic.closed l; have a8 := Ib.closed l
    cases fb <;> cases fc <;> simp at a7 a8 ⊢ <;> split_ifs <;> omega

theorem LabelsOK.doWhileStmt (lc : Nat) {a b c : Nat} {fb fc : Bool} (brk cont : Nat)
    (vc : Temp) {cc cb : List Tac}
    (Ib : LabelsOK a b fb fc (lc + 1) (lc + 2) cb) (Ic : LabelsOK b c false false 0 0 cc)
    (h0 : lc + 3 ≤ a) :
    LabelsOK lc c false false brk cont
      ([Tac.Mark lc] ++ cb ++ [Tac.Mark (lc + 2)] ++ cc
        ++ [Tac.JZero (lc + 1) vc, Tac.Jump lc, Tac.Mark (lc + 1)]) := by
  have := Ic.le; have := Ib.le
  refine ⟨by omega, fun l => ?_, fun l => ?_, fun l => ?_⟩
  · have a1 := Ic.once l; have a2 := Ib.once l
    have a4 := Ic.range l; have a5 := Ib.range l
    simp; split_ifs <;> omega
  · have a4 := Ic.range l; have a5 := Ib.range l
    simp; omega
  · have a7 := Ic.closed l; have a8 := Ib.closed l
    cases fb <;> cases fc <;> simp at a7 a8 ⊢ <;> split_ifs <;> omega

theorem LabelsOK.forStmt (lc : Nat) {a b c d e : Nat} {fb fc : Bool} (brk cont : Nat)
    (vc : Temp) {ci cc cb cu : List Tac}
    (Ii : LabelsOK a b false false 0 0 ci) (Ic : LabelsOK b c false false 0 0 cc)
    (Ib : LabelsOK c d fb fc (lc + 1) (lc + 2) cb) (Iu : LabelsOK d e false false 0 0 cu)
    (h0 : lc + 3 ≤ a) :
    LabelsOK lc e false false brk cont
      (ci ++ [Tac.Mark lc] ++ cc ++ [Tac.JZero (lc + 1) vc] ++ cb
        ++ [Tac.Mark (lc + 2)] ++ cu ++ [Tac.Jump lc, Tac.Mark (lc + 1)]) := by
  have := Ic.le; have := Ib.le; have := Ii.le; have := Iu.le
  refine ⟨by omega, fun l => ?_, fun l => ?_, fun l => ?_⟩
  · have a1 := Ic.once l; have a2 := Ib.once l; have a3 := Ii.once l; have a3' := Iu.once l
    have a4 := Ic.range l; have a5 := Ib.range l; have a6 := Ii.range l; have a6' := Iu.range l
    simp; split_ifs <;> omega
  · have a4 := Ic.range l; have a5 := Ib.range l; have a6 := Ii.range l; have a6' := Iu.range l
    simp; omega
  · have a7 := Ic.closed l; have a8 := Ib.closed l; have a9 := Ii.closed l
    have a9' := Iu.closed l
    cases fb <;> cases fc <;> simp at a7 a8 a9 a9' ⊢ <;> split_ifs <;> omega

mutual
/-- Statements mark only labels of their own, each once, and target only
labels of their own and, through a `break` or `continue` outside their
loops, the two current labels. -/
theorem visitStmt_labels : ∀ (s : Stmt) (st st' : Translation) (code : List Tac),
    visitStmt s st = Except.ok st' → st'.tr.tacs = st.tr.tacs ++ code →
    LabelsOK st.tr.labelCount st'.tr.labelCount s.freeBreak s.freeCont
      st.current_break_label st.current_continue_label code
  | Stmt.VarDecl decl, st, st', code, h, hcode => by
    rw [visitStmt_varDecl] at h
    exact (visitVarDecl_labels decl _ _ code h hcode).weaken _ _ _ _
  | Stmt.ExprStmt e, st, st', code, h, hcode => by
    rw [visitStmt_exprStmt] at h
    simp only [bind_eq_ok, pure_eq_ok] at h
    obtain ⟨⟨v, s1⟩, h1, rfl⟩ := h
    exact (visitExpr_labels e _ _ _ code h1 hcode).weaken _ _ _ _
  | Stmt.IfStmt c t f, st, st', code, h, hcode => by
    rw [visitStmt_if] at h
    simp only [bind_eq_ok, pure_eq_ok] at h
    obtain ⟨⟨vc, sc⟩, hc, s1, h1, s2, h2, rfl⟩ := h
    obtain ⟨nlc, ntc, cc, rfl, -⟩ := visitExpr_frame c _ _ _ hc
    have Ic := visitExpr_labels c _ _ _ cc hc (by simp)
    simp at h1
    obtain ⟨nlt, ntt, ct, vst, rfl, -⟩ := visitStmt_frame t _ _ h1
    have It := visitStmt_labels t _ _ ct h1 (by simp)
    simp at h2
    obtain ⟨nlf, ntf, cf, vsf, rfl, -⟩ := visitStmt_frame f _ _ h2
    have If := visitStmt_labels f _ _ cf h2 (by simp)
    simp at hcode
    subst hcode
    simp at Ic It If
    have := LabelsOK.ifStmt st.tr.labelCount vc Ic It If (by omega)
    simpa [Stmt.freeBreak, Stmt.freeCont] using this
  | Stmt.WhileStmt c b, st, st', code, h, hcode => by
    rw [visitStmt_while] at h
    simp only [bind_eq_ok, pure_eq_ok] at h
    obtain ⟨⟨vc, sc⟩, hc, s1, h1, rfl⟩ := h
    obtain ⟨nlc, ntc, cc, rfl, -⟩ := visitExpr_frame c _ _ _ hc
    have Ic := visitExpr_labels c _ _ _ cc hc (by simp)
    simp at h1
    obtain ⟨nlb, ntb, cb, vsb, rfl, -⟩ := visitStmt_frame b _ _ h1
    have Ib := visitStmt_labels b _ _ cb h1 (by simp)
    simp at hcode
    subst hcode
    simp at Ic Ib
    have := LabelsOK.whileStmt st.tr.labelCount st.current_break_label st.current_continue_label vc Ic Ib
      (by omega)
    simpa [Stmt.freeBreak, Stmt.freeCont] using this
  | Stmt.DoWhileStmt c b, st, st', code, h, hcode => by
    rw [visitStmt_doWhile] at h
    simp only [bind_eq_ok, pure_eq_ok] at h
    obtain ⟨s1, h1, ⟨vc, sc⟩, hc, rfl⟩ := h
    obtain ⟨nlb, ntb, cb, vsb, rfl, -⟩ := visitStmt_frame b _ _ h1
    have Ib := visitStmt_labels b _ _ cb h1 (by simp)
    simp at hc
    obtain ⟨nlc, ntc, cc, rfl, -⟩ := visitExpr_frame c _ _ _ hc
    have Ic := visitExpr_labels c _ _ _ cc hc (by simp)
    simp at hcode
    subst hcode
    simp at Ic Ib
    have := LabelsOK.doWhileStmt st.tr.labelCount st.current_break_label st.current_continue_label vc Ib Ic
      (by omega)
    simpa [Stmt.freeBreak, Stmt.freeCont] using this
  | Stmt.ForStmt ei vi cond upd b, st, st', code, h, hcode => by
    rw [visitStmt_for] at h
    simp only [bind_eq_ok, pure_eq_ok] at h
    obtain ⟨s1, h1, rc, hrc, val, hval, s2, h2, s3, h3, rfl⟩ := h
    obtain ⟨c, rfl, hc⟩ := for_condition_ok _ _ _ _ hrc hval
    obtain ⟨nli, nti, ci, vsi, rfl, -⟩ := visitForInit_frame ei vi _ _ h1
    have Ii := visitForInit_labels ei vi _ _ ci h1 (by simp)
    simp at hc
    obtain ⟨nlc, ntc, cc, hsc, -⟩ := visitExpr_frame c _ _ _ hc
    rw [hsc] at h2 hc
    have Ic := visitExpr_labels c _ _ _ cc hc (by simp)
    simp at h2
    obtain ⟨nlb, ntb, cb, vsb, rfl, -⟩ := visitStmt_frame b _ _ h2
    have Ib := visitStmt_labels b _ _ cb h2 (by simp)
    simp at h3
    obtain ⟨nlu, ntu, cu, vsu, rfl, -⟩ := visitForUpdate_frame upd _ _ h3
    have Iu := visitForUpdate_labels upd _ _ cu h3 (by simp)
    simp at hcode
    subst hcode
    simp at Ii Ic Ib Iu
    have := LabelsOK.forStmt st.tr.labelCount st.current_break_label st.current_continue_label val Ii Ic Ib Iu
      (by omega)
    simpa [Stmt.freeBreak, Stmt.freeCont] using this
  | Stmt.BreakStmt, st, st', code, h, hcode => by
    rw [visitStmt_break] at h
    simp only [Except.ok.injEq] at h
    subst h
    simp at hcode
    subst hcode
    simp only [Stmt.freeBreak, Stmt.freeCont]
    refine ⟨by simp, fun l => ?_, fun l => ?_, fun l => ?_⟩ <;> (simp; try omega)
  | Stmt.ContStmt, st, st', code, h, hcode => by
    rw [visitStmt_cont] at h
    simp only [Except.ok.injEq] at h
    subst h
    simp at hcode
    subst hcode
    simp only [Stmt.freeBreak, Stmt.freeCont]
    refine ⟨by simp, fun l => ?_, fun l => ?_, fun l => ?_⟩ <;> (simp; try omega)
  | Stmt.CompStmt l, st, st', code, h, hcode => by
    rw [visitStmt_comp] at h
    simp only [Stmt.freeBreak, Stmt.freeCont]
    exact visitStmtList_labels l _ _ code h hcode
  | Stmt.ReturnStmt e, st, st', code, h, hcode => by
    rw [visitStmt_return] at h
    simp only [bind_eq_ok, pure_eq_ok] at h
    obtain ⟨⟨v, s1⟩, h1, rfl⟩ := h
    obtain ⟨nl, nt, c1, rfl, -⟩ := visitExpr_frame e _ _ _ h1
    have I := visitExpr_labels e _ _ _ c1 h1 (by simp)
    simp at hcode
    subst hcode
    simp at I
    have := (I.snoc (Tac.Return v) (by simp) (by simp)).weaken (Stmt.ReturnStmt e).freeBreak
      (Stmt.ReturnStmt e).freeCont st.current_break_label st.current_continue_label
    simpa using this
  | Stmt.EmptyStmt, st, st', code, h, hcode => by
    rw [visitStmt_empty] at h
    simp only [Except.ok.injEq] at h
    subst h
    simp at hcode
    subst hcode
    exact ⟨by simp, by simp, by simp, by simp⟩
theorem visitStmtList_labels : ∀ (l : StmtList) (st st' : Translation) (code : List Tac),
    visitStmtList l st = Except.ok st' → st'.tr.tacs = st.tr.tacs ++ code →
    LabelsOK st.tr.labelCount st'.tr.labelCount l.freeBreak l.freeCont
      st.current_break_label st.current_continue_label code
  | StmtList.nil, st, st', code, h, hcode => by
    rw [visitStmtList_nil] at h
    simp only [Except.ok.injEq] at h
    subst h
    simp at hcode
    subst hcode
    exact ⟨by simp, by simp, by simp, by simp⟩
  | StmtList.cons s l, st, st', code, h, hcode => by
    rw [visitStmtList_cons] at h
    simp only [bind_eq_ok] at h
    obtain ⟨s1, h1, h2⟩ := h
    obtain ⟨nl1, nt1, c1, vs1, rfl, -⟩ := visitStmt_frame s _ _ h1
    have I1 := visitStmt_labels s _ _ c1 h1 (by simp)
    obtain ⟨nl2, nt2, c2, vs2, rfl, -⟩ := visitStmtList_frame l _ _ h2
    have I2 := visitStmtList_labels l _ _ c2 h2 (by simp)
    simp at hcode
    subst hcode
    simp at I1 I2
    have := I1.seq I2
    simpa [StmtList.freeBreak, StmtList.freeCont] using this
end

/-! ## Well-formed trees and totality -/

theorem plainLvalues_binary (k : BinaryKind) (e1 e2 : Expr) :
    (k.toExpr e1 e2).plainLvalues = (e1.plainLvalues && e2.plainLvalues) := by
  cases k <;> rfl

theorem plainLvalues_unary (k : UnaryKind) (e : Expr) :
    (k.toExpr e).plainLvalues = e.plainLvalues := by
  cases k <;> rfl

/-- An expression whose lvalues are plain variables is lowered without
failure, from every state. -/
theorem visitExpr_total (e : Expr) :
    e.plainLvalues = true → ∀ st, ∃ v st', visitExpr e st = Except.ok (v, st') := by
  induction e using Expr.induction_by_kind with
  | assign left e ih =>
    intro hp st
    simp only [Expr.plainLvalues, Bool.and_eq_true, decide_eq_true_eq] at hp
    obtain ⟨v, s, hv⟩ := ih hp.2 st
    have hk : visitVarRef left st = Except.ok st := by rw [visitVarRef_ok]; exact ⟨hp.1, rfl⟩
    exact ⟨_, _, by rw [visitExpr_assign, hk, ok_bind, hv, ok_bind]; rfl⟩
  | binary k e1 e2 ih1 ih2 =>
    intro hp st
    simp only [plainLvalues_binary, Bool.and_eq_true] at hp
    obtain ⟨v1, s1, h1⟩ := ih1 hp.1 st
    obtain ⟨v2, s2, h2⟩ := ih2 hp.2 s1
    exact ⟨_, _, by rw [visitExpr_binary, h1, ok_bind, h2, ok_bind]; rfl⟩
  | const value =>
    intro _ st
    exact ⟨_, _, visitExpr_const value st⟩
  | unary k e ih =>
    intro hp st
    simp only [plainLvalues_unary] at hp
    obtain ⟨v1, s1, h1⟩ := ih hp st
    exact ⟨_, _, by rw [visitExpr_unary, h1, ok_bind]; rfl⟩
  | lvalue lv =>
    intro hp st
    simp only [Expr.plainLvalues, decide_eq_true_eq] at hp
    have hk : visitVarRef lv st = Except.ok st := by rw [visitVarRef_ok]; exact ⟨hp, rfl⟩
    exact ⟨_, _, by rw [visitExpr_lvalue, hk, ok_bind]; rfl⟩
  | ifExpr c t f ihc iht ihf =>
    intro hp st
    simp only [Expr.plainLvalues, Bool.and_eq_true] at hp
    obtain ⟨vc, sc, hc⟩ := ihc hp.1.1 (st.bump 2 0)
    obtain ⟨vt, s1, h1⟩ := iht hp.1.2
      ((sc.bump 0 1).setTacs (sc.tr.tacs ++ [Tac.JZero st.tr.labelCount vc]))
    obtain ⟨vf, s2, h2⟩ := ihf hp.2
      (s1.setTacs (s1.tr.tacs ++ [Tac.Assign sc.tr.tempCount vt,
          Tac.Jump (st.tr.labelCount + 1), Tac.Mark st.tr.labelCount]))
    exact ⟨_, _, by rw [visitExpr_ifExpr, hc, ok_bind, h1, ok_bind, h2, ok_bind]; rfl⟩

theorem visitVarDecl_total (decl : VarDecl) (hp : decl.plainLvalues = true) (st : Translation) :
    ∃ st', visitVarDecl decl st = Except.ok st' := by
  rw [visitVarDecl_eq]
  unfold VarDecl.plainLvalues at hp
  cases hi : decl.init with
  | none => exact ⟨_, rfl⟩
  | some init =>
    rw [hi] at hp
    obtain ⟨v, s, hv⟩ := visitExpr_total init hp
      ((st.setVars (Function.update st.vars decl.sym
            { st.vars decl.sym with temp := st.tr.tempCount })).bump 0 1)
    exact ⟨_, by simp only [hv, ok_bind]; rfl⟩

theorem visitForInit_total (ei : Option Expr) (vi : Option VarDecl)
    (h1 : optPlainLvalues ei = true)
    (h2 : (match vi with | some d => d.plainLvalues | none => true) = true)
    (st : Translation) : ∃ st', visitForInit ei vi st = Except.ok st' := by
  unfold visitForInit
  cases ei with
  | some init =>
    obtain ⟨v, s, hv⟩ := visitExpr_total init h1 st
    exact ⟨s, by simp [hv, Except.map]⟩
  | none =>
    cases vi with
    | some d => exact visitVarDecl_total d h2 st
    | none => exact ⟨st, rfl⟩

theorem visitForUpdate_total (upd : Option Expr) (h1 : optPlainLvalues upd = true)
    (st : Translation) : ∃ st', visitForUpdate upd st = Except.ok st' := by
  unfold visitForUpdate
  cases upd with
  | some u =>
    obtain ⟨v, s, hv⟩ := visitExpr_total u h1 st
    exact ⟨s, by simp [hv, Except.map]⟩
  | none => exact ⟨st, rfl⟩

mutual
/-- A statement whose lvalues are plain variables and whose `for` loops all
have a condition is lowered without failure, from every state. -/
theorem visitStmt_total : ∀ (s : Stmt), s.plainLvalues = true → s.forsHaveCondition = true →
    ∀ st, ∃ st', visitStmt s st = Except.ok st'
  | Stmt.VarDecl decl, hp, _, st => by
    rw [visitStmt_varDecl]
    exact visitVarDecl_total decl (by simpa [Stmt.plainLvalues] using hp) st
  | Stmt.ExprStmt e, hp, _, st => by
    obtain ⟨v, s, hv⟩ := visitExpr_total e (by simpa [Stmt.plainLvalues] using hp) st
    exact ⟨s, by rw [visitStmt_exprStmt, hv, ok_bind]; rfl⟩
  | Stmt.IfStmt c t f, hp, hf, st => by
    simp only [Stmt.plainLvalues, Bool.and_eq_true] at hp
    simp only [Stmt.forsHaveCondition, Bool.and_eq_true] at hf
    obtain ⟨vc, sc, hc⟩ := visitExpr_total c hp.1.1 (st.bump 2 0)
    obtain ⟨s1, h1⟩ := visitStmt_total t hp.1.2 hf.1
      (sc.setTacs (sc.tr.tacs ++ [Tac.JZero st.tr.labelCount vc]))
    obtain ⟨s2, h2⟩ := visitStmt_total f hp.2 hf.2
      (s1.setTacs (s1.tr.tacs ++ [Tac.Jump (st.tr.labelCount + 1), Tac.Mark st.tr.labelCount]))
    exact ⟨_, by rw [visitStmt_if, hc, ok_bind, h1, ok_bind, h2, ok_bind]; rfl⟩
  | Stmt.WhileStmt c b, hp, hf, st => by
    simp only [Stmt.plainLvalues, Bool.and_eq_true] at hp
    simp only [Stmt.forsHaveCondition] at hf
    obtain ⟨vc, sc, hc⟩ := visitExpr_total c hp.1
      (((st.setLabels (st.tr.labelCount + 1) (st.tr.labelCount + 2)).bump 3 0).setTacs
          (st.tr.tacs ++ [Tac.Mark st.tr.labelCount]))
    obtain ⟨s1, h1⟩ := visitStmt_total b hp.2 hf
      (sc.setTacs (sc.tr.tacs ++ [Tac.JZero (st.tr.labelCount + 1) vc]))
    exact ⟨_, by rw [visitStmt_while, hc, ok_bind, h1, ok_bind]; rfl⟩
  | Stmt.DoWhileStmt c b, hp, hf, st => by
    simp only [Stmt.plainLvalues, Bool.and_eq_true] at hp
    simp only [Stmt.forsHaveCondition] at hf
    obtain ⟨s1, h1⟩ := visitStmt_total b hp.2 hf
      (((st.setLabels (st.tr.labelCount + 1) (st.tr.labelCount + 2)).bump 3 0).setTacs
          (st.tr.tacs ++ [Tac.Mark st.tr.labelCount]))
    obtain ⟨vc, sc, hc⟩ := visitExpr_total c hp.1
      (s1.setTacs (s1.tr.tacs ++ [Tac.Mark (st.tr.labelCount + 2)]))
    exact ⟨_, by rw [visitStmt_doWhile, h1, ok_bind, hc, ok_bind]; rfl⟩
  | Stmt.ForStmt ei vi cond upd b, hp, hf, st => by
    simp only [Stmt.plainLvalues, Bool.and_eq_true] at hp
    simp only [Stmt.forsHaveCondition, Bool.and_eq_true, Option.isSome_iff_exists] at hf
    obtain ⟨⟨c, rfl⟩, hfb⟩ := hf
    obtain ⟨⟨⟨⟨hp1, hp2⟩, hp3⟩, hp4⟩, hp5⟩ := hp
    obtain ⟨s1, h1⟩ := visitForInit_total ei vi hp1 hp2
      ((st.setLabels (st.tr.labelCount + 1) (st.tr.labelCount + 2)).bump 3 0)
    obtain ⟨vc, sc, hc⟩ := visitExpr_total c hp3
      (s1.setTacs (s1.tr.tacs ++ [Tac.Mark st.tr.labelCount]))
    obtain ⟨s2, h2⟩ := visitStmt_total b hp5 hfb
      (sc.setTacs (sc.tr.tacs ++ [Tac.JZero (st.tr.labelCount + 1) vc]))
    obtain ⟨s3, h3⟩ := visitForUpdate_total upd hp4
      (s2.setTacs (s2.tr.tacs ++ [Tac.Mark (st.tr.labelCount + 2)]))
    have : visitStmt (Stmt.ForStmt ei vi (some c) upd b) st
        = Except.ok ((s3.setLabels st.current_break_label st.current_continue_label).setTacs
            (s3.tr.tacs ++ [Tac.Jump st.tr.labelCount, Tac.Mark (st.tr.labelCount + 1)])) := by
      rw [visitStmt_for, h1, ok_bind]
      simp only [visitForCondition, hc, Except.map, ok_bind, readConditionVal, pure, Except.pure,
        h2, h3]
    exact ⟨_, this⟩
  | Stmt.BreakStmt, _, _, st => ⟨_, visitStmt_break st⟩
  | Stmt.ContStmt, _, _, st => ⟨_, visitStmt_cont st⟩
  | Stmt.CompStmt l, hp, hf, st => by
    rw [visitStmt_comp]
    exact visitStmtList_total l (by simpa [Stmt.plainLvalues] using hp)
      (by simpa [Stmt.forsHaveCondition] using hf) st
  | Stmt.ReturnStmt e, hp, _, st => by
    obtain ⟨v, s, hv⟩ := visitExpr_total e (by simpa [Stmt.plainLvalues] using hp) st
    exact ⟨_, by rw [visitStmt_return, hv, ok_bind]; rfl⟩
  | Stmt.EmptyStmt, _, _, st => ⟨_, visitStmt_empty st⟩
theorem visitStmtList_total : ∀ (l : StmtList), l.plainLvalues = true →
    l.forsHaveCondition = true → ∀ st, ∃ st', visitStmtList l st = Except.ok st'
  | StmtList.nil, _, _, st => ⟨_, visitStmtList_nil st⟩
  | StmtList.cons s l, hp, hf, st => by
    simp only [StmtList.plainLvalues, Bool.and_eq_true] at hp
    simp only [StmtList.forsHaveCondition, Bool.and_eq_true] at hf
    obtain ⟨s1, h1⟩ := visitStmt_total s hp.1 hf.1 st
    obtain ⟨s2, h2⟩ := visitStmtList_total l hp.2 hf.2 s1
    exact ⟨s2, by rw [visitStmtList_cons, h1, ok_bind, h2]⟩
end

/-! ## Function definitions -/

theorem visitFuncDefn_eq (f : FuncDefn) (st : Translation) :
    visitFuncDefn f st = (do
      let s5 ← visitStmtList f.stmts (funcBodyStart f st)
      pure (((s5.bump 0 1).setTacs (s5.tr.tacs ++
        [Tac.LoadImm4 s5.tr.tempCount 0, Tac.Return s5.tr.tempCount])).endFunc)) := by
  unfold visitFuncDefn funcBodyStart funcLabelled
  simp

theorem attachFormals_pieces (fs : List VarDecl) :
    ∀ (order : Int) (st : Translation),
      (attachFormals fs order st).tr.pieces = st.tr.pieces
        ∧ st.tr.tempCount ≤ (attachFormals fs order st).tr.tempCount := by
  induction fs with
  | nil => intro order st; exact ⟨rfl, le_refl _⟩
  | cons v rest ih =>
    intro order st
    rw [attachFormals]
    obtain ⟨h1, h2⟩ := ih (order + 1)
      ((st.setOrder v.sym order).getNewTempI4.2.attachTemp v.sym
        (st.setOrder v.sym order).getNewTempI4.1)
    refine ⟨h1, ?_⟩
    have : st.tr.tempCount ≤ ((st.setOrder v.sym order).getNewTempI4.2.attachTemp v.sym
        (st.setOrder v.sym order).getNewTempI4.1).tr.tempCount := by
      show st.tr.tempCount ≤ st.tr.tempCount + 1
      omega
    omega

theorem offsetFormals_pieces (fs : List VarDecl) :
    ∀ (st : Translation),
      (offsetFormals fs st).tr.pieces = st.tr.pieces
        ∧ (offsetFormals fs st).tr.tempCount = st.tr.tempCount := by
  induction fs with
  | nil => intro st; exact ⟨rfl, rfl⟩
  | cons v rest ih =>
    intro st
    rw [offsetFormals]
    exact ih _

theorem funcBodyStart_tacs (f : FuncDefn) (st : Translation) :
    (funcBodyStart f st).tr.tacs = [Tac.FuncEnter] := rfl

theorem funcBodyStart_pieces (f : FuncDefn) (st : Translation) :
    (funcBodyStart f st).tr.pieces = st.tr.pieces := by
  unfold funcBodyStart
  simp only []
  show (offsetFormals f.formals _).tr.pieces = st.tr.pieces
  rw [(offsetFormals_pieces f.formals _).1]
  show (attachFormals f.formals 0 (funcLabelled f st)).tr.pieces = st.tr.pieces
  rw [(attachFormals_pieces f.formals 0 (funcLabelled f st)).1]
  rfl

theorem funcBodyStart_tempCount (f : FuncDefn) (st : Translation) :
    st.tr.tempCount ≤ (funcBodyStart f st).tr.tempCount := by
  unfold funcBodyStart
  simp only []
  show st.tr.tempCount ≤ (offsetFormals f.formals _).tr.tempCount
  rw [(offsetFormals_pieces f.formals _).2]
  exact (attachFormals_pieces f.formals 0 (funcLabelled f st)).2

@[simp] theorem endFunc_pieces (st : Translation) :
    st.endFunc.tr.pieces = st.tr.pieces ++ [st.tr.tacs ++ [Tac.FuncExit]] := rfl

@[simp] theorem endFunc_tempCount (st : Translation) :
    st.endFunc.tr.tempCount = st.tr.tempCount := rfl

/-- The piece of a function whose lowering completes: function-enter, the
code of the statements, the default return, function-exit. -/
theorem visitFuncDefn_piece (f : FuncDefn) (st st' : Translation)
    (h : visitFuncDefn f st = Except.ok st') :
    ∃ s5 code, visitStmtList f.stmts (funcBodyStart f st) = Except.ok s5
      ∧ s5.tr.tacs = [Tac.FuncEnter] ++ code
      ∧ st.tr.tempCount ≤ s5.tr.tempCount
      ∧ st'.tr.tempCount = s5.tr.tempCount + 1
      ∧ st'.tr.pieces = st.tr.pieces ++ [[Tac.FuncEnter] ++ code ++
          [Tac.LoadImm4 s5.tr.tempCount 0, Tac.Return s5.tr.tempCount, Tac.FuncExit]] := by
  rw [visitFuncDefn_eq] at h
  simp only [bind_eq_ok, pure_eq_ok] at h
  obtain ⟨s5, h5, rfl⟩ := h
  obtain ⟨nl, nt, code, vs, hs5, -⟩ := visitStmtList_frame _ _ _ h5
  have ht : s5.tr.tacs = [Tac.FuncEnter] ++ code := by
    rw [hs5]; simp [funcBodyStart_tacs]
  have hp : s5.tr.pieces = st.tr.pieces := by
    rw [hs5]; simp [funcBodyStart_pieces]
  have hc : st.tr.tempCount ≤ s5.tr.tempCount := by
    have := funcBodyStart_tempCount f st
    rw [hs5]; simp; omega
  refine ⟨s5, code, h5, ht, hc, by simp, ?_⟩
  simp [hp, ht]

/-! ## C1: every jump target is marked exactly once -/

/-- C1: for a function definition in which every `break` and `continue` is
inside a loop, every `for` has a condition and every lvalue is a plain
variable, the lowering completes, hands over one piece, and every label that
is the target of a jump or of a conditional-jump-if-zero of the piece occurs
in exactly one mark-label instruction of the piece. -/
theorem jump_targets_marked_exactly_once (f : FuncDefn) (st : Translation)
    (hbreak : f.stmts.freeBreak = false) (hcont : f.stmts.freeCont = false)
    (hfor : f.stmts.forsHaveCondition = true) (hlv : f.stmts.plainLvalues = true) :
    ∃ st' piece, visitFuncDefn f st = Except.ok st'
      ∧ st'.tr.pieces = st.tr.pieces ++ [piece]
      ∧ ∀ l, IsJumpTarget l piece → piece.count (Tac.Mark l) = 1 := by
  obtain ⟨s5, h5⟩ := visitStmtList_total f.stmts hlv hfor (funcBodyStart f st)
  have hv : visitFuncDefn f st = Except.ok (((s5.bump 0 1).setTacs (s5.tr.tacs ++
        [Tac.LoadImm4 s5.tr.tempCount 0, Tac.Return s5.tr.tempCount])).endFunc) := by
    rw [visitFuncDefn_eq, h5]; rfl
  obtain ⟨s5', code, h5', ht, -, -, hp⟩ := visitFuncDefn_piece f st _ hv
  rw [h5] at h5'
  injection h5' with h5'
  subst h5'
  have I := visitStmtList_labels f.stmts _ _ code h5 (by rw [ht, funcBodyStart_tacs])
  rw [hbreak, hcont] at I
  refine ⟨_, _, hv, hp, fun l hl => ?_⟩
  rw [isJumpTarget_iff] at hl
  have h1 := I.once l
  have h2 := I.closed l
  simp at hl h2
  show markCount l _ = 1
  simp
  omega

/-- C1 on `while (x < 3) { if (x) break; else continue; }`. -/
theorem jump_targets_marked_exactly_once_witness :
    sampleLoopFunc.stmts.freeBreak = false ∧ sampleLoopFunc.stmts.freeCont = false
      ∧ sampleLoopFunc.stmts.forsHaveCondition = true
      ∧ sampleLoopFunc.stmts.plainLvalues = true
      ∧ ∃ st' piece, visitFuncDefn sampleLoopFunc sampleState = Except.ok st'
          ∧ st'.tr.pieces = sampleState.tr.pieces ++ [piece]
          ∧ ∀ l, IsJumpTarget l piece → piece.count (Tac.Mark l) = 1 :=
  ⟨rfl, rfl, rfl, rfl, jump_targets_marked_exactly_once sampleLoopFunc sampleState rfl rfl rfl rfl⟩

/-! ## C2: a `for` without a condition -/

/-- C2: the lowering of a `for` whose condition is absent never completes:
the conditional jump is emitted from the value of the condition node, which
is read through the null pointer; without an initializer the result is that
failure itself. -/
theorem for_without_condition_aborts (ei : Option Expr) (vi : Option VarDecl)
    (upd : Option Expr) (body : Stmt) (st : Translation) :
    (∀ st', visitStmt (Stmt.ForStmt ei vi none upd body) st ≠ Except.ok st')
      ∧ visitStmt (Stmt.ForStmt none none none upd body) st
          = Except.error TransError.null_dereference := by
  constructor
  · intro st' h
    rw [visitStmt_for] at h
    simp only [bind_eq_ok, pure_eq_ok] at h
    obtain ⟨s1, -, rc, hrc, val, hval, -⟩ := h
    obtain ⟨c, hc, -⟩ := for_condition_ok _ _ _ _ hrc hval
    cases hc
  · rw [visitStmt_for]
    rfl

/-! ## C4: the control-transfer context is restored -/

/-- C4: after the lowering of a statement or of an expression that
completes, the current break label and the current continue label are what
they were before it. -/
theorem control_context_restored (n : Node) (st st' : Translation)
    (h : visitNode n st = Except.ok st') :
    st'.current_break_label = st.current_break_label
      ∧ st'.current_continue_label = st.current_continue_label := by
  cases n with
  | stmt s =>
    obtain ⟨nl, nt, code, vs, rfl, -⟩ := visitStmt_frame s st st' h
    exact ⟨rfl, rfl⟩
  | expr e =>
    simp only [visitNode, map_eq_ok] at h
    obtain ⟨⟨v, s1⟩, h1, rfl⟩ := h
    obtain ⟨nl, nt, code, rfl, -⟩ := visitExpr_frame e st v s1 h1
    exact ⟨rfl, rfl⟩

/-- C4 on `while (1) { do { for (;1;) break; } while (0); }` lowered with the
current labels 7 and 9. -/
theorem control_context_restored_witness :
    ∃ st', visitNode (Node.stmt sampleNestedLoops) (sampleState.setLabels 7 9) = Except.ok st'
      ∧ st'.current_break_label = 7 ∧ st'.current_continue_label = 9 :=
  ⟨_, rfl, control_context_restored (Node.stmt sampleNestedLoops)
    (sampleState.setLabels 7 9) _ rfl⟩

/-! ## C5: `break` and `continue` outside a loop -/

/-- C5, as stated, fails: in the state the pass starts from, with no loop
entered, the lowering of a `break` completes and emits a jump. -/
theorem break_outside_loop_counterexample :
    ∃ st', visitStmt Stmt.BreakStmt sampleState = Except.ok st'
      ∧ st'.tr.tacs = [Tac.Jump 0] :=
  ⟨_, rfl, rfl⟩

/-- C5, amended: the lowering of a `break` or of a `continue` completes in
every state, inside a loop or not, and appends exactly one instruction, the
unconditional jump to the current break label, respectively to the current
continue label; nothing else of the state changes. -/
theorem break_continue_always_jump (st : Translation) :
    (∃ st', visitStmt Stmt.BreakStmt st = Except.ok st'
        ∧ st'.tr.tacs = st.tr.tacs ++ [Tac.Jump st.current_break_label]
        ∧ st' = { st with tr := { st.tr with tacs := st'.tr.tacs } })
      ∧ (∃ st', visitStmt Stmt.ContStmt st = Except.ok st'
        ∧ st'.tr.tacs = st.tr.tacs ++ [Tac.Jump st.current_continue_label]
        ∧ st' = { st with tr := { st.tr with tacs := st'.tr.tacs } }) :=
  ⟨⟨_, visitStmt_break st, rfl, rfl⟩, ⟨_, visitStmt_cont st, rfl, rfl⟩⟩

/-! ## C6: totality on well-formed programs -/

/-- C6: the program `int main() { for (;;) break; }` has only plain lvalues,
its `break` is inside a loop and its `for` has no initializer at all, and its
lowering aborts on the read of the absent condition. -/
theorem well_formed_program_aborts :
    sampleForeverFunc.stmts.plainLvalues = true
      ∧ sampleForeverFunc.stmts.freeBreak = false
      ∧ sampleForeverFunc.stmts.freeCont = false
      ∧ translate ⟨[sampleForeverFunc]⟩ 0 0 (fun _ => ⟨0, 0, 0⟩) (fun _ => ⟨0, 0, 0⟩)
          = Except.error TransError.null_dereference :=
  ⟨rfl, rfl, rfl, rfl⟩

/-! ## C8: the default return -/

/-- C8: the piece of a function whose lowering completes ends with the
load-immediate of 0 into the temporary `t` issued last, the return of `t`,
and function-exit, whatever the body is. -/
theorem default_return_ends_piece (f : FuncDefn) (st st' : Translation)
    (h : visitFuncDefn f st = Except.ok st') :
    ∃ body t, st'.tr.pieces = st.tr.pieces ++
        [body ++ [Tac.LoadImm4 t 0, Tac.Return t, Tac.FuncExit]]
      ∧ st.tr.tempCount ≤ t ∧ st'.tr.tempCount = t + 1 := by
  obtain ⟨s5, code, -, -, hc, ht, hp⟩ := visitFuncDefn_piece f st st' h
  exact ⟨[Tac.FuncEnter] ++ code, s5.tr.tempCount, hp, hc, ht⟩

/-- C8 on `int main() { return 7; }`, whose last statement is an explicit
return. -/
theorem default_return_ends_piece_witness :
    ∃ st', visitFuncDefn sampleReturnFunc sampleState = Except.ok st'
      ∧ st'.tr.pieces = [[Tac.FuncEnter, Tac.LoadImm4 0 7, Tac.Return 0,
          Tac.LoadImm4 1 0, Tac.Return 1, Tac.FuncExit]]
      ∧ ∃ body t, st'.tr.pieces = sampleState.tr.pieces ++
          [body ++ [Tac.LoadImm4 t 0, Tac.Return t, Tac.FuncExit]]
        ∧ sampleState.tr.tempCount ≤ t ∧ st'.tr.tempCount = t + 1 :=
  ⟨_, rfl, rfl, default_return_ends_piece sampleReturnFunc sampleState _ rfl⟩

/-! ## C9: chained assignment -/

/-- C9: for plain variables `x`, `y` and an expression `e` that is lowered
from `st` to the value `v` with the code `code`, the lowering of `y = e`
yields `v` after `code` and the assignment of `v` into the temporary of `y`,
and the lowering of `x = (y = e)` yields `v` after `code`, the assignment of
`v` into the temporary of `y` and then the assignment of `v` into the
temporary of `x`. -/
theorem chained_assignment (x y : Nat) (e : Expr) (st s1 : Translation) (v : Temp)
    (h : visitExpr e st = Except.ok (v, s1)) :
    ∃ code, s1.tr.tacs = st.tr.tacs ++ code
      ∧ (∃ s2, visitExpr (Expr.AssignExpr (plainVar y) e) st = Except.ok (v, s2)
          ∧ s2.tr.tacs = st.tr.tacs ++ code ++ [Tac.Assign (st.getTemp y) v])
      ∧ (∃ s3, visitExpr (Expr.AssignExpr (plainVar x) (Expr.AssignExpr (plainVar y) e)) st
            = Except.ok (v, s3)
          ∧ s3.tr.tacs = st.tr.tacs ++ code
              ++ [Tac.Assign (st.getTemp y) v, Tac.Assign (st.getTemp x) v]) := by
  obtain ⟨nl, nt, code, rfl, -⟩ := visitExpr_frame e st v s1 h
  have hx : ∀ s, visitVarRef (plainVar x) s = Except.ok s := fun s => by
    rw [visitVarRef_ok]; exact ⟨rfl, rfl⟩
  have hy : ∀ s, visitVarRef (plainVar y) s = Except.ok s := fun s => by
    rw [visitVarRef_ok]; exact ⟨rfl, rfl⟩
  have e1 : visitExpr (Expr.AssignExpr (plainVar y) e) st = Except.ok (v,
      ((st.bump nl nt).setTacs (st.tr.tacs ++ code ++ [Tac.Assign (st.getTemp y) v]))) := by
    rw [visitExpr_assign, hy, ok_bind, h, ok_bind]
    simp [pure, Except.pure, plainVar]
  have e2 : visitExpr (Expr.AssignExpr (plainVar x) (Expr.AssignExpr (plainVar y) e)) st
      = Except.ok (v, ((st.bump nl nt).setTacs (st.tr.tacs ++ code
          ++ [Tac.Assign (st.getTemp y) v, Tac.Assign (st.getTemp x) v]))) := by
    rw [visitExpr_assign, hx, ok_bind, e1, ok_bind]
    simp [pure, Except.pure, plainVar]
  exact ⟨code, by simp, ⟨_, e1, by simp⟩, ⟨_, e2, by simp⟩⟩

/-- C9 on `x = (y = 5)` with `x` bound to the temporary 10 and `y` to 11:
the temporary 0 is loaded with 5 and assigned to 11, then to 10. -/
theorem chained_assignment_witness :
    ∃ s3, visitExpr (Expr.AssignExpr (plainVar 1) (Expr.AssignExpr (plainVar 2) (Expr.IntConst 5)))
        (sampleState.setVars (fun s => if s = 1 then ⟨10, 0, 0⟩ else ⟨11, 0, 0⟩))
          = Except.ok (0, s3)
      ∧ s3.tr.tacs = [Tac.LoadImm4 0 5, Tac.Assign 11 0, Tac.Assign 10 0] := by
  obtain ⟨code, h1, -, s3, h3, h4⟩ := chained_assignment 1 2 (Expr.IntConst 5)
    (sampleState.setVars (fun s => if s = 1 then ⟨10, 0, 0⟩ else ⟨11, 0, 0⟩)) _ 0 rfl
  refine ⟨s3, h3, ?_⟩
  rw [h4]
  have : code = [Tac.LoadImm4 0 5] := by
    have := h1
    simpa [sampleState, Translation.create, TransHelper.create] using this.symm
  rw [this]
  rfl

/-! ## C7: the three labels of a loop -/

mutual
/-- A `break` and a `continue` outside the loops of a statement are lowered
to jumps to the two current labels. -/
theorem visitStmt_freeJumps : ∀ (s : Stmt) (st st' : Translation) (code : List Tac),
    visitStmt s st = Except.ok st' → st'.tr.tacs = st.tr.tacs ++ code →
    (s.freeBreak = true → 0 < targetCount st.current_break_label code)
      ∧ (s.freeCont = true → 0 < targetCount st.current_continue_label code)
  | Stmt.VarDecl _, _, _, _, _, _ => by simp [Stmt.freeBreak, Stmt.freeCont]
  | Stmt.ExprStmt _, _, _, _, _, _ => by simp [Stmt.freeBreak, Stmt.freeCont]
  | Stmt.IfStmt c t f, st, st', code, h, hcode => by
    rw [visitStmt_if] at h
    simp only [bind_eq_ok, pure_eq_ok] at h
    obtain ⟨⟨vc, sc⟩, hc, s1, h1, s2, h2, rfl⟩ := h
    obtain ⟨nlc, ntc, cc, rfl, -⟩ := visitExpr_frame c _ _ _ hc
    simp at h1
    obtain ⟨nlt, ntt, ct, vst, rfl, -⟩ := visitStmt_frame t _ _ h1
    have It := visitStmt_freeJumps t _ _ ct h1 (by simp)
    simp at h2
    obtain ⟨nlf, ntf, cf, vsf, rfl, -⟩ := visitStmt_frame f _ _ h2
    have If := visitStmt_freeJumps f _ _ cf h2 (by simp)
    simp at hcode
    subst hcode
    simp at It If
    simp only [Stmt.freeBreak, Stmt.freeCont, Bool.or_eq_true]
    constructor
    · rintro (hb | hb)
      · have := It.1 hb; simp; omega
      · have := If.1 hb; simp; omega
    · rintro (hb | hb)
      · have := It.2 hb; simp; omega
      · have := If.2 hb; simp; omega
  | Stmt.WhileStmt _ _, _, _, _, _, _ => by simp [Stmt.freeBreak, Stmt.freeCont]
  | Stmt.DoWhileStmt _ _, _, _, _, _, _ => by simp [Stmt.freeBreak, Stmt.freeCont]
  | Stmt.ForStmt _ _ _ _ _, _, _, _, _, _ => by simp [Stmt.freeBreak, Stmt.freeCont]
  | Stmt.BreakStmt, st, st', code, h, hcode => by
    rw [visitStmt_break] at h
    simp only [Except.ok.injEq] at h
    subst h
    simp at hcode
    subst hcode
    simp [Stmt.freeCont]
  | Stmt.ContStmt, st, st', code, h, hcode => by
    rw [visitStmt_cont] at h
    simp only [Except.ok.injEq] at h
    subst h
    simp at hcode
    subst hcode
    simp [Stmt.freeBreak]
  | Stmt.CompStmt l, st, st', code, h, hcode => by
    rw [visitStmt_comp] at h
    simp only [Stmt.freeBreak, Stmt.freeCont]
    exact visitStmtList_freeJumps l _ _ code h hcode
  | Stmt.ReturnStmt _, _, _, _, _, _ => by simp [Stmt.freeBreak, Stmt.freeCont]
  | Stmt.EmptyStmt, _, _, _, _, _ => by simp [Stmt.freeBreak, Stmt.freeCont]
theorem visitStmtList_freeJumps : ∀ (l : StmtList) (st st' : Translation) (code : List Tac),
    visitStmtList l st = Except.ok st' → st'.tr.tacs = st.tr.tacs ++ code →
    (l.freeBreak = true → 0 < targetCount st.current_break_label code)
      ∧ (l.freeCont = true → 0 < targetCount st.current_continue_label code)
  | StmtList.nil, _, _, _, _, _ => by simp [StmtList.freeBreak, StmtList.freeCont]
  | StmtList.cons s l, st, st', code, h, hcode => by
    rw [visitStmtList_cons] at h
    simp only [bind_eq_ok] at h
    obtain ⟨s1, h1, h2⟩ := h
    obtain ⟨nl1, nt1, c1, vs1, rfl, -⟩ := visitStmt_frame s _ _ h1
    have I1 := visitStmt_freeJumps s _ _ c1 h1 (by simp)
    obtain ⟨nl2, nt2, c2, vs2, rfl, -⟩ := visitStmtList_frame l _ _ h2
    have I2 := visitStmtList_freeJumps l _ _ c2 h2 (by simp)
    simp at hcode
    subst hcode
    simp at I1 I2
    simp only [StmtList.freeBreak, StmtList.freeCont, Bool.or_eq_true]
    constructor
    · rintro (hb | hb)
      · have := I1.1 hb; simp; omega
      · have := I2.1 hb; simp; omega
    · rintro (hb | hb)
      · have := I1.2 hb; simp; omega
      · have := I2.2 hb; simp; omega
end

/-- C7, as stated, fails: in the code of `while (1) ;` the continue label 2
is marked and is the target of no jump. -/
theorem loop_continue_label_counterexample :
    ∃ st', visitStmt (Stmt.WhileStmt (Expr.IntConst 1) Stmt.EmptyStmt) sampleState
        = Except.ok st'
      ∧ st'.tr.tacs = [Tac.Mark 0, Tac.LoadImm4 0 1, Tac.JZero 1 0, Tac.Mark 2, Tac.Jump 0,
          Tac.Mark 1]
      ∧ sampleState.getNewLabel.2.getNewLabel.2.getNewLabel.1 = 2
      ∧ ¬ IsJumpTarget 2 st'.tr.tacs := by
  refine ⟨_, rfl, rfl, rfl, ?_⟩
  rw [isJumpTarget_iff]
  decide

/-- C7, amended: in the code of a `while`, `do-while` or `for` with a
condition, each of the three labels the loop issues (entry, exit, continue
target) occurs in exactly one mark-label instruction; the entry label and
the exit label are targets of a jump; the continue target is the target of a
jump exactly when the body has a `continue` outside its inner loops. -/
theorem loop_labels_marked_and_targeted (hd : LoopHead) (body : Stmt)
    (st st' : Translation) (code : List Tac)
    (h : visitStmt (hd.toStmt body) st = Except.ok st')
    (hcode : st'.tr.tacs = st.tr.tacs ++ code) :
    code.count (Tac.Mark st.getNewLabel.1) = 1
      ∧ code.count (Tac.Mark st.getNewLabel.2.getNewLabel.1) = 1
      ∧ code.count (Tac.Mark st.getNewLabel.2.getNewLabel.2.getNewLabel.1) = 1
      ∧ IsJumpTarget st.getNewLabel.1 code
      ∧ IsJumpTarget st.getNewLabel.2.getNewLabel.1 code
      ∧ (IsJumpTarget st.getNewLabel.2.getNewLabel.2.getNewLabel.1 code
          ↔ body.freeCont = true) := by
  simp only [isJumpTarget_iff]
  show markCount st.tr.labelCount code = 1 ∧ markCount (st.tr.labelCount + 1) code = 1
    ∧ markCount (st.tr.labelCount + 2) code = 1 ∧ 0 < targetCount st.tr.labelCount code
    ∧ 0 < targetCount (st.tr.labelCount + 1) code
    ∧ (0 < targetCount (st.tr.labelCount + 2) code ↔ body.freeCont = true)
  cases hd with
  | whileLoop c =>
    simp only [LoopHead.toStmt] at h
    rw [visitStmt_while] at h
    simp only [bind_eq_ok, pure_eq_ok] at h
    obtain ⟨⟨vc, sc⟩, hc, s1, h1, rfl⟩ := h
    obtain ⟨nlc, ntc, cc, rfl, -⟩ := visitExpr_frame c _ _ _ hc
    have Ic := visitExpr_labels c _ _ _ cc hc (by simp)
    simp at h1
    obtain ⟨nlb, ntb, cb, vsb, rfl, -⟩ := visitStmt_frame body _ _ h1
    have Ib := visitStmt_labels body _ _ cb h1 (by simp)
    have Jb := (visitStmt_freeJumps body _ _ cb h1 (by simp)).2
    simp at hcode
    subst hcode
    simp at Ic Ib Jb
    have r0 := Ic.range st.tr.labelCount; have r1 := Ic.range (st.tr.labelCount + 1)
    have r2 := Ic.range (st.tr.labelCount + 2)
    have q0 := Ib.range st.tr.labelCount; have q1 := Ib.range (st.tr.labelCount + 1)
    have q2 := Ib.range (st.tr.labelCount + 2)
    have x2 := Ic.closed (st.tr.labelCount + 2); have y2 := Ib.closed (st.tr.labelCount + 2)
    cases hfb : body.freeBreak <;> cases hfc : body.freeCont <;>
      simp [hfb, hfc] at x2 y2 Jb ⊢ <;> omega
  | doWhileLoop c =>
    simp only [LoopHead.toStmt] at h
    rw [visitStmt_doWhile] at h
    simp only [bind_eq_ok, pure_eq_ok] at h
    obtain ⟨s1, h1, ⟨vc, sc⟩, hc, rfl⟩ := h
    obtain ⟨nlb, ntb, cb, vsb, rfl, -⟩ := visitStmt_frame body _ _ h1
    have Ib := visitStmt_labels body _ _ cb h1 (by simp)
    have Jb := (visitStmt_freeJumps body _ _ cb h1 (by simp)).2
    simp at hc
    obtain ⟨nlc, ntc, cc, rfl, -⟩ := visitExpr_frame c _ _ _ hc
    have Ic := visitExpr_labels c _ _ _ cc hc (by simp)
    simp at hcode
    subst hcode
    simp at Ic Ib Jb
    have r0 := Ic.range st.tr.labelCount; have r1 := Ic.range (st.tr.labelCount + 1)
    have r2 := Ic.range (st.tr.labelCount + 2)
    have q0 := Ib.range st.tr.labelCount; have q1 := Ib.range (st.tr.labelCount + 1)
    have q2 := Ib.range (st.tr.labelCount + 2)
    have x2 := Ic.closed (st.tr.labelCount + 2); have y2 := Ib.closed (st.tr.labelCount + 2)
    have := Ib.le
    cases hfb : body.freeBreak <;> cases hfc : body.freeCont <;>
      simp [hfb, hfc] at x2 y2 Jb ⊢ <;> omega
  | forLoop ei vi c upd =>
    simp only [LoopHead.toStmt] at h
    rw [visitStmt_for] at h
    simp only [bind_eq_ok, pure_eq_ok] at h
    obtain ⟨s1, h1, rc, hrc, val, hval, s2, h2, s3, h3, rfl⟩ := h
    obtain ⟨c', hc', hc⟩ := for_condition_ok _ _ _ _ hrc hval
    cases hc'
    obtain ⟨nli, nti, ci, vsi, rfl, -⟩ := visitForInit_frame ei vi _ _ h1
    have Ii := visitForInit_labels ei vi _ _ ci h1 (by simp)
    simp at hc
    obtain ⟨nlc, ntc, cc, hsc, -⟩ := visitExpr_frame c _ _ _ hc
    rw [hsc] at h2 hc
    have Ic := visitExpr_labels c _ _ _ cc hc (by simp)
    simp at h2
    obtain ⟨nlb, ntb, cb, vsb, rfl, -⟩ := visitStmt_frame body _ _ h2
    have Ib := visitStmt_labels body _ _ cb h2 (by simp)
    have Jb := (visitStmt_freeJumps body _ _ cb h2 (by simp)).2
    simp at h3
    obtain ⟨nlu, ntu, cu, vsu, rfl, -⟩ := visitForUpdate_frame upd _ _ h3
    have Iu := visitForUpdate_labels upd _ _ cu h3 (by simp)
    simp at hcode
    subst hcode
    simp at Ii Ic Ib Iu Jb
    have r0 := Ic.range st.tr.labelCount; have r1 := Ic.range (st.tr.labelCount + 1)
    have r2 := Ic.range (st.tr.labelCount + 2)
    have q0 := Ib.range st.tr.labelCount; have q1 := Ib.range (st.tr.labelCount + 1)
    have q2 := Ib.range (st.tr.labelCount + 2)
    have p0 := Ii.range st.tr.labelCount; have p1 := Ii.range (st.tr.labelCount + 1)
    have p2 := Ii.range (st.tr.labelCount + 2)
    have u0 := Iu.range st.tr.labelCount; have u1 := Iu.range (st.tr.labelCount + 1)
    have u2 := Iu.range (st.tr.labelCount + 2)
    have x2 := Ic.closed (st.tr.labelCount + 2); have y2 := Ib.closed (st.tr.labelCount + 2)
    have z2 := Ii.closed (st.tr.labelCount + 2); have w2 := Iu.closed (st.tr.labelCount + 2)
    have := Ib.le; have := Ic.le; have := Ii.le
    cases hfb : body.freeBreak <;> cases hfc : body.freeCont <;>
      simp [hfb, hfc] at x2 y2 z2 w2 Jb ⊢ <;> omega

/-- C7, amended, on `do { if (x) continue; else ; } while (0)`. -/
theorem loop_labels_marked_and_targeted_witness :
    ∃ st' code, visitStmt ((LoopHead.doWhileLoop (Expr.IntConst 0)).toStmt
        (Stmt.IfStmt (Expr.LvalueExpr (plainVar 1)) Stmt.ContStmt Stmt.EmptyStmt)) sampleState
          = Except.ok st'
      ∧ st'.tr.tacs = sampleState.tr.tacs ++ code
      ∧ code.count (Tac.Mark 0) = 1 ∧ code.count (Tac.Mark 1) = 1 ∧ code.count (Tac.Mark 2) = 1
      ∧ IsJumpTarget 0 code ∧ IsJumpTarget 1 code ∧ IsJumpTarget 2 code := by
  have h := loop_labels_marked_and_targeted (LoopHead.doWhileLoop (Expr.IntConst 0))
    (Stmt.IfStmt (Expr.LvalueExpr (plainVar 1)) Stmt.ContStmt Stmt.EmptyStmt) sampleState _ _
    rfl rfl
  exact ⟨_, _, rfl, rfl, h.1, h.2.1, h.2.2.1, h.2.2.2.1, h.2.2.2.2.1, h.2.2.2.2.2.2 rfl⟩

/-! ## C3: `break` and `continue` in nested loops -/

theorem visitStmtList_append : ∀ (a b : StmtList) (st : Translation),
    visitStmtList (a.append b) st = (visitStmtList a st >>= visitStmtList b)
  | StmtList.nil, b, st => by rw [StmtList.append, visitStmtList_nil]; rfl
  | StmtList.cons s r, b, st => by
    rw [StmtList.append, visitStmtList_cons, visitStmtList_cons]
    cases visitStmt s st with
    | error e => rfl
    | ok s1 => exact visitStmtList_append r b s1

theorem LowersThrough.refl (x : Stmt) (st st' : Translation)
    (h : visitStmt x st = Except.ok st') : LowersThrough (fun y => y) x st st' st st' [] [] :=
  ⟨h, by simp, by simp, fun y code hy => by simpa using hy⟩

theorem LowersThrough.trans {F G : Stmt → Stmt} {x : Stmt} {st st' s1 s1' s2 s2' : Translation}
    {p1 q1 p2 q2 : List Tac} (h1 : LowersThrough F (G x) st st' s1 s1' p1 q1)
    (h2 : LowersThrough G x s1 s1' s2 s2' p2 q2) :
    LowersThrough (fun y => F (G y)) x st st' s2 s2' (p1 ++ p2) (q2 ++ q1) := by
  obtain ⟨a1, a2, a3, a4⟩ := h1
  obtain ⟨b1, b2, b3, b4⟩ := h2
  refine ⟨b1, by rw [b2, a2]; simp, by rw [a3, b3]; simp, fun y code hy => ?_⟩
  have := a4 (G y) (p2 ++ code ++ q2) (by simpa using b4 y code hy)
  simpa using this

theorem lowers_ifTrue (c : Expr) (f x : Stmt) (st st' : Translation)
    (h : visitStmt (Stmt.IfStmt c x f) st = Except.ok st') :
    ∃ sx sx' before after,
      LowersThrough (fun y => Stmt.IfStmt c y f) x st st' sx sx' before after
        ∧ sx.current_break_label = st.current_break_label
        ∧ sx.current_continue_label = st.current_continue_label
        ∧ st.tr.labelCount ≤ sx.tr.labelCount := by
  rw [visitStmt_if] at h
  simp only [bind_eq_ok, pure_eq_ok] at h
  obtain ⟨⟨vc, sc⟩, hc, s1, h1, s2, h2, rfl⟩ := h
  obtain ⟨nlc, ntc, cc, rfl, -⟩ := visitExpr_frame c _ _ _ hc
  obtain ⟨nlf, ntf, cf, vsf, rfl, Ff⟩ := visitStmt_frame f _ _ h2
  simp at h1 Ff
  refine ⟨_, s1, cc ++ [Tac.JZero st.tr.labelCount vc],
    [Tac.Jump (st.tr.labelCount + 1), Tac.Mark st.tr.labelCount] ++ cf
      ++ [Tac.Mark (st.tr.labelCount + 1)],
    ⟨h1, by simp, by simp, fun y code hy => ?_⟩, by simp, by simp, by simp⟩
  simp at hy hc
  rw [visitStmt_if]
  simp [hc, hy, Ff, ok_bind, pure, Except.pure]

theorem lowers_ifFalse (c : Expr) (t x : Stmt) (st st' : Translation)
    (h : visitStmt (Stmt.IfStmt c t x) st = Except.ok st') :
    ∃ sx sx' before after,
      LowersThrough (fun y => Stmt.IfStmt c t y) x st st' sx sx' before after
        ∧ sx.current_break_label = st.current_break_label
        ∧ sx.current_continue_label = st.current_continue_label
        ∧ st.tr.labelCount ≤ sx.tr.labelCount := by
  rw [visitStmt_if] at h
  simp only [bind_eq_ok, pure_eq_ok] at h
  obtain ⟨⟨vc, sc⟩, hc, s1, h1, s2, h2, rfl⟩ := h
  obtain ⟨nlc, ntc, cc, rfl, -⟩ := visitExpr_frame c _ _ _ hc
  simp at h1
  obtain ⟨nlt, ntt, ct, vst, rfl, -⟩ := visitStmt_frame t _ _ h1
  simp at h2
  refine ⟨_, s2, cc ++ [Tac.JZero st.tr.labelCount vc] ++ ct
      ++ [Tac.Jump (st.tr.labelCount + 1), Tac.Mark st.tr.labelCount],
    [Tac.Mark (st.tr.labelCount + 1)],
    ⟨h2, by simp, by simp, fun y code hy => ?_⟩, by simp, by simp, by simp⟩
  simp at hy hc h1
  rw [visitStmt_if]
  simp [hc, h1, hy, ok_bind, pure, Except.pure]

theorem lowers_comp (before after : StmtList) (x : Stmt) (st st' : Translation)
    (h : visitStmt (Stmt.CompStmt (before.append (StmtList.cons x after))) st = Except.ok st') :
    ∃ sx sx' pre post,
      LowersThrough (fun y => Stmt.CompStmt (before.append (StmtList.cons y after)))
          x st st' sx sx' pre post
        ∧ sx.current_break_label = st.current_break_label
        ∧ sx.current_continue_label = st.current_continue_label
        ∧ st.tr.labelCount ≤ sx.tr.labelCount := by
  rw [visitStmt_comp, visitStmtList_append] at h
  simp only [bind_eq_ok] at h
  obtain ⟨sa, ha, h2⟩ := h
  rw [visitStmtList_cons] at h2
  simp only [bind_eq_ok] at h2
  obtain ⟨sb, hb, hc⟩ := h2
  obtain ⟨nla, nta, ca, vsa, rfl, -⟩ := visitStmtList_frame before _ _ ha
  obtain ⟨nlc, ntc, cc, vsc, rfl, Fc⟩ := visitStmtList_frame after _ _ hc
  refine ⟨_, sb, ca, cc, ⟨hb, by simp, by simp, fun y code hy => ?_⟩, by simp, by simp,
    by simp⟩
  rw [visitStmt_comp, visitStmtList_append, ha, ok_bind, visitStmtList_cons, hy, ok_bind]
  simp [Fc]

theorem lowers_while (c : Expr) (x : Stmt) (st st' : Translation)
    (h : visitStmt (Stmt.WhileStmt c x) st = Except.ok st') :
    ∃ sx sx' before after,
      LowersThrough (fun y => Stmt.WhileStmt c y) x st st' sx sx' before after
        ∧ sx.current_break_label = exitLabel st
        ∧ sx.current_continue_label = continueLabel st
        ∧ st.tr.labelCount + 3 ≤ sx.tr.labelCount
        ∧ (∃ q r, after = q ++ [Tac.Mark (continueLabel st)] ++ r ++ [Tac.Mark (exitLabel st)]) := by
  rw [visitStmt_while] at h
  simp only [bind_eq_ok, pure_eq_ok] at h
  obtain ⟨⟨vc, sc⟩, hc, s1, h1, rfl⟩ := h
  obtain ⟨nlc, ntc, cc, rfl, -⟩ := visitExpr_frame c _ _ _ hc
  simp at h1
  refine ⟨_, s1, [Tac.Mark st.tr.labelCount] ++ cc ++ [Tac.JZero (st.tr.labelCount + 1) vc],
    [Tac.Mark (st.tr.labelCount + 2), Tac.Jump st.tr.labelCount,
      Tac.Mark (st.tr.labelCount + 1)],
    ⟨h1, by simp, by simp, fun y code hy => ?_⟩, rfl, rfl, by simp,
    ⟨[], [Tac.Jump st.tr.labelCount], rfl⟩⟩
  simp at hy hc
  rw [visitStmt_while]
  simp [hc, hy, ok_bind, pure, Except.pure]

theorem lowers_doWhile (c : Expr) (x : Stmt) (st st' : Translation)
    (h : visitStmt (Stmt.DoWhileStmt c x) st = Except.ok st') :
    ∃ sx sx' before after,
      LowersThrough (fun y => Stmt.DoWhileStmt c y) x st st' sx sx' before after
        ∧ sx.current_break_label = exitLabel st
        ∧ sx.current_continue_label = continueLabel st
        ∧ st.tr.labelCount + 3 ≤ sx.tr.labelCount
        ∧ (∃ q r, after = q ++ [Tac.Mark (continueLabel st)] ++ r ++ [Tac.Mark (exitLabel st)]) := by
  rw [visitStmt_doWhile] at h
  simp only [bind_eq_ok, pure_eq_ok] at h
  obtain ⟨s1, h1, ⟨vc, sc⟩, hc, rfl⟩ := h
  obtain ⟨nlc, ntc, cc, rfl, Fc⟩ := visitExpr_frame c _ _ _ hc
  simp at Fc
  refine ⟨_, s1, [Tac.Mark st.tr.labelCount],
    [Tac.Mark (st.tr.labelCount + 2)] ++ cc ++ [Tac.JZero (st.tr.labelCount + 1) vc,
      Tac.Jump st.tr.labelCount, Tac.Mark (st.tr.labelCount + 1)],
    ⟨h1, by simp, by simp, fun y code hy => ?_⟩, rfl, rfl, by simp,
    ⟨[], cc ++ [Tac.JZero (st.tr.labelCount + 1) vc, Tac.Jump st.tr.labelCount],
      by simp [exitLabel, continueLabel]⟩⟩
  simp at hy
  rw [visitStmt_doWhile]
  simp [hy, Fc, ok_bind, pure, Except.pure]

theorem lowers_for (ei : Option Expr) (vi : Option VarDecl) (c : Expr) (upd : Option Expr)
    (x : Stmt) (st st' : Translation)
    (h : visitStmt (Stmt.ForStmt ei vi (some c) upd x) st = Except.ok st') :
    ∃ sx sx' before after,
      LowersThrough (fun y => Stmt.ForStmt ei vi (some c) upd y) x st st' sx sx' before after
        ∧ sx.current_break_label = exitLabel st
        ∧ sx.current_continue_label = continueLabel st
        ∧ st.tr.labelCount + 3 ≤ sx.tr.labelCount
        ∧ (∃ q r, after = q ++ [Tac.Mark (continueLabel st)] ++ r ++ [Tac.Mark (exitLabel st)]) := by
  rw [visitStmt_for] at h
  simp only [bind_eq_ok, pure_eq_ok] at h
  obtain ⟨s1, h1, rc, hrc, val, hval, s2, h2, s3, h3, rfl⟩ := h
  obtain ⟨c', hc', hc⟩ := for_condition_ok _ _ _ _ hrc hval
  cases hc'
  obtain ⟨nli, nti, ci, vsi, rfl, -⟩ := visitForInit_frame ei vi _ _ h1
  simp at hc
  obtain ⟨nlc, ntc, cc, hsc, -⟩ := visitExpr_frame c _ _ _ hc
  rw [hsc] at h2 hc
  simp at h2
  obtain ⟨nlu, ntu, cu, vsu, rfl, Fu⟩ := visitForUpdate_frame upd _ _ h3
  simp at Fu
  refine ⟨_, s2, ci ++ [Tac.Mark st.tr.labelCount] ++ cc
      ++ [Tac.JZero (st.tr.labelCount + 1) val],
    [Tac.Mark (st.tr.labelCount + 2)] ++ cu ++ [Tac.Jump st.tr.labelCount,
      Tac.Mark (st.tr.labelCount + 1)],
    ⟨h2, by simp, by simp, fun y code hy => ?_⟩, rfl, rfl, by simp; omega,
    ⟨[], cu ++ [Tac.Jump st.tr.labelCount], by simp [exitLabel, continueLabel]⟩⟩
  simp at hy hc h1
  rw [visitStmt_for]
  simp [h1, visitForCondition, hc, Except.map, readConditionVal, hy, Fu, ok_bind, pure,
    Except.pure]

/-- The statement at a position reached without entering a loop is lowered
with the labels that are current for the whole statement. -/
theorem ctx_lowering (C : Ctx) :
    ∀ (x : Stmt) (st st' : Translation), visitStmt (C.plug x) st = Except.ok st' →
    ∃ sx sx' before after,
      LowersThrough C.plug x st st' sx sx' before after
        ∧ sx.current_break_label = st.current_break_label
        ∧ sx.current_continue_label = st.current_continue_label
        ∧ st.tr.labelCount ≤ sx.tr.labelCount := by
  induction C with
  | hole =>
    intro x st st' h
    exact ⟨st, st', [], [], LowersThrough.refl x st st' h, rfl, rfl, le_refl _⟩
  | ifTrue c inner f ih =>
    intro x st st' h
    obtain ⟨s1, s1', p1, q1, L1, b1, c1, l1⟩ := lowers_ifTrue c f (inner.plug x) st st' h
    obtain ⟨s2, s2', p2, q2, L2, b2, c2, l2⟩ := ih x s1 s1' L1.1
    exact ⟨s2, s2', p1 ++ p2, q2 ++ q1, L1.trans L2, by rw [b2, b1], by rw [c2, c1],
      le_trans l1 l2⟩
  | ifFalse c t inner ih =>
    intro x st st' h
    obtain ⟨s1, s1', p1, q1, L1, b1, c1, l1⟩ := lowers_ifFalse c t (inner.plug x) st st' h
    obtain ⟨s2, s2', p2, q2, L2, b2, c2, l2⟩ := ih x s1 s1' L1.1
    exact ⟨s2, s2', p1 ++ p2, q2 ++ q1, L1.trans L2, by rw [b2, b1], by rw [c2, c1],
      le_trans l1 l2⟩
  | comp before inner after ih =>
    intro x st st' h
    obtain ⟨s1, s1', p1, q1, L1, b1, c1, l1⟩ := lowers_comp before after (inner.plug x) st st' h
    obtain ⟨s2, s2', p2, q2, L2, b2, c2, l2⟩ := ih x s1 s1' L1.1
    exact ⟨s2, s2', p1 ++ p2, q2 ++ q1, L1.trans L2, by rw [b2, b1], by rw [c2, c1],
      le_trans l1 l2⟩

/-- The body of a loop with a condition is lowered with the exit label and
the continue label of the loop current, and the code of the loop ends with
the mark of its exit label. -/
theorem lowers_loop (hd : LoopHead) (x : Stmt) (st st' : Translation)
    (h : visitStmt (hd.toStmt x) st = Except.ok st') :
    ∃ sx sx' before after,
      LowersThrough hd.toStmt x st st' sx sx' before after
        ∧ sx.current_break_label = exitLabel st
        ∧ sx.current_continue_label = continueLabel st
        ∧ st.tr.labelCount + 3 ≤ sx.tr.labelCount
        ∧ (∃ q r, after = q ++ [Tac.Mark (continueLabel st)] ++ r ++ [Tac.Mark (exitLabel st)]) := by
  cases hd with
  | whileLoop c => exact lowers_while c x st st' h
  | doWhileLoop c => exact lowers_doWhile c x st st' h
  | forLoop ei vi c upd => exact lowers_for ei vi c upd x st st' h

/-- The statement at a position of the body of a loop that is in no deeper
loop is lowered with the labels of the loop current. -/
theorem loop_lowering (hd : LoopHead) (C : Ctx) (x : Stmt) (st st' : Translation)
    (h : visitStmt (hd.toStmt (C.plug x)) st = Except.ok st') :
    ∃ sx sx' before after,
      LowersThrough (fun y => hd.toStmt (C.plug y)) x st st' sx sx' before after
        ∧ sx.current_break_label = exitLabel st
        ∧ sx.current_continue_label = continueLabel st
        ∧ st.tr.labelCount + 3 ≤ sx.tr.labelCount
        ∧ (∃ q r, after = q ++ [Tac.Mark (continueLabel st)] ++ r ++ [Tac.Mark (exitLabel st)]) := by
  obtain ⟨s1, s1', p1, q1, L1, b1, c1, l1, ⟨q, r, hq⟩⟩ := lowers_loop hd (C.plug x) st st' h
  obtain ⟨s2, s2', p2, q2, L2, b2, c2, l2⟩ := ctx_lowering C x s1 s1' L1.1
  exact ⟨s2, s2', p1 ++ p2, q2 ++ q1, L1.trans L2, by rw [b2, b1], by rw [c2, c1],
    le_trans l1 l2, ⟨q2 ++ q, r, by rw [hq]; simp⟩⟩

/-- A `break` or `continue` at a position of the body of a loop that is in
no deeper loop is lowered to the jump to the exit label, respectively to the
continue label, of that loop: the code of the loop is the code of the loop
with the empty statement at that position, with that one jump added. -/
theorem loop_jump (hd : LoopHead) (C : Ctx) (j : JumpKind) (st st' : Translation)
    (h : visitStmt (hd.toStmt (C.plug j.toStmt)) st = Except.ok st') :
    ∃ before after,
      st'.tr.tacs = st.tr.tacs ++ before ++ [Tac.Jump (j.loopLabel st)] ++ after
        ∧ (∃ q r, after = q ++ [Tac.Mark (continueLabel st)] ++ r ++ [Tac.Mark (exitLabel st)])
        ∧ visitStmt (hd.toStmt (C.plug Stmt.EmptyStmt)) st
            = Except.ok (st'.setTacs (st.tr.tacs ++ before ++ after)) := by
  obtain ⟨sx, sx', before, after, ⟨hj, hpre, hpost, hcongr⟩, hb, hc, -, hq⟩ :=
    loop_lowering hd C j.toStmt st st' h
  have hsx : sx' = sx.setTacs (sx.tr.tacs ++ [Tac.Jump (j.loopLabel st)]) := by
    cases j with
    | breakJump =>
      simp only [JumpKind.toStmt, visitStmt_break, Except.ok.injEq] at hj
      rw [← hj, hb]; rfl
    | continueJump =>
      simp only [JumpKind.toStmt, visitStmt_cont, Except.ok.injEq] at hj
      rw [← hj, hc]; rfl
  refine ⟨before, after, ?_, hq, ?_⟩
  · rw [hpost, hsx, Translation.setTacs_tacs, hpre]
  · have := hcongr Stmt.EmptyStmt [] (by rw [visitStmt_empty, hsx]; simp)
    simpa using this

/-- C3: let the loop `B` be at a position of the body of the loop `A` that
is in no deeper loop. `B` is lowered, within the code of `A`, from a state
in which the exit and continue labels of `A` are current, and leaves them
current; the labels of `B` are not those of `A`; a `break` (`continue`) of
the body of `B` in no deeper loop is lowered to the jump to the exit
(continue) label of `B`; and a `break` (`continue`) of the body of `A` in no
deeper loop, wherever `B` stands, is lowered to the jump to the exit
(continue) label of `A`. Each time the code is the code of the same loop with
the empty statement in place of the jump statement, with that one jump
added. -/
theorem nested_jumps_resolve_to_innermost_loop
    (hA hB : LoopHead) (CA CB CO : Ctx) (j jo : JumpKind) (st st' so so' : Translation)
    (hin : visitStmt (hA.toStmt (CA.plug (hB.toStmt (CB.plug j.toStmt)))) st = Except.ok st')
    (hout : visitStmt (hA.toStmt (CO.plug jo.toStmt)) so = Except.ok so') :
    (∃ sB sB' beforeB afterB before after,
        visitStmt (hB.toStmt (CB.plug j.toStmt)) sB = Except.ok sB'
        ∧ sB.tr.tacs = st.tr.tacs ++ beforeB ∧ st'.tr.tacs = sB'.tr.tacs ++ afterB
        ∧ sB.current_break_label = exitLabel st
        ∧ sB.current_continue_label = continueLabel st
        ∧ sB'.current_break_label = exitLabel st
        ∧ sB'.current_continue_label = continueLabel st
        ∧ exitLabel sB ≠ exitLabel st ∧ exitLabel sB ≠ continueLabel st
        ∧ continueLabel sB ≠ exitLabel st ∧ continueLabel sB ≠ continueLabel st
        ∧ sB'.tr.tacs = sB.tr.tacs ++ before ++ [Tac.Jump (j.loopLabel sB)] ++ after
        ∧ (∃ q r, after = q ++ [Tac.Mark (continueLabel sB)] ++ r ++ [Tac.Mark (exitLabel sB)])
        ∧ visitStmt (hA.toStmt (CA.plug (hB.toStmt (CB.plug Stmt.EmptyStmt)))) st
            = Except.ok (st'.setTacs (st.tr.tacs ++ beforeB ++ before ++ after ++ afterB)))
      ∧ (∃ before after,
        so'.tr.tacs = so.tr.tacs ++ before ++ [Tac.Jump (jo.loopLabel so)] ++ after
        ∧ (∃ q r, after = q ++ [Tac.Mark (continueLabel so)] ++ r ++ [Tac.Mark (exitLabel so)])
        ∧ visitStmt (hA.toStmt (CO.plug Stmt.EmptyStmt)) so
            = Except.ok (so'.setTacs (so.tr.tacs ++ before ++ after))) := by
  refine ⟨?_, loop_jump hA CO jo so so' hout⟩
  obtain ⟨sB, sB', beforeB, afterB, ⟨hB1, hB2, hB3, hB4⟩, bA, cA, lA, -⟩ :=
    loop_lowering hA CA (hB.toStmt (CB.plug j.toStmt)) st st' hin
  obtain ⟨before, after, hj, hq, hE⟩ := loop_jump hB CB j sB sB' hB1
  obtain ⟨nl, nt, code, vs, hshape, -⟩ := visitStmt_frame _ _ _ hB1
  have bA' : sB'.current_break_label = exitLabel st := by rw [hshape]; exact bA
  have cA' : sB'.current_continue_label = continueLabel st := by rw [hshape]; exact cA
  have hA' := hB4 (hB.toStmt (CB.plug Stmt.EmptyStmt)) (before ++ after)
    (by rw [hE]; simp)
  refine ⟨sB, sB', beforeB, afterB, before, after, hB1, hB2, hB3, bA, cA, bA', cA', ?_, ?_, ?_,
    ?_, hj, hq, by simpa using hA'⟩ <;>
  · simp only [exitLabel, continueLabel, Translation.getNewLabel_eq, Translation.bump_labelCount]
    exact Nat.ne_of_gt (by omega)

/-- C3 on `while (1) { while (2) { break; } continue; }`: the inner `break`
becomes the jump to the label 4 that ends the inner loop, the `continue`
after the inner loop the jump to the continue label 2 of the outer loop. -/
theorem nested_jumps_resolve_to_innermost_loop_witness :
    ∃ st', visitStmt sampleLoopInLoop sampleState = Except.ok st'
      ∧ st'.tr.tacs = [Tac.Mark 0, Tac.LoadImm4 0 1, Tac.JZero 1 0,
          Tac.Mark 3, Tac.LoadImm4 1 2, Tac.JZero 4 1, Tac.Jump 4, Tac.Mark 5, Tac.Jump 3,
          Tac.Mark 4, Tac.Jump 2, Tac.Mark 2, Tac.Jump 0, Tac.Mark 1]
      ∧ ∃ before after, st'.tr.tacs
          = sampleState.tr.tacs ++ before ++ [Tac.Jump 2] ++ after := by
  have h := nested_jumps_resolve_to_innermost_loop
    (LoopHead.whileLoop (Expr.IntConst 1)) (LoopHead.whileLoop (Expr.IntConst 2))
    (Ctx.comp StmtList.nil Ctx.hole (StmtList.cons Stmt.ContStmt StmtList.nil)) Ctx.hole
    (Ctx.comp (StmtList.cons (Stmt.WhileStmt (Expr.IntConst 2) Stmt.BreakStmt) StmtList.nil)
      Ctx.hole StmtList.nil)
    JumpKind.breakJump JumpKind.continueJump sampleState _ sampleState _ rfl rfl
  obtain ⟨before, after, h1, -, -⟩ := h.2
  exact ⟨_, rfl, rfl, before, after, h1⟩

/-! ## C10: the conditional expression, and the execution of its code -/

theorem Runs.append {P : List Tac} {a b c : Machine} {t1 t2 : List Nat}
    (h1 : Runs P a b t1) (h2 : Runs P b c t2) : Runs P a c (t1 ++ t2) := by
  induction h1 with
  | done m => simpa using h2
  | more hs _ ih => exact Runs.more hs (ih h2)

theorem Runs.toExec {P : List Tac} {a b : Machine} {t : List Nat} (h : Runs P a b t) :
    ∃ n, exec P n a = (b, t) := by
  induction h with
  | done m => exact ⟨0, rfl⟩
  | more hs _ ih =>
    obtain ⟨n, hn⟩ := ih
    exact ⟨n + 1, by simp [exec, hs, hn]⟩

theorem Runs.one {P : List Tac} {m m1 : Machine} (h : step P m = some m1) :
    Runs P m m1 [m.pc] :=
  Runs.more h (Runs.done m1)

theorem getElem?_middle (a : List Tac) (x : Tac) (b : List Tac) :
    (a ++ x :: b)[a.length]? = some x := by
  rw [List.getElem?_append_right (le_refl _)]
  simp

theorem jumpTo_mark (a b : List Tac) (l : Nat) (m : Machine) (h : markCount l a = 0) :
    jumpTo (a ++ Tac.Mark l :: b) l m = some { m with pc := a.length } := by
  have hn : Tac.Mark l ∉ a := by
    rw [markCount, List.count_eq_zero] at h; exact h
  unfold jumpTo
  rw [if_pos (by simp), List.indexOf_append_of_not_mem hn, List.indexOf_cons_self]
  rfl

theorem lookup {P a b : List Tac} {x : Tac} {k : Nat} (hP : P = a ++ x :: b)
    (hk : k = a.length) : P[k]? = some x := by
  rw [hP, hk]; exact getElem?_middle a x b

theorem step_write {P : List Tac} {m : Machine} {d s : Temp}
    (h : P[m.pc]? = some (Tac.Assign d s)) : step P m = some (m.write d (m.regs s)) := by
  simp [step, h]

theorem step_jump {P a b : List Tac} {m : Machine} {l : Nat}
    (h : P[m.pc]? = some (Tac.Jump l)) (hP : P = a ++ Tac.Mark l :: b)
    (hm : markCount l a = 0) : step P m = some { m with pc := a.length } := by
  simp only [step, h]
  rw [hP]
  exact jumpTo_mark a b l m hm

theorem step_jzero_zero {P a b : List Tac} {m : Machine} {l : Nat} {c : Temp}
    (h : P[m.pc]? = some (Tac.JZero l c)) (hz : m.regs c = 0) (hP : P = a ++ Tac.Mark l :: b)
    (hm : markCount l a = 0) : step P m = some { m with pc := a.length } := by
  simp only [step, h, hz, if_true]
  rw [hP]
  exact jumpTo_mark a b l m hm

theorem step_jzero_nonzero {P : List Tac} {m : Machine} {l : Nat} {c : Temp}
    (h : P[m.pc]? = some (Tac.JZero l c)) (hz : m.regs c ≠ 0) : step P m = some m.next := by
  simp [step, h, hz]

theorem step_mark {P : List Tac} {m : Machine} {l : Nat}
    (h : P[m.pc]? = some (Tac.Mark l)) : step P m = some m.next := by
  simp [step, h]

/-- The run of the code of a conditional expression, given the runs of the
codes of its three parts: the code of the condition runs to the test; when
the tested value is not zero the code of the true branch, the first
assignment and the jump to the join label run, else the code of the false
branch and the second assignment. -/
theorem ternary_run (P pre post cc ct cf : List Tac) (L1 L2 : Nat) (vc r vt vf : Temp)
    (i : Nat)
    (hP : P = pre ++ (cc ++ [Tac.JZero L1 vc] ++ ct
      ++ [Tac.Assign r vt, Tac.Jump L2, Tac.Mark L1] ++ cf
      ++ [Tac.Assign r vf, Tac.Mark L2]) ++ post)
    (hi : i = pre.length) (hne : L1 ≠ L2)
    (h1 : markCount L1 pre = 0 ∧ markCount L1 cc = 0 ∧ markCount L1 ct = 0)
    (h2 : markCount L2 pre = 0 ∧ markCount L2 cc = 0 ∧ markCount L2 ct = 0
      ∧ markCount L2 cf = 0)
    (Hc : ∀ regs, ∃ regs' tr, Runs P ⟨i, regs⟩ ⟨i + cc.length, regs'⟩ tr
      ∧ ∀ k ∈ tr, i ≤ k ∧ k < i + cc.length)
    (Ht : ∀ regs, ∃ regs' tr, Runs P ⟨i + cc.length + 1, regs⟩
        ⟨i + cc.length + 1 + ct.length, regs'⟩ tr
      ∧ ∀ k ∈ tr, i + cc.length + 1 ≤ k ∧ k < i + cc.length + 1 + ct.length)
    (Hf : ∀ regs, ∃ regs' tr, Runs P ⟨i + cc.length + 1 + ct.length + 3, regs⟩
        ⟨i + cc.length + 1 + ct.length + 3 + cf.length, regs'⟩ tr
      ∧ ∀ k ∈ tr, i + cc.length + 1 + ct.length + 3 ≤ k
          ∧ k < i + cc.length + 1 + ct.length + 3 + cf.length)
    (regs : Temp → Int) :
    ∃ regsC regs' trC tr,
      Runs P ⟨i, regs⟩ ⟨i + cc.length, regsC⟩ trC
      ∧ Runs P ⟨i, regs⟩ ⟨i + (cc.length + 1 + ct.length + 3 + cf.length + 2), regs'⟩ tr
      ∧ (∀ k ∈ tr, i ≤ k ∧ k < i + (cc.length + 1 + ct.length + 3 + cf.length + 2))
      ∧ (regsC vc ≠ 0 → tr.count (i + cc.length + 1 + ct.length) = 1
          ∧ tr.count (i + cc.length + 1 + ct.length + 3 + cf.length) = 0
          ∧ regs' r = regs' vt)
      ∧ (regsC vc = 0 → tr.count (i + cc.length + 1 + ct.length) = 0
          ∧ tr.count (i + cc.length + 1 + ct.length + 3 + cf.length) = 1
          ∧ regs' r = regs' vf) := by
  obtain ⟨regsC, trC, RC, BC⟩ := Hc regs
  have hJZ : P[i + cc.length]? = some (Tac.JZero L1 vc) :=
    lookup (a := pre ++ cc)
      (b := ct ++ [Tac.Assign r vt] ++ [Tac.Jump L2] ++ [Tac.Mark L1] ++ cf ++ [Tac.Assign r vf] ++ [Tac.Mark L2] ++ post) (by rw [hP]; simp) (by simp [hi]; try omega)
  have hA1 : P[i + cc.length + 1 + ct.length]? = some (Tac.Assign r vt) :=
    lookup (a := pre ++ cc ++ [Tac.JZero L1 vc] ++ ct)
      (b := [Tac.Jump L2] ++ [Tac.Mark L1] ++ cf ++ [Tac.Assign r vf] ++ [Tac.Mark L2] ++ post) (by rw [hP]; simp) (by simp [hi]; try omega)
  have hJ : P[i + cc.length + 1 + ct.length + 1]? = some (Tac.Jump L2) :=
    lookup (a := pre ++ cc ++ [Tac.JZero L1 vc] ++ ct ++ [Tac.Assign r vt])
      (b := [Tac.Mark L1] ++ cf ++ [Tac.Assign r vf] ++ [Tac.Mark L2] ++ post) (by rw [hP]; simp) (by simp [hi]; try omega)
  have hM1 : P[i + cc.length + 1 + ct.length + 2]? = some (Tac.Mark L1) :=
    lookup (a := pre ++ cc ++ [Tac.JZero L1 vc] ++ ct ++ [Tac.Assign r vt] ++ [Tac.Jump L2])
      (b := cf ++ [Tac.Assign r vf] ++ [Tac.Mark L2] ++ post) (by rw [hP]; simp) (by simp [hi]; try omega)
  have hA2 : P[i + cc.length + 1 + ct.length + 3 + cf.length]? = some (Tac.Assign r vf) :=
    lookup (a := pre ++ cc ++ [Tac.JZero L1 vc] ++ ct ++ [Tac.Assign r vt] ++ [Tac.Jump L2] ++ [Tac.Mark L1] ++ cf)
      (b := [Tac.Mark L2] ++ post) (by rw [hP]; simp) (by simp [hi]; try omega)
  have hM2 : P[i + cc.length + 1 + ct.length + 3 + cf.length + 1]? = some (Tac.Mark L2) :=
    lookup (a := pre ++ cc ++ [Tac.JZero L1 vc] ++ ct ++ [Tac.Assign r vt] ++ [Tac.Jump L2] ++ [Tac.Mark L1] ++ cf ++ [Tac.Assign r vf])
      (b := post) (by rw [hP]; simp) (by simp [hi]; try omega)
  by_cases hz : regsC vc = 0
  · -- the tested value is zero: jump to the else entry
    have s1 : step P ⟨i + cc.length, regsC⟩
        = some ⟨i + cc.length + 1 + ct.length + 2, regsC⟩ := by
      have := step_jzero_zero (m := ⟨i + cc.length, regsC⟩) hJZ hz
        (a := pre ++ cc ++ [Tac.JZero L1 vc] ++ ct ++ [Tac.Assign r vt, Tac.Jump L2])
        (b := cf ++ [Tac.Assign r vf, Tac.Mark L2] ++ post)
        (by rw [hP]; simp) (by simp [h1])
      rw [this]; simp [hi]; omega
    have s2 : step P ⟨i + cc.length + 1 + ct.length + 2, regsC⟩
        = some ⟨i + cc.length + 1 + ct.length + 3, regsC⟩ := step_mark hM1
    obtain ⟨regsF, trF, RF, BF⟩ := Hf regsC
    have s3 := step_write (m := ⟨i + cc.length + 1 + ct.length + 3 + cf.length, regsF⟩) hA2
    have s4 : step P (Machine.write ⟨i + cc.length + 1 + ct.length + 3 + cf.length, regsF⟩ r
        (regsF vf)) = some (Machine.write ⟨i + cc.length + 1 + ct.length + 3 + cf.length,
          regsF⟩ r (regsF vf)).next := step_mark hM2
    have R := RC.append ((Runs.one s1).append ((Runs.one s2).append (RF.append
      ((Runs.one s3).append (Runs.one s4)))))
    have hm : (Machine.write ⟨i + cc.length + 1 + ct.length + 3 + cf.length, regsF⟩ r
        (regsF vf)).next = ⟨i + (cc.length + 1 + ct.length + 3 + cf.length + 2),
          fun x => if x = r then regsF vf else regsF x⟩ := by
      simp [Machine.write, Machine.next]; omega
    rw [hm] at R
    refine ⟨regsC, _, trC, _, RC, R, ?_, fun h => absurd hz h, fun _ => ⟨?_, ?_, ?_⟩⟩
    · intro k hk
      simp only [List.mem_append, List.mem_singleton, Machine.write] at hk
      rcases hk with hk | hk | hk | hk | hk | hk
      · have := BC k hk; omega
      · omega
      · omega
      · have := BF k hk; omega
      · omega
      · omega
    · simp only [List.count_append, List.count_singleton, Machine.write]
      have e1 : trC.count (i + cc.length + 1 + ct.length) = 0 :=
        List.count_eq_zero.2 (fun hk => by have := BC _ hk; omega)
      have e2 : trF.count (i + cc.length + 1 + ct.length) = 0 :=
        List.count_eq_zero.2 (fun hk => by have := BF _ hk; omega)
      simp [e1, e2]
      omega
    · simp only [List.count_append, List.count_singleton, Machine.write]
      have e1 : trC.count (i + cc.length + 1 + ct.length + 3 + cf.length) = 0 :=
        List.count_eq_zero.2 (fun hk => by have := BC _ hk; omega)
      have e2 : trF.count (i + cc.length + 1 + ct.length + 3 + cf.length) = 0 :=
        List.count_eq_zero.2 (fun hk => by have := BF _ hk; omega)
      simp [e1, e2]
      split_ifs <;> omega
    · simp
  · -- the tested value is not zero: fall through to the true branch
    have s1 : step P ⟨i + cc.length, regsC⟩ = some ⟨i + cc.length + 1, regsC⟩ :=
      step_jzero_nonzero hJZ hz
    obtain ⟨regsT, trT, RT, BT⟩ := Ht regsC
    have s2 := step_write (m := ⟨i + cc.length + 1 + ct.length, regsT⟩) hA1
    have s3 : step P (Machine.write ⟨i + cc.length + 1 + ct.length, regsT⟩ r (regsT vt))
        = some ⟨i + cc.length + 1 + ct.length + 3 + cf.length + 1,
            (Machine.write ⟨i + cc.length + 1 + ct.length, regsT⟩ r (regsT vt)).regs⟩ := by
      have := step_jump (m := Machine.write ⟨i + cc.length + 1 + ct.length, regsT⟩ r (regsT vt))
        hJ (a := pre ++ cc ++ [Tac.JZero L1 vc] ++ ct
          ++ [Tac.Assign r vt, Tac.Jump L2, Tac.Mark L1] ++ cf ++ [Tac.Assign r vf])
        (b := post) (by rw [hP]; simp) (by simp [h1, h2, hne])
      rw [this]; simp [hi, Machine.write]; omega
    have s4 : step P ⟨i + cc.length + 1 + ct.length + 3 + cf.length + 1,
            (Machine.write ⟨i + cc.length + 1 + ct.length, regsT⟩ r (regsT vt)).regs⟩
        = some ⟨i + cc.length + 1 + ct.length + 3 + cf.length + 1 + 1,
            (Machine.write ⟨i + cc.length + 1 + ct.length, regsT⟩ r (regsT vt)).regs⟩ :=
      step_mark hM2
    have R := RC.append ((Runs.one s1).append (RT.append ((Runs.one s2).append
      ((Runs.one s3).append (Runs.one s4)))))
    have hm : (⟨i + cc.length + 1 + ct.length + 3 + cf.length + 1 + 1,
            (Machine.write ⟨i + cc.length + 1 + ct.length, regsT⟩ r (regsT vt)).regs⟩ : Machine)
        = ⟨i + (cc.length + 1 + ct.length + 3 + cf.length + 2),
          fun x => if x = r then regsT vt else regsT x⟩ := by
      simp [Machine.write]; omega
    rw [hm] at R
    refine ⟨regsC, _, trC, _, RC, R, ?_, fun _ => ⟨?_, ?_, ?_⟩, fun h => absurd h hz⟩
    · intro k hk
      simp only [List.mem_append, List.mem_singleton, Machine.write] at hk
      rcases hk with hk | hk | hk | hk | hk | hk
      · have := BC k hk; omega
      · omega
      · have := BT k hk; omega
      · omega
      · omega
      · omega
    · simp only [List.count_append, List.count_singleton, Machine.write]
      have e1 : trC.count (i + cc.length + 1 + ct.length) = 0 :=
        List.count_eq_zero.2 (fun hk => by have := BC _ hk; omega)
      have e2 : trT.count (i + cc.length + 1 + ct.length) = 0 :=
        List.count_eq_zero.2 (fun hk => by have := BT _ hk; omega)
      simp [e1, e2]
      split_ifs <;> omega
    · simp only [List.count_append, List.count_singleton, Machine.write]
      have e1 : trC.count (i + cc.length + 1 + ct.length + 3 + cf.length) = 0 :=
        List.count_eq_zero.2 (fun hk => by have := BC _ hk; omega)
      have e2 : trT.count (i + cc.length + 1 + ct.length + 3 + cf.length) = 0 :=
        List.count_eq_zero.2 (fun hk => by have := BT _ hk; omega)
      simp [e1, e2]
      omega
    · simp

/-- The code of an expression, placed anywhere in a sequence that marks none
of its labels before it, runs from its first instruction to the instruction
after its last one, whatever the temporaries hold, and executes instructions
of its own only. -/
theorem exec_expr (e : Expr) :
    ∀ (st : Translation) (v : Temp) (st' : Translation) (code : List Tac),
      visitExpr e st = Except.ok (v, st') → st'.tr.tacs = st.tr.tacs ++ code →
      ∀ (P pre post : List Tac) (i j : Nat), P = pre ++ code ++ post → i = pre.length →
        j = i + code.length →
        (∀ l : Nat, st.tr.labelCount ≤ l → l < st'.tr.labelCount → markCount l pre = 0) →
        ∀ regs, ∃ regs' tr, Runs P ⟨i, regs⟩ ⟨j, regs'⟩ tr ∧ ∀ k ∈ tr, i ≤ k ∧ k < j := by
  induction e using Expr.induction_by_kind with
  | assign left e ih =>
    intro st v st' code h hcode P pre post i j hP hi hj hl regs
    rw [visitExpr_assign] at h
    simp only [bind_eq_ok, pure_eq_ok, visitVarRef_ok] at h
    obtain ⟨s1, ⟨hk, rfl⟩, ⟨v1, s2⟩, hr, heq⟩ := h
    obtain ⟨nl, nt, c1, rfl, -⟩ := visitExpr_frame _ _ _ _ hr
    simp only [Prod.mk.injEq] at heq
    obtain ⟨rfl, rfl⟩ := heq
    simp at hcode hl
    subst hcode
    obtain ⟨regs1, tr1, R1, B1⟩ := ih _ _ _ c1 hr (by simp) P pre
      ([Tac.Assign (s1.getTemp left.sym) v1] ++ post) i (i + c1.length) (by rw [hP]; simp) hi rfl
      (by simpa using hl) regs
    have hA : P[i + c1.length]? = some (Tac.Assign (s1.getTemp left.sym) v1) :=
      lookup (a := pre ++ c1) (b := post) (by rw [hP]; simp) (by simp [hi])
    have s := step_write (m := ⟨i + c1.length, regs1⟩) hA
    have R := R1.append (Runs.one s)
    have hm : Machine.write ⟨i + c1.length, regs1⟩ (s1.getTemp left.sym) (regs1 v1)
        = ⟨j, fun x => if x = s1.getTemp left.sym then regs1 v1 else regs1 x⟩ := by
      simp [Machine.write, hj]; omega
    rw [hm] at R
    refine ⟨_, _, R, fun k hk => ?_⟩
    simp only [List.mem_append, List.mem_singleton] at hk
    simp at hj
    rcases hk with hk | hk
    · have := B1 k hk; omega
    · omega
  | binary k e1 e2 ih1 ih2 =>
    intro st v st' code h hcode P pre post i j hP hi hj hl regs
    rw [visitExpr_binary] at h
    simp only [bind_eq_ok, pure_eq_ok] at h
    obtain ⟨⟨v1, s1⟩, h1, ⟨v2, s2⟩, h2, heq⟩ := h
    obtain ⟨nl1, nt1, c1, rfl, -⟩ := visitExpr_frame _ _ _ _ h1
    obtain ⟨nl2, nt2, c2, rfl, -⟩ := visitExpr_frame _ _ _ _ h2
    simp only [Prod.mk.injEq] at heq
    obtain ⟨rfl, rfl⟩ := heq
    have I1 := visitExpr_labels e1 _ _ _ c1 h1 (by simp)
    simp at hcode hl I1
    subst hcode
    obtain ⟨regs1, tr1, R1, B1⟩ := ih1 _ _ _ c1 h1 (by simp) P pre
      (c2 ++ [Tac.Binary k.op (st.tr.tempCount + (nt1 + nt2)) v1 v2] ++ post) i (i + c1.length)
      (by rw [hP]; simp) hi rfl (fun l a b => hl l a (by simp at b; omega)) regs
    obtain ⟨regs2, tr2, R2, B2⟩ := ih2 _ _ _ c2 h2 (by simp) P (pre ++ c1)
      ([Tac.Binary k.op (st.tr.tempCount + (nt1 + nt2)) v1 v2] ++ post) (i + c1.length)
      (i + c1.length + c2.length) (by rw [hP]; simp) (by simp [hi]) rfl
      (fun l a b => by
        simp at a b
        have := hl l (by omega) (by omega)
        have := I1.range l
        simp; omega) regs1
    have hA : P[i + c1.length + c2.length]?
        = some (Tac.Binary k.op (st.tr.tempCount + (nt1 + nt2)) v1 v2) :=
      lookup (a := pre ++ c1 ++ c2) (b := post) (by rw [hP]; simp) (by simp [hi]; omega)
    have s : step P ⟨i + c1.length + c2.length, regs2⟩
        = some ⟨j, fun x => if x = st.tr.tempCount + (nt1 + nt2)
            then k.op.eval (regs2 v1) (regs2 v2) else regs2 x⟩ := by
      simp [step, hA, Machine.write, hj]; omega
    refine ⟨_, _, R1.append (R2.append (Runs.one s)), fun k hk => ?_⟩
    simp only [List.mem_append, List.mem_singleton] at hk
    simp at hj
    rcases hk with hk | hk | hk
    · have := B1 k hk; omega
    · have := B2 k hk; omega
    · omega
  | const value =>
    intro st v st' code h hcode P pre post i j hP hi hj hl regs
    rw [visitExpr_const] at h
    simp only [Except.ok.injEq, Prod.mk.injEq] at h
    obtain ⟨rfl, rfl⟩ := h
    simp at hcode
    subst hcode
    have hA : P[i]? = some (Tac.LoadImm4 st.tr.tempCount value) :=
      lookup (a := pre) (b := post) (by rw [hP]; simp) hi
    have s : step P ⟨i, regs⟩
        = some ⟨j, fun x => if x = st.tr.tempCount then value else regs x⟩ := by
      simp [step, hA, Machine.write, hj]
    refine ⟨_, _, Runs.one s, fun k hk => ?_⟩
    simp only [List.mem_singleton] at hk
    simp at hj
    omega
  | unary k e ih =>
    intro st v st' code h hcode P pre post i j hP hi hj hl regs
    rw [visitExpr_unary] at h
    simp only [bind_eq_ok, pure_eq_ok] at h
    obtain ⟨⟨v1, s1⟩, h1, heq⟩ := h
    obtain ⟨nl1, nt1, c1, rfl, -⟩ := visitExpr_frame _ _ _ _ h1
    simp only [Prod.mk.injEq] at heq
    obtain ⟨rfl, rfl⟩ := heq
    simp at hcode hl
    subst hcode
    obtain ⟨regs1, tr1, R1, B1⟩ := ih _ _ _ c1 h1 (by simp) P pre
      ([Tac.Unary k.op (st.tr.tempCount + nt1) v1] ++ post) i (i + c1.length)
      (by rw [hP]; simp) hi rfl (by simpa using hl) regs
    have hA : P[i + c1.length]? = some (Tac.Unary k.op (st.tr.tempCount + nt1) v1) :=
      lookup (a := pre ++ c1) (b := post) (by rw [hP]; simp) (by simp [hi])
    have s : step P ⟨i + c1.length, regs1⟩
        = some ⟨j, fun x => if x = st.tr.tempCount + nt1
            then k.op.eval (regs1 v1) else regs1 x⟩ := by
      simp [step, hA, Machine.write, hj]; omega
    refine ⟨_, _, R1.append (Runs.one s), fun k hk => ?_⟩
    simp only [List.mem_append, List.mem_singleton] at hk
    simp at hj
    rcases hk with hk | hk
    · have := B1 k hk; omega
    · omega
  | lvalue lv =>
    intro st v st' code h hcode P pre post i j hP hi hj hl regs
    rw [visitExpr_lvalue] at h
    simp only [bind_eq_ok, pure_eq_ok, visitVarRef_ok] at h
    obtain ⟨s1, ⟨hk, rfl⟩, heq⟩ := h
    simp only [Prod.mk.injEq] at heq
    obtain ⟨rfl, rfl⟩ := heq
    simp at hcode
    subst hcode
    simp at hj
    subst hj
    exact ⟨regs, [], Runs.done _, fun k hk => by simp at hk⟩
  | ifExpr c t f ihc iht ihf =>
    intro st v st' code h hcode P pre post i j hP hi hj hl regs
    rw [visitExpr_ifExpr] at h
    simp only [bind_eq_ok, pure_eq_ok] at h
    obtain ⟨⟨vc, sc⟩, hc, ⟨vt, s1⟩, h1, ⟨vf, s2⟩, h2, heq⟩ := h
    obtain ⟨nlc, ntc, cc, rfl, -⟩ := visitExpr_frame _ _ _ _ hc
    have Ic := visitExpr_labels c _ _ _ cc hc (by simp)
    simp at h1
    obtain ⟨nlt, ntt, ct, rfl, -⟩ := visitExpr_frame _ _ _ _ h1
    have It := visitExpr_labels t _ _ _ ct h1 (by simp)
    simp at h2
    obtain ⟨nlf, ntf, cf, rfl, -⟩ := visitExpr_frame _ _ _ _ h2
    have If := visitExpr_labels f _ _ _ cf h2 (by simp)
    simp only [Prod.mk.injEq] at heq
    obtain ⟨rfl, rfl⟩ := heq
    simp at hcode hl Ic It If
    subst hcode
    have hP' : P = pre ++ (cc ++ [Tac.JZero st.tr.labelCount vc] ++ ct
        ++ [Tac.Assign (st.tr.tempCount + ntc) vt, Tac.Jump (st.tr.labelCount + 1),
            Tac.Mark st.tr.labelCount] ++ cf
        ++ [Tac.Assign (st.tr.tempCount + ntc) vf, Tac.Mark (st.tr.labelCount + 1)])
        ++ post := by rw [hP]; simp
    have r0 := Ic.range st.tr.labelCount; have r1 := Ic.range (st.tr.labelCount + 1)
    have t0 := It.range st.tr.labelCount; have t1 := It.range (st.tr.labelCount + 1)
    have f1 := If.range (st.tr.labelCount + 1)
    have p0 := hl st.tr.labelCount (le_refl _) (by omega)
    have p1 := hl (st.tr.labelCount + 1) (by omega) (by omega)
    have := Ic.le; have := It.le; have := If.le
    obtain ⟨regsC, regs', trC, tr, -, R, B, -, -⟩ := ternary_run P pre post cc ct cf
      st.tr.labelCount (st.tr.labelCount + 1) vc (st.tr.tempCount + ntc) vt vf i hP' hi
      (by omega) ⟨p0, by omega, by omega⟩ ⟨p1, by omega, by omega, by omega⟩
      (fun rg => ihc _ _ _ cc hc (by simp) P pre
        ([Tac.JZero st.tr.labelCount vc] ++ ct ++ [Tac.Assign (st.tr.tempCount + ntc) vt, Tac.Jump (st.tr.labelCount + 1),
          Tac.Mark st.tr.labelCount] ++ cf ++ [Tac.Assign (st.tr.tempCount + ntc) vf,
          Tac.Mark (st.tr.labelCount + 1)] ++ post) i (i + cc.length) (by rw [hP]; simp) hi rfl
        (fun l a b => hl l (by simp at a; omega) (by simp at b; omega)) rg)
      (fun rg => iht _ _ _ ct h1 (by simp) P (pre ++ cc ++ [Tac.JZero st.tr.labelCount vc])
        ([Tac.Assign (st.tr.tempCount + ntc) vt, Tac.Jump (st.tr.labelCount + 1),
          Tac.Mark st.tr.labelCount] ++ cf ++ [Tac.Assign (st.tr.tempCount + ntc) vf,
          Tac.Mark (st.tr.labelCount + 1)] ++ post)
        (i + cc.length + 1) (i + cc.length + 1 + ct.length) (by rw [hP]; simp)
        (by simp [hi]; omega) rfl
        (fun l a b => by
          simp at a b
          have := hl l (by omega) (by omega)
          have := Ic.range l
          simp; omega) rg)
      (fun rg => ihf _ _ _ cf h2 (by simp) P (pre ++ cc ++ [Tac.JZero st.tr.labelCount vc] ++ ct
          ++ [Tac.Assign (st.tr.tempCount + ntc) vt, Tac.Jump (st.tr.labelCount + 1),
            Tac.Mark st.tr.labelCount])
        ([Tac.Assign (st.tr.tempCount + ntc) vf, Tac.Mark (st.tr.labelCount + 1)] ++ post)
        (i + cc.length + 1 + ct.length + 3) (i + cc.length + 1 + ct.length + 3 + cf.length)
        (by rw [hP]; simp) (by simp [hi]; omega) rfl
        (fun l a b => by
          simp at a b
          have := hl l (by omega) (by omega)
          have := Ic.range l
          have := It.range l
          simp; omega) rg)
      regs
    have hjj : i + (cc.length + 1 + ct.length + 3 + cf.length + 2) = j := by
      simp [hj]; omega
    rw [hjj] at R B
    exact ⟨regs', tr, R, B⟩

/-- C10: the lowering of `c ? t : f` lowers `c`, then `t`, then `f`, and
emits the code of `c`, the conditional-jump-if-zero to the else entry on the
value of `c`, the code of `t`, the assignment of the value of `t` into the
temporary `r` issued after `c` was lowered, the jump to the join label, the
mark of the else entry, the code of `f`, the assignment of the value of `f`
into `r`, the mark of the join label; `r` is the value of the expression.
Run from its first instruction, whatever the temporaries hold, this sequence
gets to its end, through the test, and executes exactly one of the two
assignments into `r`: the first when the value tested is not zero, the
second when it is zero. -/
theorem conditional_expression_lowering (c t f : Expr) (st st' : Translation) (v : Temp)
    (h : visitExpr (Expr.IfExpr c t f) st = Except.ok (v, st')) :
    ∃ (vc vt vf : Temp) (sc s1 s2 : Translation) (cc ct cf : List Tac),
      visitExpr c st.getNewLabel.2.getNewLabel.2 = Except.ok (vc, sc)
      ∧ sc.tr.tacs = st.tr.tacs ++ cc
      ∧ visitExpr t (sc.getNewTempI4.2.genJumpOnZero st.getNewLabel.1 vc) = Except.ok (vt, s1)
      ∧ s1.tr.tacs = sc.tr.tacs ++ [Tac.JZero st.getNewLabel.1 vc] ++ ct
      ∧ visitExpr f (((s1.genAssign sc.getNewTempI4.1 vt).genJump
            st.getNewLabel.2.getNewLabel.1).genMarkLabel st.getNewLabel.1) = Except.ok (vf, s2)
      ∧ s2.tr.tacs = s1.tr.tacs ++ [Tac.Assign sc.getNewTempI4.1 vt,
            Tac.Jump st.getNewLabel.2.getNewLabel.1, Tac.Mark st.getNewLabel.1] ++ cf
      ∧ v = sc.getNewTempI4.1
      ∧ st'.tr.tacs = st.tr.tacs ++ ternaryCode cc ct cf st.getNewLabel.1
          st.getNewLabel.2.getNewLabel.1 vc v vt vf
      ∧ (ternaryCode cc ct cf st.getNewLabel.1 st.getNewLabel.2.getNewLabel.1 vc v vt vf)[
            cc.length + 1 + ct.length]? = some (Tac.Assign v vt)
      ∧ (ternaryCode cc ct cf st.getNewLabel.1 st.getNewLabel.2.getNewLabel.1 vc v vt vf)[
            cc.length + 1 + ct.length + 3 + cf.length]? = some (Tac.Assign v vf)
      ∧ ∀ regs : Temp → Int, ∃ (nC n : Nat) (regsC regs' : Temp → Int) (trC tr : List Nat),
          exec (ternaryCode cc ct cf st.getNewLabel.1 st.getNewLabel.2.getNewLabel.1 vc v vt vf)
              nC ⟨0, regs⟩ = (⟨cc.length, regsC⟩, trC)
          ∧ exec (ternaryCode cc ct cf st.getNewLabel.1 st.getNewLabel.2.getNewLabel.1 vc v vt vf)
              n ⟨0, regs⟩
            = (⟨(ternaryCode cc ct cf st.getNewLabel.1 st.getNewLabel.2.getNewLabel.1
                  vc v vt vf).length, regs'⟩, tr)
          ∧ (regsC vc ≠ 0 → tr.count (cc.length + 1 + ct.length) = 1
              ∧ tr.count (cc.length + 1 + ct.length + 3 + cf.length) = 0
              ∧ regs' v = regs' vt)
          ∧ (regsC vc = 0 → tr.count (cc.length + 1 + ct.length) = 0
              ∧ tr.count (cc.length + 1 + ct.length + 3 + cf.length) = 1
              ∧ regs' v = regs' vf) := by
  have h0 := h
  rw [visitExpr_ifExpr] at h
  simp only [bind_eq_ok, pure_eq_ok] at h
  obtain ⟨⟨vc, sc⟩, hc, ⟨vt, s1⟩, h1, ⟨vf, s2⟩, h2, heq⟩ := h
  simp only [Prod.mk.injEq] at heq
  obtain ⟨hv, hst⟩ := heq
  obtain ⟨nlc, ntc, cc, hsc, -⟩ := visitExpr_frame _ _ _ _ hc
  obtain ⟨nlt, ntt, ct, hs1, -⟩ := visitExpr_frame _ _ _ _ h1
  obtain ⟨nlf, ntf, cf, hs2, -⟩ := visitExpr_frame _ _ _ _ h2
  have ec : sc.tr.tacs = st.tr.tacs ++ cc := by rw [hsc]; simp
  have e1 : s1.tr.tacs = sc.tr.tacs ++ [Tac.JZero st.tr.labelCount vc] ++ ct := by
    rw [hs1]; simp
  have e2 : s2.tr.tacs = s1.tr.tacs ++ [Tac.Assign sc.tr.tempCount vt,
      Tac.Jump (st.tr.labelCount + 1), Tac.Mark st.tr.labelCount] ++ cf := by
    rw [hs2]; simp
  have Ic := visitExpr_labels c _ _ _ cc hc (by rw [ec]; simp)
  have It := visitExpr_labels t _ _ _ ct h1 (by rw [e1]; simp)
  have If := visitExpr_labels f _ _ _ cf h2 (by rw [e2]; simp)
  have lt1 : s1.tr.labelCount = sc.tr.labelCount + nlt := by rw [hs1]; simp
  have lt2 : s2.tr.labelCount = s1.tr.labelCount + nlf := by rw [hs2]; simp
  have ltc : sc.tr.labelCount = st.tr.labelCount + 2 + nlc := by rw [hsc]; simp; omega
  simp only [Translation.bump_labelCount, Translation.setTacs_labelCount] at Ic It If
  subst hv
  have ecode : st'.tr.tacs = st.tr.tacs ++ ternaryCode cc ct cf st.tr.labelCount
      (st.tr.labelCount + 1) vc sc.tr.tempCount vt vf := by
    rw [← hst]; simp [ternaryCode, e2, e1, ec]
  have hlen : (ternaryCode cc ct cf st.tr.labelCount (st.tr.labelCount + 1) vc
      sc.tr.tempCount vt vf).length = cc.length + 1 + ct.length + 3 + cf.length + 2 := by
    simp [ternaryCode]; omega
  have hA1 : (ternaryCode cc ct cf st.tr.labelCount (st.tr.labelCount + 1) vc
      sc.tr.tempCount vt vf)[cc.length + 1 + ct.length]?
        = some (Tac.Assign sc.tr.tempCount vt) :=
    lookup (a := cc ++ [Tac.JZero st.tr.labelCount vc] ++ ct)
      (b := [Tac.Jump (st.tr.labelCount + 1), Tac.Mark st.tr.labelCount] ++ cf
        ++ [Tac.Assign sc.tr.tempCount vf, Tac.Mark (st.tr.labelCount + 1)])
      (by simp [ternaryCode]) (by simp; omega)
  have hA2 : (ternaryCode cc ct cf st.tr.labelCount (st.tr.labelCount + 1) vc
      sc.tr.tempCount vt vf)[cc.length + 1 + ct.length + 3 + cf.length]?
        = some (Tac.Assign sc.tr.tempCount vf) :=
    lookup (a := cc ++ [Tac.JZero st.tr.labelCount vc] ++ ct
        ++ [Tac.Assign sc.tr.tempCount vt, Tac.Jump (st.tr.labelCount + 1),
          Tac.Mark st.tr.labelCount] ++ cf)
      (b := [Tac.Mark (st.tr.labelCount + 1)])
      (by simp [ternaryCode]) (by simp; omega)
  refine ⟨vc, vt, vf, sc, s1, s2, cc, ct, cf, hc, ec, ?_, e1, ?_, e2, rfl, ecode, hA1, hA2,
    fun regs => ?_⟩
  · simpa using h1
  · simpa using h2
  have r0 := Ic.range st.tr.labelCount; have r1 := Ic.range (st.tr.labelCount + 1)
  have t0 := It.range st.tr.labelCount; have t1 := It.range (st.tr.labelCount + 1)
  have f1 := If.range (st.tr.labelCount + 1)
  have := Ic.le; have := It.le; have := If.le
  obtain ⟨regsC, regs', trC, tr, RC, R, -, hnz, hz⟩ := ternary_run
    (ternaryCode cc ct cf st.tr.labelCount (st.tr.labelCount + 1) vc sc.tr.tempCount vt vf)
    [] [] cc ct cf st.tr.labelCount (st.tr.labelCount + 1) vc sc.tr.tempCount vt vf 0
    (by simp [ternaryCode]) rfl (by omega) ⟨rfl, by omega, by omega⟩
    ⟨rfl, by omega, by omega, by omega⟩
    (fun rg => exec_expr c _ _ _ cc hc ec _ []
      ([Tac.JZero st.tr.labelCount vc] ++ ct ++ [Tac.Assign sc.tr.tempCount vt,
        Tac.Jump (st.tr.labelCount + 1), Tac.Mark st.tr.labelCount] ++ cf
        ++ [Tac.Assign sc.tr.tempCount vf, Tac.Mark (st.tr.labelCount + 1)]) 0 (0 + cc.length)
      (by simp [ternaryCode]) rfl rfl (fun _ _ _ => rfl) rg)
    (fun rg => exec_expr t _ _ _ ct h1 (by rw [e1]; simp) _
      (cc ++ [Tac.JZero st.tr.labelCount vc])
      ([Tac.Assign sc.tr.tempCount vt,
        Tac.Jump (st.tr.labelCount + 1), Tac.Mark st.tr.labelCount] ++ cf
        ++ [Tac.Assign sc.tr.tempCount vf, Tac.Mark (st.tr.labelCount + 1)])
      (0 + cc.length + 1) (0 + cc.length + 1 + ct.length)
      (by simp [ternaryCode]) (by simp) rfl
      (fun l a b => by
        simp at a b
        have := Ic.range l
        simp; omega) rg)
    (fun rg => exec_expr f _ _ _ cf h2 (by rw [e2]; simp) _
      (cc ++ [Tac.JZero st.tr.labelCount vc] ++ ct ++ [Tac.Assign sc.tr.tempCount vt,
        Tac.Jump (st.tr.labelCount + 1), Tac.Mark st.tr.labelCount])
      ([Tac.Assign sc.tr.tempCount vf, Tac.Mark (st.tr.labelCount + 1)])
      (0 + cc.length + 1 + ct.length + 3) (0 + cc.length + 1 + ct.length + 3 + cf.length)
      (by simp [ternaryCode]) (by simp; omega) rfl
      (fun l a b => by
        simp at a b
        have := Ic.range l
        have := It.range l
        simp; omega) rg)
    regs
  simp only [Nat.zero_add] at RC R hnz hz
  rw [← hlen] at R
  obtain ⟨nC, hnC⟩ := RC.toExec
  obtain ⟨n, hn⟩ := R.toExec
  exact ⟨nC, n, regsC, regs', trC, tr, hnC, hn, hnz, hz⟩

/-- The sample `(a < b) ? 1 : 2`: its code, the run of the code from any
contents of the temporaries, and the two runs with a=1, b=2 and a=2, b=1. -/
theorem conditional_expression_lowering_witness :
    (∃ st', visitExpr sampleTernary sampleTernaryState = Except.ok (1, st')
        ∧ st'.tr.tacs = sampleTernaryCode)
    ∧ (∀ regs : Temp → Int, ∃ (n : Nat) (regs' : Temp → Int) (tr : List Nat),
        exec sampleTernaryCode n ⟨0, regs⟩ = (⟨9, regs'⟩, tr)
        ∧ ((tr.count 3 = 1 ∧ tr.count 7 = 0 ∧ regs' 1 = regs' 2)
          ∨ (tr.count 3 = 0 ∧ tr.count 7 = 1 ∧ regs' 1 = regs' 3)))
    ∧ (exec sampleTernaryCode 6 ⟨0, sampleRegs 1 2⟩).1.pc = 9
    ∧ (exec sampleTernaryCode 6 ⟨0, sampleRegs 1 2⟩).1.regs 1 = 1
    ∧ (exec sampleTernaryCode 6 ⟨0, sampleRegs 1 2⟩).2 = [0, 1, 2, 3, 4, 8]
    ∧ (exec sampleTernaryCode 6 ⟨0, sampleRegs 2 1⟩).1.pc = 9
    ∧ (exec sampleTernaryCode 6 ⟨0, sampleRegs 2 1⟩).1.regs 1 = 2
    ∧ (exec sampleTernaryCode 6 ⟨0, sampleRegs 2 1⟩).2 = [0, 1, 5, 6, 7, 8] := by
  refine ⟨⟨_, rfl, rfl⟩, fun regs => ?_, by decide, by decide, by decide, by decide,
    by decide, by decide⟩
  obtain ⟨vc, vt, vf, sc, s1, s2, cc, ct, cf, hc, ec, h1, e1, h2, e2, -, -, -, -, hrun⟩ :=
    conditional_expression_lowering _ _ _ sampleTernaryState _ 1
      (rfl : visitExpr sampleTernary sampleTernaryState = Except.ok (1, _))
  cases hc
  have hcc : cc = [Tac.Binary BinaryOp.LES 0 10 11] := ec.symm
  subst hcc
  cases h1
  have hct : [Tac.Binary BinaryOp.LES 0 10 11, Tac.JZero 0 0, Tac.LoadImm4 2 1]
      = Tac.Binary BinaryOp.LES 0 10 11 :: Tac.JZero 0 0 :: ct := e1
  simp only [List.cons.injEq, true_and] at hct
  subst hct
  cases h2
  have hcf : [Tac.Binary BinaryOp.LES 0 10 11, Tac.JZero 0 0, Tac.LoadImm4 2 1,
      Tac.Assign 1 2, Tac.Jump 1, Tac.Mark 0, Tac.LoadImm4 3 2]
      = Tac.Binary BinaryOp.LES 0 10 11 :: Tac.JZero 0 0 :: Tac.LoadImm4 2 1 ::
        Tac.Assign 1 2 :: Tac.Jump 1 :: Tac.Mark 0 :: cf := e2
  simp only [List.cons.injEq, true_and] at hcf
  subst hcf
  obtain ⟨nC, n, regsC, regs', trC, tr, -, hn, hnz, hz⟩ := hrun regs
  refine ⟨n, regs', tr, hn, ?_⟩
  by_cases hv : regsC 0 = 0
  · exact Or.inr (hz hv)
  · exact Or.inl (hnz hv)

/-! ## Jump statements in the body of a loop -/

/-- A `break` or `continue` at a position reached without entering a loop is
lowered to one jump to the label that is current for the whole statement. -/
theorem ctx_jump (C : Ctx) (j : JumpKind) (sx sx' : Translation)
    (h : visitStmt (C.plug j.toStmt) sx = Except.ok sx') :
    ∃ p q, sx'.tr.tacs = sx.tr.tacs ++ p ++ [Tac.Jump (j.currentLabel sx)] ++ q := by
  obtain ⟨s2, s2', p, q, ⟨hj, hpre, hpost, -⟩, hb, hc, -⟩ := ctx_lowering C j.toStmt sx sx' h
  refine ⟨p, q, ?_⟩
  cases j with
  | breakJump =>
    simp only [JumpKind.toStmt, visitStmt_break, Except.ok.injEq] at hj
    rw [hpost, ← hj, Translation.setTacs_tacs, hpre, hb]; rfl
  | continueJump =>
    simp only [JumpKind.toStmt, visitStmt_cont, Except.ok.injEq] at hj
    rw [hpost, ← hj, Translation.setTacs_tacs, hpre, hc]; rfl

/-- The code that a jump statement at a position of a loop body in no deeper
loop adds to the code of the body. -/
theorem body_jump (C : Ctx) (j : JumpKind) (sx sx' : Translation) (pre cb : List Tac)
    (h : visitStmt (C.plug j.toStmt) sx = Except.ok sx')
    (hpre : sx.tr.tacs = pre) (hcb : sx'.tr.tacs = pre ++ cb) :
    ∃ p q, cb = p ++ [Tac.Jump (j.currentLabel sx)] ++ q := by
  obtain ⟨p, q, hpq⟩ := ctx_jump C j sx sx' h
  refine ⟨p, q, ?_⟩
  rw [hcb, hpre] at hpq
  simpa [List.append_assoc] using hpq

/-! ## C11: the `do-while` statement -/

/-- C11: the lowering of `do body while (c)` issues the labels `bodyEntry`,
`exit` and `continueTarget`, lowers the body and then the condition, and
emits: mark `bodyEntry`, the code of the body, mark `continueTarget`, the code
of the condition, conditional-jump-if-zero to `exit` on the value of the
condition, jump `bodyEntry`, mark `exit`. The continue target is not the body
entry, and a `continue` (`break`) of the body in no deeper loop is a jump of
the code of the body to `continueTarget` (`exit`). -/
theorem do_while_lowering (c : Expr) (body : Stmt) (st st' : Translation)
    (h : visitStmt (Stmt.DoWhileStmt c body) st = Except.ok st') :
    ∃ (sb : Translation) (vc : Temp) (sc : Translation) (cb cc : List Tac),
      visitStmt body ((loopStart st).genMarkLabel st.getNewLabel.1) = Except.ok sb
      ∧ sb.tr.tacs = st.tr.tacs ++ [Tac.Mark st.getNewLabel.1] ++ cb
      ∧ visitExpr c (sb.genMarkLabel (continueLabel st)) = Except.ok (vc, sc)
      ∧ sc.tr.tacs = sb.tr.tacs ++ [Tac.Mark (continueLabel st)] ++ cc
      ∧ st'.tr.tacs = st.tr.tacs ++ ([Tac.Mark st.getNewLabel.1] ++ cb
          ++ [Tac.Mark (continueLabel st)] ++ cc
          ++ [Tac.JZero (exitLabel st) vc, Tac.Jump st.getNewLabel.1, Tac.Mark (exitLabel st)])
      ∧ continueLabel st ≠ st.getNewLabel.1
      ∧ exitLabel st ≠ st.getNewLabel.1
      ∧ continueLabel st ≠ exitLabel st
      ∧ ∀ (C : Ctx) (j : JumpKind), body = C.plug j.toStmt →
          ∃ p q, cb = p ++ [Tac.Jump (j.loopLabel st)] ++ q := by
  have h0 := h
  rw [visitStmt_doWhile] at h
  simp only [bind_eq_ok, pure_eq_ok] at h
  obtain ⟨sb, hb, ⟨vc, sc⟩, hc, rfl⟩ := h
  obtain ⟨nlb, ntb, cb, vs, hsb, -⟩ := visitStmt_frame _ _ _ hb
  obtain ⟨nlc, ntc, cc, hsc, -⟩ := visitExpr_frame _ _ _ _ hc
  have eb : sb.tr.tacs = st.tr.tacs ++ [Tac.Mark st.tr.labelCount] ++ cb := by
    rw [hsb]; simp
  have ec : sc.tr.tacs = sb.tr.tacs ++ [Tac.Mark (st.tr.labelCount + 2)] ++ cc := by
    rw [hsc]; simp
  refine ⟨sb, vc, sc, cb, cc, ?_, eb, ?_, ?_, ?_, ?_, ?_, ?_, ?_⟩
  · simpa [loopStart, exitLabel, continueLabel] using hb
  · simpa [continueLabel] using hc
  · simpa [continueLabel] using ec
  · simp [exitLabel, continueLabel, ec, eb]
  · simp [continueLabel]
  · simp [exitLabel]
  · simp [exitLabel, continueLabel]
  · intro C j hbody
    subst hbody
    obtain ⟨p, q, hpq⟩ := body_jump C j _ sb (st.tr.tacs ++ [Tac.Mark st.tr.labelCount]) cb hb
      (by simp) eb
    refine ⟨p, q, ?_⟩
    rw [hpq]
    cases j <;> simp [JumpKind.currentLabel, JumpKind.loopLabel, exitLabel, continueLabel]

/-- C11 on `do { continue; } while (0);`: the `continue` is the jump to the
label 2 marked before the code of the condition, not to the body entry 0. -/
theorem do_while_lowering_witness :
    ∃ st', visitStmt sampleDoWhile sampleState = Except.ok st'
      ∧ st'.tr.tacs = [Tac.Mark 0, Tac.Jump 2, Tac.Mark 2, Tac.LoadImm4 0 0, Tac.JZero 1 0,
          Tac.Jump 0, Tac.Mark 1]
      ∧ ∃ cb cc vc, st'.tr.tacs = sampleState.tr.tacs ++ ([Tac.Mark 0] ++ cb ++ [Tac.Mark 2] ++ cc
          ++ [Tac.JZero 1 vc, Tac.Jump 0, Tac.Mark 1])
        ∧ ∃ p q, cb = p ++ [Tac.Jump 2] ++ q := by
  obtain ⟨sb, vc, sc, cb, cc, -, -, -, -, h5, -, -, -, h9⟩ :=
    do_while_lowering (Expr.IntConst 0) Stmt.ContStmt sampleState _ rfl
  exact ⟨_, rfl, rfl, cb, cc, vc, h5, h9 Ctx.hole JumpKind.continueJump rfl⟩

/-! ## C13: a `for` node with both initializers -/

/-- C13, as stated, fails: the lowering of the for node with the expression
initializer `1` and the declaration initializer `int x = 5;` completes, with
the code of the expression initializer and none of the declaration, whose
variable is not bound. -/
theorem for_both_initializers_counterexample :
    ∃ st', visitStmt sampleForBothInits sampleState = Except.ok st'
      ∧ st'.tr.tacs = [Tac.LoadImm4 0 1, Tac.Mark 0, Tac.LoadImm4 1 2, Tac.JZero 1 1,
          Tac.Mark 2, Tac.Jump 0, Tac.Mark 1]
      ∧ st'.vars = sampleState.vars :=
  ⟨_, rfl, rfl, rfl⟩

/-- C13, amended: a for node with both initializers set is lowered as the
same node without its declaration initializer, so the expression initializer
is lowered and the declaration initializer is ignored, and there is no
failure on account of the two initializers; the first `ForStmt` constructor
sets no declaration initializer and the second no expression initializer, so
no node they build has both. -/
theorem for_both_initializers (e : Expr) (d : VarDecl) (cond upd : Option Expr) (body : Stmt)
    (st : Translation) :
    visitStmt (Stmt.ForStmt (some e) (some d) cond upd body) st
        = visitStmt (Stmt.ForStmt (some e) none cond upd body) st
    ∧ visitForInit (some e) (some d) st = (visitExpr e st).map Prod.snd
    ∧ (∀ (i : Option Expr) (c u : Option Expr) (b : Stmt),
        ForStmt.ofExprInit i c u b = Stmt.ForStmt i none c u b)
    ∧ (∀ (i : Option VarDecl) (c u : Option Expr) (b : Stmt),
        ForStmt.ofVarDeclInit i c u b = Stmt.ForStmt none i c u b) := by
  refine ⟨?_, rfl, fun i c u b => rfl, fun i c u b => rfl⟩
  rw [visitStmt_for, visitStmt_for]
  rfl

/-! ## C20: a plain variable as the left operand of a binary expression -/

/-- C20: the lowering of a binary node of kind `k` whose left operand is the
reference to the variable `a` emits nothing for that operand: the code of the
node is the code of the right operand `e2`, lowered from the starting state,
followed by the binary instruction, whose left operand is the temporary
bound to `a` itself. Every instruction of `e2`, so every assignment into the
temporary of `a` that `e2` emits, comes before the binary instruction, and
`a` is a plain variable, bound to the same temporary before and after `e2`. -/
theorem variable_left_operand (k : BinaryKind) (a : VarRef) (e2 : Expr)
    (st st' : Translation) (v : Temp)
    (h : visitExpr (k.toExpr (Expr.LvalueExpr a) e2) st = Except.ok (v, st')) :
    a.lv_kind = LvKind.SIMPLE_VAR
    ∧ visitExpr (Expr.LvalueExpr a) st = Except.ok (st.getTemp a.sym, st)
    ∧ ∃ (v2 : Temp) (s2 : Translation) (c2 : List Tac),
        visitExpr e2 st = Except.ok (v2, s2)
        ∧ s2.tr.tacs = st.tr.tacs ++ c2
        ∧ s2.getTemp a.sym = st.getTemp a.sym
        ∧ st'.tr.tacs = st.tr.tacs ++ (c2 ++ [Tac.Binary k.op v (st.getTemp a.sym) v2]) := by
  rw [visitExpr_binary] at h
  simp only [bind_eq_ok, pure_eq_ok, Prod.mk.injEq] at h
  obtain ⟨⟨v1, s1⟩, h1, ⟨v2, s2⟩, h2, rfl, rfl⟩ := h
  have h1' := h1
  rw [visitExpr_lvalue] at h1
  simp only [bind_eq_ok, pure_eq_ok, Prod.mk.injEq] at h1
  obtain ⟨s0, h0, rfl, rfl⟩ := h1
  obtain ⟨hk, rfl⟩ := (visitVarRef_ok _ _ _).1 h0
  obtain ⟨nl2, nt2, c2, hs2, -⟩ := visitExpr_frame _ _ _ _ h2
  have eb : s2.tr.tacs = s0.tr.tacs ++ c2 := by rw [hs2]; simp
  exact ⟨hk, h1', v2, s2, c2, h2, eb, by rw [hs2]; simp, by simp [eb]⟩

/-- C20 on `a + (a = 5)`, the variable `a` bound to the temporary 10: 5 is
loaded into the temporary 0, assigned to the temporary 10, and the addition
takes the temporaries 10 and 0. -/
theorem variable_left_operand_witness :
    ∃ st', visitExpr sampleAddAssign sampleTernaryState = Except.ok (1, st')
      ∧ st'.tr.tacs = [Tac.LoadImm4 0 5, Tac.Assign 10 0, Tac.Binary BinaryOp.ADD 1 10 0]
      ∧ ∃ c2 v2, st'.tr.tacs = sampleTernaryState.tr.tacs
          ++ (c2 ++ [Tac.Binary BinaryOp.ADD 1 10 v2]) := by
  obtain ⟨-, -, v2, s2, c2, -, -, -, h4⟩ :=
    variable_left_operand BinaryKind.add (plainVar 1)
      (Expr.AssignExpr (plainVar 1) (Expr.IntConst 5)) sampleTernaryState _ 1 rfl
  exact ⟨_, rfl, rfl, c2, v2, h4⟩

/-! ## C14: the lvalue kind -/

theorem mapError_bind {ε ε' α β : Type} (g : ε → ε') (x : Except ε α) (f : α → Except ε β) :
    (x >>= f).mapError g = (x.mapError g >>= fun a => (f a).mapError g) := by
  cases x <;> rfl

theorem visitVarRefTraced_refines (ref : VarRef) (st : Translation) :
    (visitVarRefTraced ref st).mapError Prod.fst = visitVarRef ref st := by
  unfold visitVarRefTraced visitVarRef
  cases ref.lv_kind <;> rfl

theorem visitExprTraced_binary (k : BinaryKind) (e1 e2 : Expr) (st : Translation) :
    visitExprTraced (k.toExpr e1 e2) st = (do
      let r1 ← visitExprTraced e1 st
      let r2 ← visitExprTraced e2 r1.2
      pure (r2.2.tr.tempCount,
        (r2.2.bump 0 1).setTacs (r2.2.tr.tacs ++ [Tac.Binary k.op r2.2.tr.tempCount r1.1 r2.1]))) := by
  cases k <;> (simp only [BinaryKind.toExpr]; rw [visitExprTraced]; rfl)

theorem visitExprTraced_unary (k : UnaryKind) (e : Expr) (st : Translation) :
    visitExprTraced (k.toExpr e) st = (do
      let r1 ← visitExprTraced e st
      pure (r1.2.tr.tempCount,
        (r1.2.bump 0 1).setTacs (r1.2.tr.tacs ++ [Tac.Unary k.op r1.2.tr.tempCount r1.1]))) := by
  cases k <;> (simp only [UnaryKind.toExpr]; rw [visitExprTraced]; rfl)

/-- The lowering with the state at a failure kept is the lowering: the same
result when it completes, the same failure when it does not. -/
theorem visitExprTraced_refines (e : Expr) :
    ∀ st, (visitExprTraced e st).mapError Prod.fst = visitExpr e st := by
  induction e using Expr.induction_by_kind with
  | assign left e ih =>
    intro st
    rw [visitExprTraced, visitExpr, mapError_bind, visitVarRefTraced_refines]
    congr 1
    funext s1
    rw [mapError_bind, ih]
    rfl
  | binary k e1 e2 ih1 ih2 =>
    intro st
    rw [visitExprTraced_binary, visitExpr_binary, mapError_bind, ih1]
    congr 1
    funext r1
    rw [mapError_bind, ih2]
    rfl
  | const value =>
    intro st
    rw [visitExprTraced, visitExpr]
    rfl
  | unary k e ih =>
    intro st
    rw [visitExprTraced_unary, visitExpr_unary, mapError_bind, ih]
    rfl
  | lvalue lv =>
    intro st
    rw [visitExprTraced, visitExpr, mapError_bind, visitVarRefTraced_refines]
    rfl
  | ifExpr c t f ihc iht ihf =>
    intro st
    rw [visitExprTraced, visitExpr]
    simp only []
    rw [mapError_bind, ihc]
    congr 1
    funext rc
    rw [mapError_bind, iht]
    congr 1
    funext rt
    rw [mapError_bind, ihf]
    rfl

/-- An expression whose lowering completes has only plain variables as
lvalues. -/
theorem visitExpr_plain (e : Expr) :
    ∀ (st : Translation) (v : Temp) (st' : Translation),
      visitExpr e st = Except.ok (v, st') → e.plainLvalues = true := by
  induction e using Expr.induction_by_kind with
  | assign left e ih =>
    intro st v st' h
    rw [visitExpr_assign] at h
    simp only [bind_eq_ok, pure_eq_ok, visitVarRef_ok] at h
    obtain ⟨s1, ⟨hk, rfl⟩, ⟨v1, s2⟩, hr, -⟩ := h
    simp only [Expr.plainLvalues, Bool.and_eq_true, decide_eq_true_eq]
    exact ⟨hk, ih _ _ _ hr⟩
  | binary k e1 e2 ih1 ih2 =>
    intro st v st' h
    rw [visitExpr_binary] at h
    simp only [bind_eq_ok, pure_eq_ok] at h
    obtain ⟨⟨v1, s1⟩, h1, ⟨v2, s2⟩, h2, -⟩ := h
    simp only [plainLvalues_binary, Bool.and_eq_true]
    exact ⟨ih1 _ _ _ h1, ih2 _ _ _ h2⟩
  | const value =>
    intro st v st' _
    rfl
  | unary k e ih =>
    intro st v st' h
    rw [visitExpr_unary] at h
    simp only [bind_eq_ok, pure_eq_ok] at h
    obtain ⟨⟨v1, s1⟩, h1, -⟩ := h
    simp only [plainLvalues_unary]
    exact ih _ _ _ h1
  | lvalue lv =>
    intro st v st' h
    rw [visitExpr_lvalue] at h
    simp only [bind_eq_ok, pure_eq_ok, visitVarRef_ok] at h
    obtain ⟨s1, ⟨hk, rfl⟩, -⟩ := h
    simp only [Expr.plainLvalues, decide_eq_true_eq]
    exact hk
  | ifExpr c t f ihc iht ihf =>
    intro st v st' h
    rw [visitExpr_ifExpr] at h
    simp only [bind_eq_ok, pure_eq_ok] at h
    obtain ⟨⟨vc, sc⟩, hc, ⟨vt, s1⟩, h1, ⟨vf, s2⟩, h2, -⟩ := h
    simp only [Expr.plainLvalues, Bool.and_eq_true]
    exact ⟨⟨ihc _ _ _ hc, iht _ _ _ h1⟩, ihf _ _ _ h2⟩

/-- The lowering of an expression fails exactly when one of its lvalues is
not a plain variable. -/
theorem visitExpr_fails_iff (e : Expr) (st : Translation) :
    (∃ err, visitExpr e st = Except.error err) ↔ e.plainLvalues = false := by
  constructor
  · rintro ⟨err, herr⟩
    cases hp : e.plainLvalues with
    | false => rfl
    | true =>
      obtain ⟨v, s, hv⟩ := visitExpr_total e hp st
      rw [hv] at herr
      cases herr
  · intro hp
    cases hv : visitExpr e st with
    | error err => exact ⟨err, rfl⟩
    | ok r =>
      have := visitExpr_plain e st r.1 r.2 hv
      rw [hp] at this
      cases this

/-- C14, as stated, fails: the lowering of `x = (y = 5)` fails with the
assertion failure although the lvalue `x` of this assignment is a plain
variable; the lvalue that is not plain is the one of the inner assignment.
Nothing is emitted before that failure; before the one of `x = 5 + (y = 6)`,
where `x` is plain too, the load of 5 of the right-hand side is emitted. -/
theorem assignment_failure_counterexample :
    (plainVar 1).lv_kind = LvKind.SIMPLE_VAR
      ∧ sampleBadInner
          = Expr.AssignExpr (plainVar 1) (Expr.AssignExpr ⟨2, LvKind.OTHER 0⟩ (Expr.IntConst 5))
      ∧ visitExpr sampleBadInner sampleState = Except.error TransError.assertion_failed
      ∧ visitExprTraced sampleBadInner sampleState
          = Except.error (TransError.assertion_failed, sampleState)
      ∧ visitExpr sampleBadSum sampleState = Except.error TransError.assertion_failed
      ∧ ∃ s, visitExprTraced sampleBadSum sampleState
            = Except.error (TransError.assertion_failed, s)
          ∧ s.tr.tacs = [Tac.LoadImm4 0 5] :=
  ⟨rfl, rfl, rfl, rfl, rfl, _, rfl, rfl⟩

/-- C14, amended: the lowering of an assignment fails exactly when the kind
of its lvalue is not plain variable or an lvalue of its right-hand side is
not a plain variable. The check of the lvalue kind is the first action of the
lowering of an assignment and of an lvalue used as an expression, and it
fails exactly when the kind is not plain variable; the lowering of an lvalue
used as an expression fails exactly then. When the check fails, the pass
aborts in the very state the lowering of the node started from: nothing was
emitted, no instruction of the right-hand side of the assignment and no
assignment, whatever the right-hand side is. When the kind is plain
variable, the lvalue used as an expression emits nothing, changes nothing,
and yields the temporary bound to the symbol of the variable; and the
assignment goes on with its right-hand side, from the same state: it aborts
where its right-hand side aborts, with what the right-hand side emitted until
then, and completes when the right-hand side does, with the assignment into
the temporary of the variable emitted last. -/
theorem lvalue_kind_check (lv : VarRef) (e : Expr) (st : Translation) :
    (lv.lv_kind ≠ LvKind.SIMPLE_VAR →
        visitExprTraced (Expr.AssignExpr lv e) st
          = Except.error (TransError.assertion_failed, st))
    ∧ (lv.lv_kind ≠ LvKind.SIMPLE_VAR →
        visitExprTraced (Expr.LvalueExpr lv) st
          = Except.error (TransError.assertion_failed, st))
    ∧ (lv.lv_kind = LvKind.SIMPLE_VAR →
        visitExprTraced (Expr.AssignExpr lv e) st
          = (visitExprTraced e st).map
              (fun r => (r.1, r.2.genAssign (r.2.getTemp lv.sym) r.1)))
    ∧ (lv.lv_kind = LvKind.SIMPLE_VAR →
        visitExprTraced (Expr.LvalueExpr lv) st = Except.ok ((st.vars lv.sym).temp, st))
    ∧ (visitExprTraced (Expr.AssignExpr lv e) st).mapError Prod.fst
        = visitExpr (Expr.AssignExpr lv e) st
    ∧ (visitExprTraced (Expr.LvalueExpr lv) st).mapError Prod.fst
        = visitExpr (Expr.LvalueExpr lv) st
    ∧ ((∃ err, visitExpr (Expr.AssignExpr lv e) st = Except.error err)
        ↔ (lv.lv_kind ≠ LvKind.SIMPLE_VAR ∨ e.plainLvalues = false))
    ∧ (visitVarRef lv st = Except.error TransError.assertion_failed
        ↔ lv.lv_kind ≠ LvKind.SIMPLE_VAR)
    ∧ (visitExpr (Expr.LvalueExpr lv) st = Except.error TransError.assertion_failed
        ↔ lv.lv_kind ≠ LvKind.SIMPLE_VAR)
    ∧ ((∃ err, visitExpr (Expr.LvalueExpr lv) st = Except.error err)
        ↔ lv.lv_kind ≠ LvKind.SIMPLE_VAR)
    ∧ (lv.lv_kind ≠ LvKind.SIMPLE_VAR →
        visitExpr (Expr.AssignExpr lv e) st = Except.error TransError.assertion_failed)
    ∧ (lv.lv_kind = LvKind.SIMPLE_VAR →
        visitExpr (Expr.LvalueExpr lv) st = Except.ok ((st.vars lv.sym).temp, st))
    ∧ (lv.lv_kind = LvKind.SIMPLE_VAR →
        visitExpr (Expr.AssignExpr lv e) st
          = (visitExpr e st).map
              (fun r => (r.1, r.2.genAssign (r.2.getTemp lv.sym) r.1)))
    ∧ (∀ r, visitExpr e st = Except.ok r →
        ((∃ err, visitExpr (Expr.AssignExpr lv e) st = Except.error err)
          ↔ lv.lv_kind ≠ LvKind.SIMPLE_VAR)) := by
  have h8 : (∃ err, visitExpr (Expr.AssignExpr lv e) st = Except.error err)
      ↔ (lv.lv_kind ≠ LvKind.SIMPLE_VAR ∨ e.plainLvalues = false) := by
    rw [visitExpr_fails_iff]
    simp only [Expr.plainLvalues, Bool.and_eq_false_iff, decide_eq_false_iff_not, ne_eq]
  have hbad : lv.lv_kind ≠ LvKind.SIMPLE_VAR →
      visitVarRefTraced lv st = Except.error (TransError.assertion_failed, st) := by
    intro hk
    unfold visitVarRefTraced
    cases hk' : lv.lv_kind with
    | SIMPLE_VAR => exact absurd hk' hk
    | OTHER n => rfl
  have hgood : lv.lv_kind = LvKind.SIMPLE_VAR → visitVarRefTraced lv st = Except.ok st := by
    intro hk
    unfold visitVarRefTraced
    rw [hk]
  have t1 : lv.lv_kind ≠ LvKind.SIMPLE_VAR →
      visitExprTraced (Expr.AssignExpr lv e) st
        = Except.error (TransError.assertion_failed, st) := by
    intro hk
    rw [visitExprTraced, hbad hk]
    rfl
  have t2 : lv.lv_kind ≠ LvKind.SIMPLE_VAR →
      visitExprTraced (Expr.LvalueExpr lv) st
        = Except.error (TransError.assertion_failed, st) := by
    intro hk
    rw [visitExprTraced, hbad hk]
    rfl
  have t3 : lv.lv_kind = LvKind.SIMPLE_VAR →
      visitExprTraced (Expr.AssignExpr lv e) st
        = (visitExprTraced e st).map
            (fun r => (r.1, r.2.genAssign (r.2.getTemp lv.sym) r.1)) := by
    intro hk
    rw [visitExprTraced, hgood hk, ok_bind]
    cases visitExprTraced e st <;> rfl
  have t4 : lv.lv_kind = LvKind.SIMPLE_VAR →
      visitExprTraced (Expr.LvalueExpr lv) st = Except.ok ((st.vars lv.sym).temp, st) := by
    intro hk
    rw [visitExprTraced, hgood hk]
    rfl
  refine ⟨t1, t2, t3, t4, visitExprTraced_refines _ st, visitExprTraced_refines _ st, h8, ?_⟩
  have hA : visitExpr (Expr.AssignExpr lv e) st = (do
      let s1 ← visitVarRef lv st
      let r ← visitExpr e s1
      pure (r.1, r.2.genAssign (r.2.getTemp lv.sym) r.1)) := by rw [visitExpr]
  rw [hA, visitExpr_lvalue]
  cases hk : lv.lv_kind with
  | SIMPLE_VAR =>
    have hv : visitVarRef lv st = Except.ok st := by simp [visitVarRef, hk]
    rw [hv]
    refine ⟨by simp, by simp [ok_bind, pure, Except.pure], by simp [ok_bind, pure, Except.pure],
      by simp, fun _ => rfl, fun _ => ?_, fun r hr => ?_⟩
    · rw [ok_bind]
      cases visitExpr e st <;> rfl
    · rw [ok_bind, hr]
      simp [ok_bind, pure, Except.pure]
  | OTHER n =>
    have hv : visitVarRef lv st = Except.error TransError.assertion_failed := by
      simp [visitVarRef, hk]
    rw [hv]
    refine ⟨by simp, ⟨fun _ => by simp, fun _ => rfl⟩, ⟨fun _ => by simp, fun _ => ⟨_, rfl⟩⟩,
      fun _ => rfl, fun hn => by simp at hn, fun hn => by simp at hn, fun r _ => ?_⟩
    exact ⟨fun _ => by simp, fun _ => ⟨_, rfl⟩⟩

/-! ## C15: the `while` statement -/

/-- C15, as stated, fails: in the code of `while (1) continue;` the entry
label is 0 and the `continue`, the instruction after the conditional jump,
is the jump to the label 2, which is marked after the body. -/
theorem while_continue_counterexample :
    ∃ st', visitStmt sampleWhileContinue sampleState = Except.ok st'
      ∧ st'.tr.tacs = [Tac.Mark 0, Tac.LoadImm4 0 1, Tac.JZero 1 0, Tac.Jump 2, Tac.Mark 2,
          Tac.Jump 0, Tac.Mark 1]
      ∧ sampleState.getNewLabel.1 = 0
      ∧ ∃ sc, visitExpr (Expr.IntConst 1) ((loopStart sampleState).genMarkLabel 0)
            = Except.ok (0, sc)
          ∧ visitStmt Stmt.ContStmt (sc.genJumpOnZero 1 0)
            = Except.ok ((sc.genJumpOnZero 1 0).genJump 2) :=
  ⟨_, rfl, rfl, rfl, _, rfl, rfl⟩

/-- C15, amended: the lowering of `while (c) body` issues the labels `entry`,
`exit` and `continueTarget`, lowers the condition and then the body, and
emits: mark `entry`, the code of the condition, conditional-jump-if-zero to
`exit` on the value of the condition, the code of the body, mark
`continueTarget`, jump `entry`, mark `exit`. The three labels are distinct; a
`continue` of the body in no deeper loop is a jump of the code of the body to
`continueTarget`, a `break` one to `exit`. -/
theorem while_lowering (c : Expr) (body : Stmt) (st st' : Translation)
    (h : visitStmt (Stmt.WhileStmt c body) st = Except.ok st') :
    ∃ (vc : Temp) (sc sb : Translation) (cc cb : List Tac),
      visitExpr c ((loopStart st).genMarkLabel st.getNewLabel.1) = Except.ok (vc, sc)
      ∧ sc.tr.tacs = st.tr.tacs ++ [Tac.Mark st.getNewLabel.1] ++ cc
      ∧ visitStmt body (sc.genJumpOnZero (exitLabel st) vc) = Except.ok sb
      ∧ sb.tr.tacs = sc.tr.tacs ++ [Tac.JZero (exitLabel st) vc] ++ cb
      ∧ st'.tr.tacs = st.tr.tacs ++ ([Tac.Mark st.getNewLabel.1] ++ cc
          ++ [Tac.JZero (exitLabel st) vc] ++ cb
          ++ [Tac.Mark (continueLabel st), Tac.Jump st.getNewLabel.1, Tac.Mark (exitLabel st)])
      ∧ continueLabel st ≠ st.getNewLabel.1
      ∧ exitLabel st ≠ st.getNewLabel.1
      ∧ continueLabel st ≠ exitLabel st
      ∧ ∀ (C : Ctx) (j : JumpKind), body = C.plug j.toStmt →
          ∃ p q, cb = p ++ [Tac.Jump (j.loopLabel st)] ++ q := by
  rw [visitStmt_while] at h
  simp only [bind_eq_ok, pure_eq_ok] at h
  obtain ⟨⟨vc, sc⟩, hc, sb, hb, rfl⟩ := h
  obtain ⟨nlc, ntc, cc, hsc, -⟩ := visitExpr_frame _ _ _ _ hc
  obtain ⟨nlb, ntb, cb, vs, hsb, -⟩ := visitStmt_frame _ _ _ hb
  have ec : sc.tr.tacs = st.tr.tacs ++ [Tac.Mark st.tr.labelCount] ++ cc := by
    rw [hsc]; simp
  have eb : sb.tr.tacs = sc.tr.tacs ++ [Tac.JZero (st.tr.labelCount + 1) vc] ++ cb := by
    rw [hsb]; simp
  have hbrk : sc.current_break_label = st.tr.labelCount + 1 := by rw [hsc]; simp
  have hcont : sc.current_continue_label = st.tr.labelCount + 2 := by rw [hsc]; simp
  refine ⟨vc, sc, sb, cc, cb, ?_, ec, ?_, ?_, ?_, ?_, ?_, ?_, ?_⟩
  · simpa [loopStart, exitLabel, continueLabel] using hc
  · simpa [exitLabel] using hb
  · simpa [exitLabel] using eb
  · simp [exitLabel, continueLabel, ec, eb]
  · simp [continueLabel]
  · simp [exitLabel]
  · simp [exitLabel, continueLabel]
  · intro C j hbody
    subst hbody
    obtain ⟨p, q, hpq⟩ := body_jump C j _ sb
      (sc.tr.tacs ++ [Tac.JZero (st.tr.labelCount + 1) vc]) cb hb (by simp) eb
    refine ⟨p, q, ?_⟩
    rw [hpq]
    cases j <;>
      simp [JumpKind.currentLabel, JumpKind.loopLabel, exitLabel, continueLabel, hbrk, hcont]

/-- C15, amended, on `while (1) continue;`. -/
theorem while_lowering_witness :
    ∃ st', visitStmt sampleWhileContinue sampleState = Except.ok st'
      ∧ ∃ cc cb vc, st'.tr.tacs = sampleState.tr.tacs ++ ([Tac.Mark 0] ++ cc
          ++ [Tac.JZero 1 vc] ++ cb ++ [Tac.Mark 2, Tac.Jump 0, Tac.Mark 1])
        ∧ ∃ p q, cb = p ++ [Tac.Jump 2] ++ q := by
  obtain ⟨vc, sc, sb, cc, cb, -, -, -, -, h5, -, -, -, h9⟩ :=
    while_lowering (Expr.IntConst 1) Stmt.ContStmt sampleState _ rfl
  exact ⟨_, rfl, cc, cb, vc, h5, h9 Ctx.hole JumpKind.continueJump rfl⟩

/-! ## C16: the `for` statement with a condition -/

/-- C16: the lowering of `for (init; c; update) body` issues the labels
`entry`, `exit` and `continueTarget`, lowers the initializer, the condition,
the body and the update in this order, and emits: the code of the initializer
(none when there is no initializer), mark `entry`, the code of the condition,
conditional-jump-if-zero to `exit` on the value of the condition, the code of
the body, mark `continueTarget`, the code of the update (none when there is
no update), jump `entry`, mark `exit`. The code of the initializer does not
mark `entry`; the three labels are distinct; a `continue` of the body in no
deeper loop is a jump of the code of the body to `continueTarget`, the label
marked right before the code of the update, a `break` one to `exit`. -/
theorem for_lowering (ei : Option Expr) (vi : Option VarDecl) (c : Expr) (upd : Option Expr)
    (body : Stmt) (st st' : Translation)
    (h : visitStmt (Stmt.ForStmt ei vi (some c) upd body) st = Except.ok st') :
    ∃ (si : Translation) (vc : Temp) (sc sb su : Translation) (ci cc cb cu : List Tac),
      visitForInit ei vi (loopStart st) = Except.ok si
      ∧ si.tr.tacs = st.tr.tacs ++ ci
      ∧ visitExpr c (si.genMarkLabel st.getNewLabel.1) = Except.ok (vc, sc)
      ∧ sc.tr.tacs = si.tr.tacs ++ [Tac.Mark st.getNewLabel.1] ++ cc
      ∧ visitStmt body (sc.genJumpOnZero (exitLabel st) vc) = Except.ok sb
      ∧ sb.tr.tacs = sc.tr.tacs ++ [Tac.JZero (exitLabel st) vc] ++ cb
      ∧ visitForUpdate upd (sb.genMarkLabel (continueLabel st)) = Except.ok su
      ∧ su.tr.tacs = sb.tr.tacs ++ [Tac.Mark (continueLabel st)] ++ cu
      ∧ st'.tr.tacs = st.tr.tacs ++ (ci ++ [Tac.Mark st.getNewLabel.1] ++ cc
          ++ [Tac.JZero (exitLabel st) vc] ++ cb ++ [Tac.Mark (continueLabel st)] ++ cu
          ++ [Tac.Jump st.getNewLabel.1, Tac.Mark (exitLabel st)])
      ∧ (ei = none → vi = none → ci = [])
      ∧ (upd = none → cu = [])
      ∧ markCount st.getNewLabel.1 ci = 0
      ∧ continueLabel st ≠ st.getNewLabel.1
      ∧ exitLabel st ≠ st.getNewLabel.1
      ∧ continueLabel st ≠ exitLabel st
      ∧ ∀ (C : Ctx) (j : JumpKind), body = C.plug j.toStmt →
          ∃ p q, cb = p ++ [Tac.Jump (j.loopLabel st)] ++ q := by
  rw [visitStmt_for] at h
  simp only [bind_eq_ok, pure_eq_ok] at h
  obtain ⟨si, hi, rc, hrc, val, hval, sb, hb, su, hu, rfl⟩ := h
  obtain ⟨c', hc', hc⟩ := for_condition_ok _ _ _ _ hrc hval
  cases hc'
  obtain ⟨nli, nti, ci, vsi, hsi, -⟩ := visitForInit_frame ei vi _ _ hi
  obtain ⟨nlc, ntc, cc, hsc, -⟩ := visitExpr_frame c _ _ _ hc
  obtain ⟨nlb, ntb, cb, vsb, hsb, -⟩ := visitStmt_frame _ _ _ hb
  obtain ⟨nlu, ntu, cu, vsu, hsu, -⟩ := visitForUpdate_frame upd _ _ hu
  have ei' : si.tr.tacs = st.tr.tacs ++ ci := by rw [hsi]; simp
  have ec : rc.2.tr.tacs = si.tr.tacs ++ [Tac.Mark st.tr.labelCount] ++ cc := by
    rw [hsc]; simp
  have eb : sb.tr.tacs = rc.2.tr.tacs ++ [Tac.JZero (st.tr.labelCount + 1) val] ++ cb := by
    rw [hsb]; simp
  have eu : su.tr.tacs = sb.tr.tacs ++ [Tac.Mark (st.tr.labelCount + 2)] ++ cu := by
    rw [hsu]; simp
  have hbrk : rc.2.current_break_label = st.tr.labelCount + 1 := by rw [hsc, hsi]; simp
  have hcont : rc.2.current_continue_label = st.tr.labelCount + 2 := by rw [hsc, hsi]; simp
  have Li := visitForInit_labels ei vi _ _ ci hi (by rw [ei']; simp)
  refine ⟨si, val, rc.2, sb, su, ci, cc, cb, cu, ?_, ei', ?_, ?_, ?_, ?_, ?_, ?_, ?_, ?_, ?_,
    ?_, ?_, ?_, ?_, ?_⟩
  · simpa [loopStart, exitLabel, continueLabel] using hi
  · simpa using hc
  · simpa using ec
  · simpa [exitLabel] using hb
  · simpa [exitLabel] using eb
  · simpa [continueLabel] using hu
  · simpa [continueLabel] using eu
  · simp [exitLabel, continueLabel, eu, eb, ec, ei']
  · intro h1 h2
    subst h1 h2
    simp only [visitForInit, pure_eq_ok] at hi
    rw [← hi] at ei'
    simpa using ei'
  · intro h1
    subst h1
    simp only [visitForUpdate, pure_eq_ok] at hu
    rw [← hu] at eu
    simpa using eu
  · have := Li.range st.tr.labelCount
    simp at this
    simpa using this
  · simp [continueLabel]
  · simp [exitLabel]
  · simp [exitLabel, continueLabel]
  · intro C j hbody
    subst hbody
    obtain ⟨p, q, hpq⟩ := body_jump C j _ sb
      (rc.2.tr.tacs ++ [Tac.JZero (st.tr.labelCount + 1) val]) cb hb (by simp) eb
    refine ⟨p, q, ?_⟩
    rw [hpq]
    cases j <;>
      simp [JumpKind.currentLabel, JumpKind.loopLabel, exitLabel, continueLabel, hbrk, hcont]

/-- C16 on `for (1; 2; 3) continue;`: the `continue` is the jump to the label
2, which is marked right before the code of the update. -/
theorem for_lowering_witness :
    ∃ st', visitStmt sampleFor sampleState = Except.ok st'
      ∧ st'.tr.tacs = [Tac.LoadImm4 0 1, Tac.Mark 0, Tac.LoadImm4 1 2, Tac.JZero 1 1,
          Tac.Jump 2, Tac.Mark 2, Tac.LoadImm4 2 3, Tac.Jump 0, Tac.Mark 1]
      ∧ ∃ ci cc cb cu vc, st'.tr.tacs = sampleState.tr.tacs ++ (ci ++ [Tac.Mark 0] ++ cc
          ++ [Tac.JZero 1 vc] ++ cb ++ [Tac.Mark 2] ++ cu ++ [Tac.Jump 0, Tac.Mark 1])
        ∧ ∃ p q, cb = p ++ [Tac.Jump 2] ++ q := by
  obtain ⟨si, vc, sc, sb, su, ci, cc, cb, cu, -, -, -, -, -, -, -, -, h9, -, -, -, -, -, -, hj⟩ :=
    for_lowering (some (Expr.IntConst 1)) none (Expr.IntConst 2) (some (Expr.IntConst 3))
      Stmt.ContStmt sampleState _ rfl
  exact ⟨_, rfl, rfl, ci, cc, cb, cu, vc, h9, hj Ctx.hole JumpKind.continueJump rfl⟩

/-! ## C17: the `if` statement -/

/-- C17: the lowering of `if (c) t else f` issues the next two labels of the
counter, `elseEntry` and `join`, lowers the condition, the true branch and the
false branch in this order, and emits: the code of the condition,
conditional-jump-if-zero to `elseEntry` on the value of the condition, the
code of the true branch, jump `join`, mark `elseEntry`, the code of the false
branch, mark `join`. When the false branch is the empty statement it has no
code: mark `elseEntry` is directly followed by mark `join`. -/
theorem if_lowering (c : Expr) (t f : Stmt) (st st' : Translation)
    (h : visitStmt (Stmt.IfStmt c t f) st = Except.ok st') :
    ∃ (vc : Temp) (sc s1 s2 : Translation) (cc ct cf : List Tac),
      st.getNewLabel.1 = st.tr.labelCount
      ∧ st.getNewLabel.2.getNewLabel.1 = st.tr.labelCount + 1
      ∧ st.getNewLabel.1 ≠ st.getNewLabel.2.getNewLabel.1
      ∧ visitExpr c st.getNewLabel.2.getNewLabel.2 = Except.ok (vc, sc)
      ∧ sc.tr.tacs = st.tr.tacs ++ cc
      ∧ visitStmt t (sc.genJumpOnZero st.getNewLabel.1 vc) = Except.ok s1
      ∧ s1.tr.tacs = sc.tr.tacs ++ [Tac.JZero st.getNewLabel.1 vc] ++ ct
      ∧ visitStmt f ((s1.genJump st.getNewLabel.2.getNewLabel.1).genMarkLabel st.getNewLabel.1)
          = Except.ok s2
      ∧ s2.tr.tacs = s1.tr.tacs
          ++ [Tac.Jump st.getNewLabel.2.getNewLabel.1, Tac.Mark st.getNewLabel.1] ++ cf
      ∧ st'.tr.tacs = st.tr.tacs ++ (cc ++ [Tac.JZero st.getNewLabel.1 vc] ++ ct
          ++ [Tac.Jump st.getNewLabel.2.getNewLabel.1, Tac.Mark st.getNewLabel.1] ++ cf
          ++ [Tac.Mark st.getNewLabel.2.getNewLabel.1])
      ∧ (f = Stmt.EmptyStmt → cf = []
          ∧ st'.tr.tacs = st.tr.tacs ++ (cc ++ [Tac.JZero st.getNewLabel.1 vc] ++ ct
              ++ [Tac.Jump st.getNewLabel.2.getNewLabel.1, Tac.Mark st.getNewLabel.1,
                Tac.Mark st.getNewLabel.2.getNewLabel.1])) := by
  rw [visitStmt_if] at h
  simp only [bind_eq_ok, pure_eq_ok] at h
  obtain ⟨⟨vc, sc⟩, hc, s1, h1, s2, h2, rfl⟩ := h
  obtain ⟨nlc, ntc, cc, hsc, -⟩ := visitExpr_frame c _ _ _ hc
  obtain ⟨nl1, nt1, ct, vs1, hs1, -⟩ := visitStmt_frame _ _ _ h1
  obtain ⟨nl2, nt2, cf, vs2, hs2, -⟩ := visitStmt_frame _ _ _ h2
  have ec : sc.tr.tacs = st.tr.tacs ++ cc := by rw [hsc]; simp
  have e1 : s1.tr.tacs = sc.tr.tacs ++ [Tac.JZero st.tr.labelCount vc] ++ ct := by
    rw [hs1]; simp
  have e2 : s2.tr.tacs = s1.tr.tacs
      ++ [Tac.Jump (st.tr.labelCount + 1), Tac.Mark st.tr.labelCount] ++ cf := by
    rw [hs2]; simp
  have hcode : (s2.setTacs (s2.tr.tacs ++ [Tac.Mark (st.tr.labelCount + 1)])).tr.tacs
      = st.tr.tacs ++ (cc ++ [Tac.JZero st.tr.labelCount vc] ++ ct
          ++ [Tac.Jump (st.tr.labelCount + 1), Tac.Mark st.tr.labelCount] ++ cf
          ++ [Tac.Mark (st.tr.labelCount + 1)]) := by
    simp [e2, e1, ec]
  refine ⟨vc, sc, s1, s2, cc, ct, cf, rfl, rfl, ?_, ?_, ec, ?_, ?_, ?_, ?_, ?_, ?_⟩
  · simp
  · simpa using hc
  · simpa using h1
  · simpa using e1
  · simpa using h2
  · simpa using e2
  · simpa using hcode
  · intro hf
    subst hf
    have hcf : cf = [] := by
      simp only [visitStmt_empty, Except.ok.injEq] at h2
      rw [← h2] at e2
      simpa using e2
    subst hcf
    exact ⟨rfl, by simpa using hcode⟩

/-- C17 on `if (1) return 2;`. -/
theorem if_lowering_witness :
    ∃ st', visitStmt sampleIf sampleState = Except.ok st'
      ∧ st'.tr.tacs = [Tac.LoadImm4 0 1, Tac.JZero 0 0, Tac.LoadImm4 1 2, Tac.Return 1,
          Tac.Jump 1, Tac.Mark 0, Tac.Mark 1]
      ∧ ∃ cc ct vc, st'.tr.tacs = sampleState.tr.tacs ++ (cc ++ [Tac.JZero 0 vc] ++ ct
          ++ [Tac.Jump 1, Tac.Mark 0, Tac.Mark 1]) := by
  obtain ⟨vc, sc, s1, s2, cc, ct, cf, -, -, -, -, -, -, -, -, -, -, he⟩ :=
    if_lowering (Expr.IntConst 1) (Stmt.ReturnStmt (Expr.IntConst 2)) Stmt.EmptyStmt
      sampleState _ rfl
  exact ⟨_, rfl, rfl, cc, ct, vc, (he rfl).2⟩

/-! ## C18: binary expressions -/

/-- C18: for each of the thirteen binary node kinds `k`, the lowering of the
node with the operands `e1` and `e2` lowers `e1`, then `e2`, and then emits
one instruction: the binary instruction of the operator of `k` on the values
of `e1` and `e2`, into the next temporary of the counter, which is the value
of the node. The node issues no label, and nothing but that one instruction
is added to the codes of `e1` and `e2`. -/
theorem binary_lowering (k : BinaryKind) (e1 e2 : Expr) (st st' : Translation) (v : Temp)
    (h : visitExpr (k.toExpr e1 e2) st = Except.ok (v, st')) :
    ∃ (v1 v2 : Temp) (s1 s2 : Translation) (c1 c2 : List Tac),
      visitExpr e1 st = Except.ok (v1, s1)
      ∧ s1.tr.tacs = st.tr.tacs ++ c1
      ∧ visitExpr e2 s1 = Except.ok (v2, s2)
      ∧ s2.tr.tacs = s1.tr.tacs ++ c2
      ∧ v = s2.getNewTempI4.1
      ∧ st'.tr.tacs = st.tr.tacs ++ (c1 ++ c2 ++ [Tac.Binary k.op v v1 v2])
      ∧ st'.tr.tempCount = s2.tr.tempCount + 1
      ∧ st'.tr.labelCount = s2.tr.labelCount := by
  rw [visitExpr_binary] at h
  simp only [bind_eq_ok, pure_eq_ok, Prod.mk.injEq] at h
  obtain ⟨⟨v1, s1⟩, h1, ⟨v2, s2⟩, h2, rfl, rfl⟩ := h
  obtain ⟨nl1, nt1, c1, hs1, -⟩ := visitExpr_frame _ _ _ _ h1
  obtain ⟨nl2, nt2, c2, hs2, -⟩ := visitExpr_frame _ _ _ _ h2
  have ea : s1.tr.tacs = st.tr.tacs ++ c1 := by rw [hs1]; simp
  have eb : s2.tr.tacs = s1.tr.tacs ++ c2 := by rw [hs2]; simp
  exact ⟨v1, v2, s1, s2, c1, c2, h1, ea, h2, eb, rfl, by simp [eb, ea], by simp, by simp⟩

/-- C18 on `1 && 2`: both operands are lowered, then the one logical-and
instruction. -/
theorem binary_lowering_witness :
    ∃ st', visitExpr sampleAnd sampleState = Except.ok (2, st')
      ∧ st'.tr.tacs = [Tac.LoadImm4 0 1, Tac.LoadImm4 1 2, Tac.Binary BinaryOp.LAND 2 0 1]
      ∧ ∃ c1 c2 v1 v2, st'.tr.tacs
          = sampleState.tr.tacs ++ (c1 ++ c2 ++ [Tac.Binary BinaryOp.LAND 2 v1 v2]) := by
  obtain ⟨v1, v2, s1, s2, c1, c2, -, -, -, -, -, h6, -, -⟩ :=
    binary_lowering BinaryKind.and (Expr.IntConst 1) (Expr.IntConst 2) sampleState _ 2 rfl
  exact ⟨_, rfl, rfl, c1, c2, v1, v2, h6⟩

/-! ## C19: variable declarations -/

/-- C19: the lowering of a variable declaration first issues the next
temporary `t` of the counter and binds it to the declared symbol. With no
initializer nothing else happens: no instruction is emitted. With an
initializer, the initializer is lowered next, in the state in which the
symbol is bound to `t` and the counter is past `t`, and one instruction is
emitted after its code: the assignment of its value into `t`. The symbol is
bound to `t` afterwards, and the counter never goes back: it is past `t`
when the initializer is lowered and afterwards. -/
theorem var_decl_lowering (decl : VarDecl) (st st' : Translation)
    (h : visitVarDecl decl st = Except.ok st') :
    st.getNewTempI4.1 = st.tr.tempCount
    ∧ (st'.vars decl.sym).temp = st.tr.tempCount
    ∧ st.tr.tempCount < st'.tr.tempCount
    ∧ (decl.init = none →
        st' = st.getNewTempI4.2.attachTemp decl.sym st.tr.tempCount
        ∧ st'.tr.tacs = st.tr.tacs ∧ st'.tr.tempCount = st.tr.tempCount + 1)
    ∧ (∀ init, decl.init = some init →
        ∃ (v : Temp) (si : Translation) (ci : List Tac),
          visitExpr init (st.getNewTempI4.2.attachTemp decl.sym st.tr.tempCount)
              = Except.ok (v, si)
          ∧ ((st.getNewTempI4.2.attachTemp decl.sym st.tr.tempCount).vars decl.sym).temp
              = st.tr.tempCount
          ∧ (st.getNewTempI4.2.attachTemp decl.sym st.tr.tempCount).tr.tempCount
              = st.tr.tempCount + 1
          ∧ (st.getNewTempI4.2.attachTemp decl.sym st.tr.tempCount).tr.tacs = st.tr.tacs
          ∧ si.tr.tacs = st.tr.tacs ++ ci
          ∧ st.tr.tempCount + 1 ≤ si.tr.tempCount
          ∧ st'.tr.tempCount = si.tr.tempCount
          ∧ st'.tr.tacs = st.tr.tacs ++ (ci ++ [Tac.Assign st.tr.tempCount v])) := by
  rw [visitVarDecl_eq] at h
  cases hi : decl.init with
  | none =>
    rw [hi] at h
    simp only [pure_eq_ok] at h
    subst h
    refine ⟨rfl, by simp, by simp, fun _ => ⟨by simp, by simp, by simp⟩, fun init hn => ?_⟩
    exact absurd hn (by simp)
  | some init =>
    rw [hi] at h
    simp only [bind_eq_ok, pure_eq_ok] at h
    obtain ⟨⟨v, si⟩, hv, rfl⟩ := h
    obtain ⟨nl, nt, ci, hsi, -⟩ := visitExpr_frame _ _ _ _ hv
    have e1 : si.tr.tacs = st.tr.tacs ++ ci := by rw [hsi]; simp
    have e2 : si.tr.tempCount = st.tr.tempCount + 1 + nt := by rw [hsi]; simp; omega
    have e3 : (si.vars decl.sym).temp = st.tr.tempCount := by rw [hsi]; simp
    refine ⟨rfl, by simpa using e3, by simp; omega, fun hn => absurd hn (by simp),
      fun init' hn => ?_⟩
    simp only [Option.some.injEq] at hn
    subst hn
    refine ⟨v, si, ci, by simpa using hv, by simp, by simp, by simp, e1, by omega, by simp, ?_⟩
    simp [Translation.getTemp, e3, e1]

/-- C19 on `int x = 5;`, lowered when the counter of temporaries is at 0: the
variable gets the temporary 0, the value 5 is loaded into the temporary 1 and
assigned to the temporary 0. -/
theorem var_decl_lowering_witness :
    ∃ st', visitVarDecl sampleDecl sampleState = Except.ok st'
      ∧ st'.tr.tacs = [Tac.LoadImm4 1 5, Tac.Assign 0 1]
      ∧ (st'.vars 1).temp = 0
      ∧ sampleState.tr.tempCount < st'.tr.tempCount :=
  ⟨_, rfl, rfl, rfl, (var_decl_lowering sampleDecl sampleState _ rfl).2.2.1⟩

/-! ## Temporaries written on every path -/

theorem Flow.weaken_pre {V : Temp → Prop} {L : Nat → Temp → Prop} {W W1 W' : Temp → Prop}
    {code : List Tac} (h : Flow V L W1 code W') (hw : ∀ t, W1 t → W t) : Flow V L W code W' := by
  cases code with
  | nil => exact fun t ht => hw t (h t ht)
  | cons i rest =>
    obtain ⟨D, D', hD, hs, hr⟩ := h
    exact ⟨D, D', fun t ht => hw t (hD t ht), hs, hr⟩

theorem Flow.weaken_post {V : Temp → Prop} {L : Nat → Temp → Prop} {code : List Tac} :
    ∀ {W W' W2 : Temp → Prop}, Flow V L W code W' → (∀ t, W2 t → W' t) → Flow V L W code W2 := by
  induction code with
  | nil => exact fun h hw t ht => h t (hw t ht)
  | cons i rest ih =>
    intro W W' W2 h hw
    obtain ⟨D, D', hD, hs, hr⟩ := h
    exact ⟨D, D', hD, hs, ih hr hw⟩

theorem Flow.cat {V : Temp → Prop} {L : Nat → Temp → Prop} {a b : List Tac} :
    ∀ {W W1 W2 : Temp → Prop}, Flow V L W a W1 → Flow V L W1 b W2 → Flow V L W (a ++ b) W2 := by
  induction a with
  | nil => exact fun h1 h2 => h2.weaken_pre h1
  | cons i rest ih =>
    intro W W1 W2 h1 h2
    obtain ⟨D, D', hD, hs, hr⟩ := h1
    exact ⟨D, D', hD, hs, ih hr h2⟩

theorem Flow.empty {V : Temp → Prop} {L : Nat → Temp → Prop} (W : Temp → Prop) :
    Flow V L W [] W := fun _ h => h

/-- An instruction that writes `d` and is no jump and no mark. -/
theorem flow_write {V : Temp → Prop} {L : Nat → Temp → Prop} {W : Temp → Prop} (i : Tac)
    (d : Temp) (hr : ∀ t ∈ i.reads, W t ∨ V t) (ht : i.target = none)
    (hm : ∀ l, i ≠ Tac.Mark l) (hw : i.writes = some d) :
    Flow V L W [i] (fun t => W t ∨ t = d) := by
  refine ⟨W, fun t => W t ∨ t = d, fun _ h => h, ⟨hr, ?_, ?_, ?_⟩, fun _ h => h⟩
  · intro l hl
    rw [ht] at hl
    cases hl
  · intro l hl
    exact absurd hl (hm l)
  · intro _ t h
    rcases h with h | h
    · exact Or.inl h
    · right; rw [hw, h]

theorem flow_jzero {V : Temp → Prop} {L : Nat → Temp → Prop} {W : Temp → Prop} (l : Nat)
    (c : Temp) (hc : W c ∨ V c) (hl : ∀ t, L l t → W t) : Flow V L W [Tac.JZero l c] W := by
  refine ⟨W, W, fun _ h => h, ⟨?_, ?_, ?_, ?_⟩, fun _ h => h⟩
  · intro t ht
    simp only [Tac.reads, List.mem_singleton] at ht
    rw [ht]; exact hc
  · intro m hm t ht
    simp only [Tac.target, Option.some.injEq] at hm
    rw [← hm] at ht; exact hl t ht
  · intro m hm
    cases hm
  · intro _ t h
    exact Or.inl h

theorem flow_jump {V : Temp → Prop} {L : Nat → Temp → Prop} {W : Temp → Prop} (l : Nat)
    (W' : Temp → Prop) (hl : ∀ t, L l t → W t) : Flow V L W [Tac.Jump l] W' := by
  refine ⟨W, W', fun _ h => h, ⟨?_, ?_, ?_, ?_⟩, fun _ h => h⟩
  · intro t ht
    simp [Tac.reads] at ht
  · intro m hm t ht
    simp only [Tac.target, Option.some.injEq] at hm
    rw [← hm] at ht; exact hl t ht
  · intro m hm
    cases hm
  · intro hf
    simp [Tac.fallsThrough] at hf

theorem flow_mark {V : Temp → Prop} {L : Nat → Temp → Prop} {W : Temp → Prop} (l : Nat)
    (W' : Temp → Prop) (hw : ∀ t, W' t → W t) (hl : ∀ t, W' t → L l t) :
    Flow V L W [Tac.Mark l] W' := by
  refine ⟨W', W', hw, ⟨?_, ?_, ?_, ?_⟩, fun _ h => h⟩
  · intro t ht
    simp [Tac.reads] at ht
  · intro m hm
    simp [Tac.target] at hm
  · intro m hm t ht
    cases hm
    exact hl t ht
  · intro _ t h
    exact Or.inl h

theorem flow_return {V : Temp → Prop} {L : Nat → Temp → Prop} {W : Temp → Prop} (v : Temp)
    (W' : Temp → Prop) (hv : W v ∨ V v) : Flow V L W [Tac.Return v] W' := by
  refine ⟨W, W', fun _ h => h, ⟨?_, ?_, ?_, ?_⟩, fun _ h => h⟩
  · intro t ht
    simp only [Tac.reads, List.mem_singleton] at ht
    rw [ht]; exact hv
  · intro m hm
    simp [Tac.target] at hm
  · intro m hm
    cases hm
  · intro hf
    simp [Tac.fallsThrough] at hf

theorem flow_funcEnter {V : Temp → Prop} {L : Nat → Temp → Prop} (W : Temp → Prop) :
    Flow V L W [Tac.FuncEnter] W := by
  refine ⟨W, W, fun _ h => h, ⟨?_, ?_, ?_, ?_⟩, fun _ h => h⟩
  · intro t ht
    simp [Tac.reads] at ht
  · intro m hm
    simp [Tac.target] at hm
  · intro m hm
    cases hm
  · intro _ t h
    exact Or.inl h

theorem flow_funcExit {V : Temp → Prop} {L : Nat → Temp → Prop} (W W' : Temp → Prop) :
    Flow V L W [Tac.FuncExit] W' := by
  refine ⟨W, W', fun _ h => h, ⟨?_, ?_, ?_, ?_⟩, fun _ h => h⟩
  · intro t ht
    simp [Tac.reads] at ht
  · intro m hm
    simp [Tac.target] at hm
  · intro m hm
    cases hm
  · intro hf
    simp [Tac.fallsThrough] at hf

/-- An annotated sequence has a set of temporaries for every index, with the
condition `StepOK` at every instruction. -/
theorem Flow.annot {V : Temp → Prop} {L : Nat → Temp → Prop} {code : List Tac} :
    ∀ {W W' : Temp → Prop}, Flow V L W code W' →
      ∃ D : Nat → Temp → Prop, (∀ t, D 0 t → W t)
        ∧ ∀ k i, code[k]? = some i → StepOK V L i (D k) (D (k + 1)) := by
  induction code with
  | nil =>
    intro W W' _
    exact ⟨fun _ => W, fun _ h => h, fun k i hk => by simp at hk⟩
  | cons i rest ih =>
    intro W W' h
    obtain ⟨D0, D1, hD, hs, hr⟩ := h
    obtain ⟨Dr, hr0, hrk⟩ := ih hr
    refine ⟨fun k => match k with | 0 => D0 | k + 1 => Dr k, hD, fun k j hk => ?_⟩
    cases k with
    | zero =>
      simp at hk
      subst hk
      exact ⟨hs.1, hs.2.1, hs.2.2.1, fun hf t ht => hs.2.2.2 hf t (hr0 t ht)⟩
    | succ k =>
      simp at hk
      exact hrk k j hk

/-- The index control gets to from a jump is one of a mark of the label. -/
theorem succs_cases {P : List Tac} {a b : Nat} (h : b ∈ succs P a) :
    ∃ i, P[a]? = some i
      ∧ ((i.fallsThrough = true ∧ b = a + 1)
        ∨ ∃ l, i.target = some l ∧ P[b]? = some (Tac.Mark l)) := by
  unfold succs at h
  have hidx : ∀ l, Tac.Mark l ∈ P → P[P.indexOf (Tac.Mark l)]? = some (Tac.Mark l) := by
    intro l hl
    rw [List.getElem?_eq_getElem (List.indexOf_lt_length.2 hl)]
    simp
  cases hP : P[a]? with
  | none => rw [hP] at h; simp at h
  | some i =>
    rw [hP] at h
    refine ⟨i, rfl, ?_⟩
    cases i with
    | Jump l =>
      right
      by_cases hm : Tac.Mark l ∈ P
      · simp [hm] at h; subst h; exact ⟨l, rfl, hidx l hm⟩
      · simp [hm] at h
    | JZero l c =>
      by_cases hm : Tac.Mark l ∈ P
      · simp [hm] at h
        rcases h with h | h
        · left; exact ⟨rfl, h⟩
        · right; subst h; exact ⟨l, rfl, hidx l hm⟩
      · simp [hm] at h
        left; exact ⟨rfl, h⟩
    | Return v => simp at h
    | FuncExit => simp at h
    | LoadImm4 d v => simp at h; left; exact ⟨rfl, h⟩
    | Binary op d x y => simp at h; left; exact ⟨rfl, h⟩
    | Unary op d x => simp at h; left; exact ⟨rfl, h⟩
    | Assign d s => simp at h; left; exact ⟨rfl, h⟩
    | Mark l => simp at h; left; exact ⟨rfl, h⟩
    | FuncEnter => simp at h; left; exact ⟨rfl, h⟩

/-- A path with one more index at its end. -/
theorem isPath_snoc (P : List Tac) (q : List Nat) (m n : Nat) :
    IsPath P (q ++ [m] ++ [n]) ↔ IsPath P (q ++ [m]) ∧ n ∈ succs P m := by
  unfold IsPath
  induction q with
  | nil => simp [isPath]
  | cons a r ih =>
    cases r with
    | nil =>
      simp only [List.cons_append, List.nil_append, isPath, Bool.and_eq_true, decide_eq_true_eq,
        Bool.and_true]
    | cons b r' =>
      have e1 : isPath P (a :: b :: r' ++ [m] ++ [n])
          = (decide (b ∈ succs P a) && isPath P (b :: r' ++ [m] ++ [n])) := rfl
      have e2 : isPath P (a :: b :: r' ++ [m])
          = (decide (b ∈ succs P a) && isPath P (b :: r' ++ [m])) := rfl
      rw [e1, e2]
      simp only [Bool.and_eq_true, decide_eq_true_eq]
      rw [ih]
      exact and_assoc.symm

/-- On a path from the first instruction of an annotated sequence, every
temporary of the set of the index reached is written by an instruction
earlier on the path. -/
theorem path_written {V : Temp → Prop} {L : Nat → Temp → Prop} {P : List Tac}
    {D : Nat → Temp → Prop} (h0 : ∀ t, ¬ D 0 t)
    (hD : ∀ k i, P[k]? = some i → StepOK V L i (D k) (D (k + 1))) :
    ∀ (p : List Nat) (n : Nat), (p ++ [n]).head? = some 0 → IsPath P (p ++ [n]) →
      ∀ t, D n t → ∃ k ∈ p, ∃ w, P[k]? = some w ∧ w.writes = some t := by
  intro p
  induction p using List.reverseRecOn with
  | nil =>
    intro n hh _ t ht
    simp at hh
    subst hh
    exact absurd ht (h0 t)
  | append_singleton q m ih =>
    intro n hh hp t ht
    have hp' : IsPath P (q ++ [m]) ∧ n ∈ succs P m := (isPath_snoc P q m n).1 hp
    have hh' : (q ++ [m]).head? = some 0 := by
      cases q with
      | nil => simpa using hh
      | cons a r => simpa using hh
    obtain ⟨i, hi, hcase⟩ := succs_cases hp'.2
    have hs := hD m i hi
    have hDm : D m t ∨ i.writes = some t := by
      rcases hcase with ⟨hf, rfl⟩ | ⟨l, hl, hmark⟩
      · exact hs.2.2.2 hf t ht
      · have hsn := hD n _ hmark
        exact Or.inl (hs.2.1 l hl t (hsn.2.2.1 l rfl t ht))
    rcases hDm with hDm | hw
    · obtain ⟨k, hk, w, hkw, hwt⟩ := ih m hh' hp'.1 t hDm
      exact ⟨k, by simp [hk], w, hkw, hwt⟩
    · exact ⟨m, by simp, i, hi, hw⟩

/-- In an annotated sequence, on every path from its first instruction to an
instruction that reads a temporary, the temporary is in `V` or written by an
instruction earlier on the path. -/
theorem Flow.sound {V : Temp → Prop} {L : Nat → Temp → Prop} {P : List Tac} {W' : Temp → Prop}
    (hF : Flow V L (fun _ => False) P W') (p : List Nat) (n : Nat)
    (h0 : (p ++ [n]).head? = some 0) (hp : IsPath P (p ++ [n]))
    (i : Tac) (t : Temp) (hn : P[n]? = some i) (ht : t ∈ i.reads) :
    V t ∨ ∃ k ∈ p, ∃ w, P[k]? = some w ∧ w.writes = some t := by
  obtain ⟨D, hD0, hD⟩ := hF.annot
  rcases (hD n i hn).1 t ht with h | h
  · exact Or.inr (path_written (fun t ht => hD0 t ht) hD p n h0 hp t h)
  · exact Or.inl h

theorem pickLabels_lt {b l : Nat} (f g : Nat → Temp → Prop) (h : l < b) :
    pickLabels b f g l = f l := by
  simp [pickLabels, h]

theorem pickLabels_ge {b l : Nat} (f g : Nat → Temp → Prop) (h : b ≤ l) :
    pickLabels b f g l = g l := by
  simp [pickLabels, Nat.not_lt.2 h]

/-- The code of a conditional expression is annotated when the codes of its
three parts are. -/
theorem flow_ternary {V : Temp → Prop} {L : Nat → Temp → Prop} {W Wc Wt Wf : Temp → Prop}
    {cc ct cf : List Tac} (l1 l2 : Nat) (vc r vt vf : Temp)
    (hc : Flow V L W cc Wc) (ht : Flow V L Wc ct Wt) (hf : Flow V L Wc cf Wf)
    (mt : ∀ t, Wc t → Wt t) (mf : ∀ t, Wc t → Wf t)
    (rc : Wc vc ∨ V vc) (rt : Wt vt ∨ V vt) (rf : Wf vf ∨ V vf)
    (h1 : L l1 = Wc) (h2 : L l2 = fun t => Wc t ∨ t = r) :
    Flow V L W (cc ++ [Tac.JZero l1 vc] ++ ct ++ [Tac.Assign r vt, Tac.Jump l2, Tac.Mark l1]
      ++ cf ++ [Tac.Assign r vf, Tac.Mark l2]) (fun t => Wc t ∨ t = r) := by
  have a1 : Flow V L Wc [Tac.JZero l1 vc] Wc :=
    flow_jzero l1 vc rc (fun t h => by rw [h1] at h; exact h)
  have a2 : Flow V L Wt [Tac.Assign r vt] (fun t => Wt t ∨ t = r) :=
    flow_write _ r (fun t h => by simp only [Tac.reads, List.mem_singleton] at h; rw [h]; exact rt)
      rfl (fun l h => by cases h) rfl
  have a3 : Flow V L (fun t => Wt t ∨ t = r) [Tac.Jump l2] Wc :=
    flow_jump l2 Wc (fun t h => by rw [h2] at h; exact h.imp (mt t) id)
  have a4 : Flow V L Wc [Tac.Mark l1] Wc :=
    flow_mark l1 Wc (fun _ h => h) (fun t h => by rw [h1]; exact h)
  have a5 : Flow V L Wf [Tac.Assign r vf] (fun t => Wf t ∨ t = r) :=
    flow_write _ r (fun t h => by simp only [Tac.reads, List.mem_singleton] at h; rw [h]; exact rf)
      rfl (fun l h => by cases h) rfl
  have a6 : Flow V L (fun t => Wf t ∨ t = r) [Tac.Mark l2] (fun t => Wc t ∨ t = r) :=
    flow_mark l2 _ (fun t h => h.imp (mf t) id) (fun t h => by rw [h2]; exact h)
  have := (((((hc.cat a1).cat ht).cat (a2.cat (a3.cat a4))).cat hf).cat
    (a5.cat a6))
  simpa using this

/-- Expressions: the code of an expression is annotated, from any set `W` to
a set that has `W` and, unless it is in `V`, the value of the expression;
`V` has the temporaries bound to the variable symbols. -/
theorem expr_flow (V : Temp → Prop) (e : Expr) :
    ∀ (st : Translation) (v : Temp) (st' : Translation) (code : List Tac),
      visitExpr e st = Except.ok (v, st') → st'.tr.tacs = st.tr.tacs ++ code →
      (∀ x, V (st.vars x).temp) →
      ∀ W : Temp → Prop, ∃ (W' : Temp → Prop) (Lf : Nat → Temp → Prop),
        (∀ t, W t → W' t) ∧ (W' v ∨ V v)
        ∧ ∀ L : Nat → Temp → Prop,
          (∀ l : Nat, st.tr.labelCount ≤ l → l < st'.tr.labelCount → L l = Lf l) →
          Flow V L W code W' := by
  induction e using Expr.induction_by_kind with
  | assign left e ih =>
    intro st v st' code h hcode hV W
    rw [visitExpr_assign] at h
    simp only [bind_eq_ok, pure_eq_ok, visitVarRef_ok] at h
    obtain ⟨s1, ⟨hk, rfl⟩, ⟨v1, s2⟩, hr, heq⟩ := h
    obtain ⟨nl, nt, c1, rfl, -⟩ := visitExpr_frame _ _ _ _ hr
    simp only [Prod.mk.injEq] at heq
    obtain ⟨rfl, rfl⟩ := heq
    obtain ⟨W1, Lf, m1, r1, F1⟩ := ih _ _ _ c1 hr (by simp) hV W
    simp at hcode
    subst hcode
    refine ⟨fun t => W1 t ∨ t = (s1.vars left.sym).temp, Lf, fun t h => Or.inl (m1 t h),
      r1.imp Or.inl id, fun L hL => ?_⟩
    have a := F1 L (fun l h1 h2 => hL l h1 (by simpa using h2))
    have b : Flow V L W1 [Tac.Assign (s1.vars left.sym).temp v1] _ :=
      flow_write _ (s1.vars left.sym).temp
        (fun t h => by simp only [Tac.reads, List.mem_singleton] at h; rw [h]; exact r1)
        rfl (fun l h => by cases h) rfl
    simpa [Translation.getTemp] using a.cat b
  | binary k e1 e2 ih1 ih2 =>
    intro st v st' code h hcode hV W
    rw [visitExpr_binary] at h
    simp only [bind_eq_ok, pure_eq_ok] at h
    obtain ⟨⟨v1, s1⟩, h1, ⟨v2, s2⟩, h2, heq⟩ := h
    obtain ⟨nl1, nt1, c1, rfl, -⟩ := visitExpr_frame _ _ _ _ h1
    obtain ⟨nl2, nt2, c2, rfl, -⟩ := visitExpr_frame _ _ _ _ h2
    simp only [Prod.mk.injEq] at heq
    obtain ⟨rfl, rfl⟩ := heq
    obtain ⟨W1, Lf1, m1, r1, F1⟩ := ih1 _ _ _ c1 h1 (by simp) hV W
    obtain ⟨W2, Lf2, m2, r2, F2⟩ := ih2 _ _ _ c2 h2 (by simp) (by simpa using hV) W1
    simp at hcode
    subst hcode
    refine ⟨fun t => W2 t ∨ t = st.tr.tempCount + (nt1 + nt2),
      pickLabels (st.tr.labelCount + nl1) Lf1 Lf2, fun t h => Or.inl (m2 t (m1 t h)),
      Or.inl (Or.inr (by simp)), fun L hL => ?_⟩
    simp at hL
    have a := F1 L (fun l h1 h2 => by
      simp at h2
      rw [hL l h1 (by omega), pickLabels_lt _ _ h2])
    have b := F2 L (fun l h1 h2 => by
      simp at h1 h2
      rw [hL l (by omega) (by omega), pickLabels_ge _ _ h1])
    have c : Flow V L W2 [Tac.Binary k.op (st.tr.tempCount + (nt1 + nt2)) v1 v2] _ :=
      flow_write _ (st.tr.tempCount + (nt1 + nt2))
        (fun t h => by
          simp only [Tac.reads, List.mem_cons, List.mem_singleton, List.not_mem_nil,
            or_false] at h
          rcases h with h | h
          · rw [h]; exact r1.imp (m2 v1) id
          · rw [h]; exact r2)
        rfl (fun l h => by cases h) rfl
    simpa using (a.cat b).cat c
  | const value =>
    intro st v st' code h hcode hV W
    rw [visitExpr_const] at h
    simp only [Except.ok.injEq, Prod.mk.injEq] at h
    obtain ⟨rfl, rfl⟩ := h
    simp at hcode
    subst hcode
    exact ⟨fun t => W t ∨ t = st.tr.tempCount, fun _ _ => False, fun t h => Or.inl h,
      Or.inl (Or.inr rfl), fun L _ =>
        flow_write _ st.tr.tempCount (fun t h => by simp [Tac.reads] at h) rfl
          (fun l h => by cases h) rfl⟩
  | unary k e ih =>
    intro st v st' code h hcode hV W
    rw [visitExpr_unary] at h
    simp only [bind_eq_ok, pure_eq_ok] at h
    obtain ⟨⟨v1, s1⟩, h1, heq⟩ := h
    obtain ⟨nl1, nt1, c1, rfl, -⟩ := visitExpr_frame _ _ _ _ h1
    simp only [Prod.mk.injEq] at heq
    obtain ⟨rfl, rfl⟩ := heq
    obtain ⟨W1, Lf1, m1, r1, F1⟩ := ih _ _ _ c1 h1 (by simp) hV W
    simp at hcode
    subst hcode
    refine ⟨fun t => W1 t ∨ t = st.tr.tempCount + nt1, Lf1, fun t h => Or.inl (m1 t h),
      Or.inl (Or.inr (by simp)), fun L hL => ?_⟩
    have a := F1 L (fun l h1 h2 => hL l h1 (by simpa using h2))
    have c : Flow V L W1 [Tac.Unary k.op (st.tr.tempCount + nt1) v1] _ :=
      flow_write _ (st.tr.tempCount + nt1)
        (fun t h => by simp only [Tac.reads, List.mem_singleton] at h; rw [h]; exact r1)
        rfl (fun l h => by cases h) rfl
    simpa using a.cat c
  | lvalue lv =>
    intro st v st' code h hcode hV W
    rw [visitExpr_lvalue] at h
    simp only [bind_eq_ok, pure_eq_ok, visitVarRef_ok] at h
    obtain ⟨s1, ⟨hk, rfl⟩, heq⟩ := h
    simp only [Prod.mk.injEq] at heq
    obtain ⟨rfl, rfl⟩ := heq
    simp at hcode
    subst hcode
    exact ⟨W, fun _ _ => False, fun _ h => h, Or.inr (hV lv.sym), fun L _ => Flow.empty W⟩
  | ifExpr c t f ihc iht ihf =>
    intro st v st' code h hcode hV W
    rw [visitExpr_ifExpr] at h
    simp only [bind_eq_ok, pure_eq_ok] at h
    obtain ⟨⟨vc, sc⟩, hc, ⟨vt, s1⟩, h1, ⟨vf, s2⟩, h2, heq⟩ := h
    obtain ⟨nlc, ntc, cc, rfl, -⟩ := visitExpr_frame _ _ _ _ hc
    simp at h1
    obtain ⟨nlt, ntt, ct, rfl, -⟩ := visitExpr_frame _ _ _ _ h1
    simp at h2
    obtain ⟨nlf, ntf, cf, rfl, -⟩ := visitExpr_frame _ _ _ _ h2
    simp only [Prod.mk.injEq] at heq
    obtain ⟨rfl, rfl⟩ := heq
    obtain ⟨Wc, Lfc, mc, rc, Fc⟩ := ihc _ _ _ cc hc (by simp) (by simpa using hV) W
    obtain ⟨Wt, Lft, mt, rt, Ft⟩ := iht _ _ _ ct h1 (by simp) (by simpa using hV) Wc
    obtain ⟨Wf, Lff, mf, rf, Ff⟩ := ihf _ _ _ cf h2 (by simp) (by simpa using hV) Wc
    simp at hcode
    subst hcode
    refine ⟨fun t => Wc t ∨ t = st.tr.tempCount + ntc,
      pickLabels (st.tr.labelCount + 2)
        (pickLabels (st.tr.labelCount + 1) (fun _ => Wc)
          (fun _ t => Wc t ∨ t = st.tr.tempCount + ntc))
        (pickLabels (st.tr.labelCount + 2 + nlc) Lfc
          (pickLabels (st.tr.labelCount + 2 + nlc + nlt) Lft Lff)),
      fun t h => Or.inl (mc t h), Or.inl (Or.inr (by simp)), fun L hL => ?_⟩
    simp at hL
    have a := Fc L (fun l h1 h2 => by
      simp at h1 h2
      rw [hL l (by omega) (by omega), pickLabels_ge _ _ (by omega), pickLabels_lt _ _ (by omega)])
    have b := Ft L (fun l h1 h2 => by
      simp at h1 h2
      rw [hL l (by omega) (by omega), pickLabels_ge _ _ (by omega), pickLabels_ge _ _ (by omega),
        pickLabels_lt _ _ (by omega)])
    have d := Ff L (fun l h1 h2 => by
      simp at h1 h2
      rw [hL l (by omega) (by omega), pickLabels_ge _ _ (by omega), pickLabels_ge _ _ (by omega),
        pickLabels_ge _ _ (by omega)])
    have e1 : L st.tr.labelCount = Wc := by
      rw [hL _ (le_refl _) (by omega), pickLabels_lt _ _ (by omega),
        pickLabels_lt _ _ (by omega)]
    have e2 : L (st.tr.labelCount + 1) = fun t => Wc t ∨ t = st.tr.tempCount + ntc := by
      rw [hL _ (by omega) (by omega), pickLabels_lt _ _ (by omega),
        pickLabels_ge _ _ (le_refl _)]
    have := flow_ternary st.tr.labelCount (st.tr.labelCount + 1) vc (st.tr.tempCount + ntc) vt vf
      a b d mt mf rc rt rf e1 e2
    simpa using this

/-- An instruction that is no jump and no mark, after which nothing is
known to be written. -/
theorem flow_plain {V : Temp → Prop} {L : Nat → Temp → Prop} {W : Temp → Prop} (i : Tac)
    (hr : ∀ t ∈ i.reads, W t ∨ V t) (ht : i.target = none) (hm : ∀ l, i ≠ Tac.Mark l) :
    Flow V L W [i] (fun _ => False) := by
  refine ⟨W, fun _ => False, fun _ h => h, ⟨hr, ?_, ?_, ?_⟩, fun _ h => h⟩
  · intro l hl
    rw [ht] at hl
    cases hl
  · intro l hl
    exact absurd hl (hm l)
  · intro _ t h
    exact h.elim

theorem ExprAnnotated.asStmt {V : Temp → Prop} {lo hi : Nat} {code : List Tac} {v : Temp}
    (h : ExprAnnotated V lo hi code v) (fb fc : Bool) (brk cont : Nat) :
    Annotated V lo hi fb fc brk cont code := by
  obtain ⟨W', Lf, -, -, F⟩ := h (fun _ => False)
  exact ⟨Lf, fun L hL _ _ => (F L hL).weaken_post (fun _ h => h.elim)⟩

/-- The code of an expression followed by an instruction that reads its
value. -/
theorem ExprAnnotated.thenRead {V : Temp → Prop} {lo hi : Nat} {code : List Tac} {v : Temp}
    (h : ExprAnnotated V lo hi code v) (i : Tac) (hr : ∀ t ∈ i.reads, t = v)
    (ht : i.target = none) (hm : ∀ l, i ≠ Tac.Mark l) (fb fc : Bool) (brk cont : Nat) :
    Annotated V lo hi fb fc brk cont (code ++ [i]) := by
  obtain ⟨W', Lf, -, r, F⟩ := h (fun _ => False)
  exact ⟨Lf, fun L hL _ _ => (F L hL).cat
    (flow_plain i (fun t h => by rw [hr t h]; exact r) ht hm)⟩

theorem Annotated.noCode (V : Temp → Prop) (lo hi : Nat) (fb fc : Bool) (brk cont : Nat) :
    Annotated V lo hi fb fc brk cont [] :=
  ⟨fun _ _ => False, fun _ _ _ _ => Flow.empty _⟩

theorem Annotated.jumpBreak (V : Temp → Prop) (lo hi : Nat) (fc : Bool) (brk cont : Nat) :
    Annotated V lo hi true fc brk cont [Tac.Jump brk] :=
  ⟨fun _ _ => False, fun _ _ hb _ => flow_jump brk _ (fun t h => hb rfl t h)⟩

theorem Annotated.jumpCont (V : Temp → Prop) (lo hi : Nat) (fb : Bool) (brk cont : Nat) :
    Annotated V lo hi fb true brk cont [Tac.Jump cont] :=
  ⟨fun _ _ => False, fun _ _ _ hc => flow_jump cont _ (fun t h => hc rfl t h)⟩

theorem Annotated.sequence {V : Temp → Prop} {a b c : Nat} {fb1 fc1 fb2 fc2 : Bool} {brk cont : Nat}
    {c1 c2 : List Tac} (I1 : Annotated V a b fb1 fc1 brk cont c1)
    (I2 : Annotated V b c fb2 fc2 brk cont c2) (hab : a ≤ b) (hbc : b ≤ c) :
    Annotated V a c (fb1 || fb2) (fc1 || fc2) brk cont (c1 ++ c2) := by
  obtain ⟨Lf1, F1⟩ := I1
  obtain ⟨Lf2, F2⟩ := I2
  refine ⟨pickLabels b Lf1 Lf2, fun L hL hb hc => ?_⟩
  have f1 := F1 L (fun l h1 h2 => by rw [hL l h1 (by omega), pickLabels_lt _ _ h2])
    (fun h => hb (by simp [h])) (fun h => hc (by simp [h]))
  have f2 := F2 L (fun l h1 h2 => by rw [hL l (by omega) h2, pickLabels_ge _ _ h1])
    (fun h => hb (by simp [h])) (fun h => hc (by simp [h]))
  exact f1.cat f2

theorem Annotated.ofIf {V : Temp → Prop} (lc : Nat) {a b c d : Nat} {fbt fct fbf fcf : Bool}
    {brk cont : Nat} (vc : Temp) {cc ct cf : List Tac}
    (Ic : ExprAnnotated V a b cc vc) (It : Annotated V b c fbt fct brk cont ct)
    (If : Annotated V c d fbf fcf brk cont cf) (h0 : lc + 2 ≤ a) (hab : a ≤ b) (hbc : b ≤ c)
    (hcd : c ≤ d) :
    Annotated V lc d (fbt || fbf) (fct || fcf) brk cont
      (cc ++ [Tac.JZero lc vc] ++ ct ++ [Tac.Jump (lc + 1), Tac.Mark lc] ++ cf
        ++ [Tac.Mark (lc + 1)]) := by
  obtain ⟨Wc, Lfc, -, rc, Fc⟩ := Ic (fun _ => False)
  obtain ⟨Lft, Ft⟩ := It
  obtain ⟨Lff, Ff⟩ := If
  refine ⟨pickLabels a (fun _ _ => False) (pickLabels b Lfc (pickLabels c Lft Lff)),
    fun L hL hb hc => ?_⟩
  have e1 : ∀ t, ¬ L lc t := by
    rw [hL lc (le_refl _) (by omega), pickLabels_lt _ _ (by omega)]; exact fun _ h => h
  have e2 : ∀ t, ¬ L (lc + 1) t := by
    rw [hL (lc + 1) (by omega) (by omega), pickLabels_lt _ _ (by omega)]; exact fun _ h => h
  have fc' := Fc L (fun l h1 h2 => by
    rw [hL l (by omega) (by omega), pickLabels_ge _ _ h1, pickLabels_lt _ _ h2])
  have ft := Ft L (fun l h1 h2 => by
    rw [hL l (by omega) (by omega), pickLabels_ge _ _ (by omega), pickLabels_ge _ _ h1,
      pickLabels_lt _ _ h2])
    (fun h => hb (by simp [h])) (fun h => hc (by simp [h]))
  have ff := Ff L (fun l h1 h2 => by
    rw [hL l (by omega) (by omega), pickLabels_ge _ _ (by omega), pickLabels_ge _ _ (by omega),
      pickLabels_ge _ _ h1])
    (fun h => hb (by simp [h])) (fun h => hc (by simp [h]))
  have j1 : Flow V L Wc [Tac.JZero lc vc] (fun _ => False) :=
    (flow_jzero lc vc rc (fun t h => (e1 t h).elim)).weaken_post (fun _ h => h.elim)
  have j2 : Flow V L (fun _ => False) [Tac.Jump (lc + 1)] (fun _ => False) :=
    flow_jump _ _ (fun t h => (e2 t h).elim)
  have m1 : Flow V L (fun _ => False) [Tac.Mark lc] (fun _ => False) :=
    flow_mark _ _ (fun _ h => h) (fun _ h => h.elim)
  have m2 : Flow V L (fun _ => False) [Tac.Mark (lc + 1)] (fun _ => False) :=
    flow_mark _ _ (fun _ h => h) (fun _ h => h.elim)
  have := ((((fc'.cat j1).cat ft).cat (j2.cat m1)).cat ff).cat m2
  simpa using this

theorem Annotated.ofWhile {V : Temp → Prop} (lc : Nat) {a b c : Nat} {fb fc : Bool}
    (brk cont : Nat) (vc : Temp) {cc cb : List Tac}
    (Ic : ExprAnnotated V a b cc vc) (Ib : Annotated V b c fb fc (lc + 1) (lc + 2) cb)
    (h0 : lc + 3 ≤ a) (hab : a ≤ b) (hbc : b ≤ c) :
    Annotated V lc c false false brk cont
      ([Tac.Mark lc] ++ cc ++ [Tac.JZero (lc + 1) vc] ++ cb
        ++ [Tac.Mark (lc + 2), Tac.Jump lc, Tac.Mark (lc + 1)]) := by
  obtain ⟨Wc, Lfc, -, rc, Fc⟩ := Ic (fun _ => False)
  obtain ⟨Lfb, Fb⟩ := Ib
  refine ⟨pickLabels a (fun _ _ => False) (pickLabels b Lfc Lfb), fun L hL _ _ => ?_⟩
  have e : ∀ l : Nat, lc ≤ l → l < lc + 3 → ∀ t, ¬ L l t := by
    intro l h1 h2
    rw [hL l h1 (by omega), pickLabels_lt _ _ (by omega)]; exact fun _ h => h
  have fc' := Fc L (fun l h1 h2 => by
    rw [hL l (by omega) (by omega), pickLabels_ge _ _ h1, pickLabels_lt _ _ h2])
  have fb' := Fb L (fun l h1 h2 => by
    rw [hL l (by omega) (by omega), pickLabels_ge _ _ (by omega), pickLabels_ge _ _ h1])
    (fun _ => e _ (by omega) (by omega)) (fun _ => e _ (by omega) (by omega))
  have j1 : Flow V L Wc [Tac.JZero (lc + 1) vc] (fun _ => False) :=
    (flow_jzero _ vc rc (fun t h => (e _ (by omega) (by omega) t h).elim)).weaken_post
      (fun _ h => h.elim)
  have j2 : Flow V L (fun _ => False) [Tac.Jump lc] (fun _ => False) :=
    flow_jump _ _ (fun t h => (e _ (le_refl _) (by omega) t h).elim)
  have m : ∀ l, Flow V L (fun _ => False) [Tac.Mark l] (fun _ => False) :=
    fun l => flow_mark _ _ (fun _ h => h) (fun _ h => h.elim)
  have := ((((m lc).cat fc').cat j1).cat fb').cat
    ((m (lc + 2)).cat (j2.cat (m (lc + 1))))
  simpa using this

theorem Annotated.ofDoWhile {V : Temp → Prop} (lc : Nat) {a b c : Nat} {fb fc : Bool}
    (brk cont : Nat) (vc : Temp) {cc cb : List Tac}
    (Ib : Annotated V a b fb fc (lc + 1) (lc + 2) cb) (Ic : ExprAnnotated V b c cc vc)
    (h0 : lc + 3 ≤ a) (hab : a ≤ b) (hbc : b ≤ c) :
    Annotated V lc c false false brk cont
      ([Tac.Mark lc] ++ cb ++ [Tac.Mark (lc + 2)] ++ cc
        ++ [Tac.JZero (lc + 1) vc, Tac.Jump lc, Tac.Mark (lc + 1)]) := by
  obtain ⟨Wc, Lfc, -, rc, Fc⟩ := Ic (fun _ => False)
  obtain ⟨Lfb, Fb⟩ := Ib
  refine ⟨pickLabels a (fun _ _ => False) (pickLabels b Lfb Lfc), fun L hL _ _ => ?_⟩
  have e : ∀ l : Nat, lc ≤ l → l < lc + 3 → ∀ t, ¬ L l t := by
    intro l h1 h2
    rw [hL l h1 (by omega), pickLabels_lt _ _ (by omega)]; exact fun _ h => h
  have fb' := Fb L (fun l h1 h2 => by
    rw [hL l (by omega) (by omega), pickLabels_ge _ _ h1, pickLabels_lt _ _ h2])
    (fun _ => e _ (by omega) (by omega)) (fun _ => e _ (by omega) (by omega))
  have fc' := Fc L (fun l h1 h2 => by
    rw [hL l (by omega) (by omega), pickLabels_ge _ _ (by omega), pickLabels_ge _ _ h1])
  have j1 : Flow V L Wc [Tac.JZero (lc + 1) vc] (fun _ => False) :=
    (flow_jzero _ vc rc (fun t h => (e _ (by omega) (by omega) t h).elim)).weaken_post
      (fun _ h => h.elim)
  have j2 : Flow V L (fun _ => False) [Tac.Jump lc] (fun _ => False) :=
    flow_jump _ _ (fun t h => (e _ (le_refl _) (by omega) t h).elim)
  have m : ∀ l, Flow V L (fun _ => False) [Tac.Mark l] (fun _ => False) :=
    fun l => flow_mark _ _ (fun _ h => h) (fun _ h => h.elim)
  have := ((((m lc).cat fb').cat (m (lc + 2))).cat fc').cat
    (j1.cat (j2.cat (m (lc + 1))))
  simpa using this

theorem Annotated.ofFor {V : Temp → Prop} (lc : Nat) {a b c d e : Nat} {fb fc : Bool}
    (brk cont : Nat) (vc : Temp) {ci cc cb cu : List Tac}
    (Ii : Annotated V a b false false 0 0 ci) (Ic : ExprAnnotated V b c cc vc)
    (Ib : Annotated V c d fb fc (lc + 1) (lc + 2) cb) (Iu : Annotated V d e false false 0 0 cu)
    (h0 : lc + 3 ≤ a) (hab : a ≤ b) (hbc : b ≤ c) (hcd : c ≤ d) (hde : d ≤ e) :
    Annotated V lc e false false brk cont
      (ci ++ [Tac.Mark lc] ++ cc ++ [Tac.JZero (lc + 1) vc] ++ cb
        ++ [Tac.Mark (lc + 2)] ++ cu ++ [Tac.Jump lc, Tac.Mark (lc + 1)]) := by
  obtain ⟨Wc, Lfc, -, rc, Fc⟩ := Ic (fun _ => False)
  obtain ⟨Lfi, Fi⟩ := Ii
  obtain ⟨Lfb, Fb⟩ := Ib
  obtain ⟨Lfu, Fu⟩ := Iu
  refine ⟨pickLabels a (fun _ _ => False)
    (pickLabels b Lfi (pickLabels c Lfc (pickLabels d Lfb Lfu))), fun L hL _ _ => ?_⟩
  have e' : ∀ l : Nat, lc ≤ l → l < lc + 3 → ∀ t, ¬ L l t := by
    intro l h1 h2
    rw [hL l h1 (by omega), pickLabels_lt _ _ (by omega)]; exact fun _ h => h
  have fi := Fi L (fun l h1 h2 => by
    rw [hL l (by omega) (by omega), pickLabels_ge _ _ h1, pickLabels_lt _ _ h2])
    (fun h => by cases h) (fun h => by cases h)
  have fc' := Fc L (fun l h1 h2 => by
    rw [hL l (by omega) (by omega), pickLabels_ge _ _ (by omega), pickLabels_ge _ _ h1,
      pickLabels_lt _ _ h2])
  have fb' := Fb L (fun l h1 h2 => by
    rw [hL l (by omega) (by omega), pickLabels_ge _ _ (by omega), pickLabels_ge _ _ (by omega),
      pickLabels_ge _ _ h1, pickLabels_lt _ _ h2])
    (fun _ => e' _ (by omega) (by omega)) (fun _ => e' _ (by omega) (by omega))
  have fu := Fu L (fun l h1 h2 => by
    rw [hL l (by omega) (by omega), pickLabels_ge _ _ (by omega), pickLabels_ge _ _ (by omega),
      pickLabels_ge _ _ (by omega), pickLabels_ge _ _ h1])
    (fun h => by cases h) (fun h => by cases h)
  have j1 : Flow V L Wc [Tac.JZero (lc + 1) vc] (fun _ => False) :=
    (flow_jzero _ vc rc (fun t h => (e' _ (by omega) (by omega) t h).elim)).weaken_post
      (fun _ h => h.elim)
  have j2 : Flow V L (fun _ => False) [Tac.Jump lc] (fun _ => False) :=
    flow_jump _ _ (fun t h => (e' _ (le_refl _) (by omega) t h).elim)
  have m : ∀ l, Flow V L (fun _ => False) [Tac.Mark l] (fun _ => False) :=
    fun l => flow_mark _ _ (fun _ h => h) (fun _ h => h.elim)
  have := ((((((fi.cat (m lc)).cat fc').cat j1).cat fb').cat
    (m (lc + 2))).cat fu).cat (j2.cat (m (lc + 1)))
  simpa using this

/-! ## The symbols a statement binds -/

theorem visitExpr_vars (e : Expr) (st : Translation) (v : Temp) (st' : Translation)
    (h : visitExpr e st = Except.ok (v, st')) : st'.vars = st.vars := by
  obtain ⟨nl, nt, code, rfl, -⟩ := visitExpr_frame e st v st' h
  simp

theorem visitVarDecl_vars (decl : VarDecl) (st st' : Translation)
    (h : visitVarDecl decl st = Except.ok st') :
    ∀ x, x ≠ decl.sym → st'.vars x = st.vars x := by
  intro x hx
  rw [visitVarDecl_eq] at h
  cases hi : decl.init with
  | none =>
    rw [hi] at h
    simp only [pure_eq_ok] at h
    subst h
    simp [Function.update, hx]
  | some init =>
    rw [hi] at h
    simp only [bind_eq_ok, pure_eq_ok] at h
    obtain ⟨⟨v, si⟩, hv, rfl⟩ := h
    have := visitExpr_vars _ _ _ _ hv
    simp at this ⊢
    rw [this]
    simp [Function.update, hx]

theorem visitForInit_vars (ei : Option Expr) (vi : Option VarDecl) (st st' : Translation)
    (h : visitForInit ei vi st = Except.ok st') :
    ∀ x, x ∉ forDecls ei vi → st'.vars x = st.vars x := by
  intro x hx
  unfold visitForInit at h
  cases ei with
  | some init =>
    simp only [map_eq_ok] at h
    obtain ⟨⟨v, s1⟩, h1, rfl⟩ := h
    rw [visitExpr_vars _ _ _ _ h1]
  | none =>
    cases vi with
    | some d =>
      simp only [] at h
      exact visitVarDecl_vars d _ _ h x (by simpa [forDecls] using hx)
    | none =>
      simp only [pure_eq_ok] at h
      rw [h]

theorem visitForUpdate_vars (upd : Option Expr) (st st' : Translation)
    (h : visitForUpdate upd st = Except.ok st') : st'.vars = st.vars := by
  unfold visitForUpdate at h
  cases upd with
  | some u =>
    simp only [map_eq_ok] at h
    obtain ⟨⟨v, s1⟩, h1, rfl⟩ := h
    exact visitExpr_vars _ _ _ _ h1
  | none =>
    simp only [pure_eq_ok] at h
    rw [h]

mutual
/-- A statement rebinds only the symbols it declares. -/
theorem visitStmt_vars : ∀ (s : Stmt) (st st' : Translation),
    visitStmt s st = Except.ok st' → ∀ x, x ∉ s.decls → st'.vars x = st.vars x
  | Stmt.VarDecl decl, st, st', h, x, hx => by
    rw [visitStmt_varDecl] at h
    exact visitVarDecl_vars decl _ _ h x (by simpa [Stmt.decls] using hx)
  | Stmt.ExprStmt e, st, st', h, x, hx => by
    rw [visitStmt_exprStmt] at h
    simp only [bind_eq_ok, pure_eq_ok] at h
    obtain ⟨⟨v, s1⟩, h1, rfl⟩ := h
    rw [visitExpr_vars _ _ _ _ h1]
  | Stmt.IfStmt c t f, st, st', h, x, hx => by
    rw [visitStmt_if] at h
    simp only [bind_eq_ok, pure_eq_ok] at h
    obtain ⟨⟨vc, sc⟩, hc, s1, h1, s2, h2, rfl⟩ := h
    simp only [Stmt.decls, List.mem_append, not_or] at hx
    have e1 := visitExpr_vars _ _ _ _ hc
    have e2 := visitStmt_vars t _ _ h1 x hx.1
    have e3 := visitStmt_vars f _ _ h2 x hx.2
    simp at e1 e2 e3 ⊢
    rw [e3, e2, e1]
  | Stmt.WhileStmt c b, st, st', h, x, hx => by
    rw [visitStmt_while] at h
    simp only [bind_eq_ok, pure_eq_ok] at h
    obtain ⟨⟨vc, sc⟩, hc, s1, h1, rfl⟩ := h
    simp only [Stmt.decls] at hx
    have e1 := visitExpr_vars _ _ _ _ hc
    have e2 := visitStmt_vars b _ _ h1 x hx
    simp at e1 e2 ⊢
    rw [e2, e1]
  | Stmt.DoWhileStmt c b, st, st', h, x, hx => by
    rw [visitStmt_doWhile] at h
    simp only [bind_eq_ok, pure_eq_ok] at h
    obtain ⟨s1, h1, ⟨vc, sc⟩, hc, rfl⟩ := h
    simp only [Stmt.decls] at hx
    have e1 := visitExpr_vars _ _ _ _ hc
    have e2 := visitStmt_vars b _ _ h1 x hx
    simp at e1 e2 ⊢
    rw [e1, e2]
  | Stmt.ForStmt ei vi cond upd b, st, st', h, x, hx => by
    rw [visitStmt_for] at h
    simp only [bind_eq_ok, pure_eq_ok] at h
    obtain ⟨s1, h1, rc, hrc, val, hval, s2, h2, s3, h3, rfl⟩ := h
    obtain ⟨c, rfl, hc⟩ := for_condition_ok _ _ _ _ hrc hval
    simp only [Stmt.decls, List.mem_append, not_or] at hx
    have e0 := visitForInit_vars ei vi _ _ h1 x hx.1
    have e1 := visitExpr_vars _ _ _ _ hc
    have e2 := visitStmt_vars b _ _ h2 x hx.2
    have e3 := visitForUpdate_vars upd _ _ h3
    simp at e0 e1 e2 e3 ⊢
    rw [e3, e2, e1, e0]
  | Stmt.BreakStmt, st, st', h, x, hx => by
    rw [visitStmt_break] at h
    simp only [Except.ok.injEq] at h
    subst h
    simp
  | Stmt.ContStmt, st, st', h, x, hx => by
    rw [visitStmt_cont] at h
    simp only [Except.ok.injEq] at h
    subst h
    simp
  | Stmt.CompStmt l, st, st', h, x, hx => by
    rw [visitStmt_comp] at h
    exact visitStmtList_vars l _ _ h x (by simpa [Stmt.decls] using hx)
  | Stmt.ReturnStmt e, st, st', h, x, hx => by
    rw [visitStmt_return] at h
    simp only [bind_eq_ok, pure_eq_ok] at h
    obtain ⟨⟨v, s1⟩, h1, rfl⟩ := h
    have e1 := visitExpr_vars _ _ _ _ h1
    simp at e1 ⊢
    rw [e1]
  | Stmt.EmptyStmt, st, st', h, x, hx => by
    rw [visitStmt_empty] at h
    simp only [Except.ok.injEq] at h
    rw [h]
/-- The statements of a list rebind only the symbols they declare. -/
theorem visitStmtList_vars : ∀ (l : StmtList) (st st' : Translation),
    visitStmtList l st = Except.ok st' → ∀ x, x ∉ l.decls → st'.vars x = st.vars x
  | StmtList.nil, st, st', h, x, hx => by
    rw [visitStmtList_nil] at h
    simp only [Except.ok.injEq] at h
    rw [h]
  | StmtList.cons s l, st, st', h, x, hx => by
    rw [visitStmtList_cons] at h
    simp only [bind_eq_ok] at h
    obtain ⟨s1, h1, h2⟩ := h
    simp only [StmtList.decls, List.mem_append, not_or] at hx
    rw [visitStmtList_vars l _ _ h2 x hx.2, visitStmt_vars s _ _ h1 x hx.1]
end

/-! ## The annotation of the code of statements -/

theorem expr_annotated (V : Temp → Prop) (e : Expr) (st : Translation) (v : Temp)
    (st' : Translation) (code : List Tac) (h : visitExpr e st = Except.ok (v, st'))
    (hcode : st'.tr.tacs = st.tr.tacs ++ code) (hV : ∀ x, V (st.vars x).temp) :
    ExprAnnotated V st.tr.labelCount st'.tr.labelCount code v :=
  expr_flow V e st v st' code h hcode hV

/-- The bindings between two states are in `V` when those of the two states
are and no symbol is rebound both before and after. -/
theorem mid_inv {V : Temp → Prop} {A B : List Nat} {f0 f1 f2 : Nat → Variable}
    (h0 : ∀ x, V (f0 x).temp) (h2 : ∀ x, V (f2 x).temp)
    (hA : ∀ x, x ∉ A → f1 x = f0 x) (hB : ∀ x, x ∉ B → f2 x = f1 x)
    (hd : (A ++ B).Nodup) : ∀ x, V (f1 x).temp := by
  intro x
  by_cases hx : x ∈ B
  · have : x ∉ A := fun ha => (List.nodup_append.1 hd).2.2 ha hx
    rw [hA x this]; exact h0 x
  · rw [← hB x hx]; exact h2 x

theorem visitVarDecl_annotated (V : Temp → Prop) (decl : VarDecl) (st st' : Translation)
    (code : List Tac) (h : visitVarDecl decl st = Except.ok st')
    (hcode : st'.tr.tacs = st.tr.tacs ++ code) (hV' : ∀ x, V (st'.vars x).temp)
    (fb fc : Bool) (brk cont : Nat) :
    Annotated V st.tr.labelCount st'.tr.labelCount fb fc brk cont code := by
  rw [visitVarDecl_eq] at h
  cases hi : decl.init with
  | none =>
    rw [hi] at h
    simp only [pure_eq_ok] at h
    subst h
    simp at hcode
    subst hcode
    exact Annotated.noCode _ _ _ _ _ _ _
  | some init =>
    rw [hi] at h
    simp only [bind_eq_ok, pure_eq_ok] at h
    obtain ⟨⟨v, si⟩, hv, rfl⟩ := h
    have hvars := visitExpr_vars _ _ _ _ hv
    obtain ⟨nl, nt, ci, hsi, -⟩ := visitExpr_frame _ _ _ _ hv
    have I := expr_annotated V init _ v si ci hv (by rw [hsi]; simp)
      (fun x => by rw [← hvars]; simpa using hV' x)
    have hc : code = ci ++ [Tac.Assign (si.getTemp decl.sym) v] := by
      rw [hsi] at hcode ⊢
      simpa [eq_comm] using hcode
    rw [hc]
    have := I.thenRead (Tac.Assign (si.getTemp decl.sym) v)
      (fun t h => by simpa [Tac.reads] using h) rfl (fun l h => by cases h) fb fc brk cont
    simpa using this

theorem visitForInit_annotated (V : Temp → Prop) (ei : Option Expr) (vi : Option VarDecl)
    (st st' : Translation) (code : List Tac) (h : visitForInit ei vi st = Except.ok st')
    (hcode : st'.tr.tacs = st.tr.tacs ++ code) (hV : ∀ x, V (st.vars x).temp)
    (hV' : ∀ x, V (st'.vars x).temp) :
    Annotated V st.tr.labelCount st'.tr.labelCount false false 0 0 code := by
  unfold visitForInit at h
  cases ei with
  | some init =>
    simp only [map_eq_ok] at h
    obtain ⟨⟨v, s1⟩, h1, rfl⟩ := h
    exact (expr_annotated V init _ v s1 code h1 hcode hV).asStmt _ _ _ _
  | none =>
    cases vi with
    | some d =>
      simp only [] at h
      exact visitVarDecl_annotated V d _ _ code h hcode hV' _ _ _ _
    | none =>
      simp only [pure_eq_ok] at h
      subst h
      simp at hcode
      subst hcode
      exact Annotated.noCode _ _ _ _ _ _ _

theorem visitForUpdate_annotated (V : Temp → Prop) (upd : Option Expr)
    (st st' : Translation) (code : List Tac) (h : visitForUpdate upd st = Except.ok st')
    (hcode : st'.tr.tacs = st.tr.tacs ++ code) (hV : ∀ x, V (st.vars x).temp) :
    Annotated V st.tr.labelCount st'.tr.labelCount false false 0 0 code := by
  unfold visitForUpdate at h
  cases upd with
  | some u =>
    simp only [map_eq_ok] at h
    obtain ⟨⟨v, s1⟩, h1, rfl⟩ := h
    exact (expr_annotated V u _ v s1 code h1 hcode hV).asStmt _ _ _ _
  | none =>
    simp only [pure_eq_ok] at h
    subst h
    simp at hcode
    subst hcode
    exact Annotated.noCode _ _ _ _ _ _ _

mutual
/-- Statements: the code of a statement is annotated; `V` has the
temporaries bound to the variable symbols before and after the statement, and
the statement declares no symbol twice. -/
theorem visitStmt_annotated (V : Temp → Prop) : ∀ (s : Stmt) (st st' : Translation)
    (code : List Tac), visitStmt s st = Except.ok st' → st'.tr.tacs = st.tr.tacs ++ code →
    s.decls.Nodup → (∀ x, V (st.vars x).temp) → (∀ x, V (st'.vars x).temp) →
    Annotated V st.tr.labelCount st'.tr.labelCount s.freeBreak s.freeCont
      st.current_break_label st.current_continue_label code
  | Stmt.VarDecl decl, st, st', code, h, hcode, _, _, hV' => by
    rw [visitStmt_varDecl] at h
    exact visitVarDecl_annotated V decl _ _ code h hcode hV' _ _ _ _
  | Stmt.ExprStmt e, st, st', code, h, hcode, _, hV, _ => by
    rw [visitStmt_exprStmt] at h
    simp only [bind_eq_ok, pure_eq_ok] at h
    obtain ⟨⟨v, s1⟩, h1, rfl⟩ := h
    exact (expr_annotated V e _ v s1 code h1 hcode hV).asStmt _ _ _ _
  | Stmt.IfStmt c t f, st, st', code, h, hcode, hnd, hV, hV' => by
    rw [visitStmt_if] at h
    simp only [bind_eq_ok, pure_eq_ok] at h
    obtain ⟨⟨vc, sc⟩, hc, s1, h1, s2, h2, rfl⟩ := h
    have v1 := visitStmt_vars t _ _ h1
    have v2 := visitStmt_vars f _ _ h2
    obtain ⟨nlc, ntc, cc, rfl, -⟩ := visitExpr_frame c _ _ _ hc
    have Ic := expr_annotated V c _ _ _ cc hc (by simp) (by simpa using hV)
    simp at h1 v1
    obtain ⟨nlt, ntt, ct, vst, rfl, -⟩ := visitStmt_frame t _ _ h1
    simp at h2 v1 v2 hV'
    obtain ⟨nlf, ntf, cf, vsf, rfl, -⟩ := visitStmt_frame f _ _ h2
    simp at v2 hV'
    simp only [Stmt.decls] at hnd
    have hm := mid_inv hV hV' v1 v2 hnd
    have It := visitStmt_annotated V t _ _ ct h1 (by simp) (List.nodup_append.1 hnd).1
      (by simpa using hV) (by simpa using hm)
    have If := visitStmt_annotated V f _ _ cf h2 (by simp) (List.nodup_append.1 hnd).2.1
      (by simpa using hm) (by simpa using hV')
    simp at hcode
    subst hcode
    simp at Ic It If
    have := Annotated.ofIf st.tr.labelCount vc Ic It If (by omega) (by omega) (by omega)
      (by omega)
    simpa [Stmt.freeBreak, Stmt.freeCont] using this
  | Stmt.WhileStmt c b, st, st', code, h, hcode, hnd, hV, hV' => by
    rw [visitStmt_while] at h
    simp only [bind_eq_ok, pure_eq_ok] at h
    obtain ⟨⟨vc, sc⟩, hc, s1, h1, rfl⟩ := h
    obtain ⟨nlc, ntc, cc, rfl, -⟩ := visitExpr_frame c _ _ _ hc
    have Ic := expr_annotated V c _ _ _ cc hc (by simp) (by simpa using hV)
    simp at h1
    obtain ⟨nlb, ntb, cb, vsb, rfl, -⟩ := visitStmt_frame b _ _ h1
    simp at hV'
    simp only [Stmt.decls] at hnd
    have Ib := visitStmt_annotated V b _ _ cb h1 (by simp) hnd (by simpa using hV)
      (by simpa using hV')
    simp at hcode
    subst hcode
    simp at Ic Ib
    have := Annotated.ofWhile st.tr.labelCount st.current_break_label
      st.current_continue_label vc Ic Ib (by omega) (by omega) (by omega)
    simpa [Stmt.freeBreak, Stmt.freeCont] using this
  | Stmt.DoWhileStmt c b, st, st', code, h, hcode, hnd, hV, hV' => by
    rw [visitStmt_doWhile] at h
    simp only [bind_eq_ok, pure_eq_ok] at h
    obtain ⟨s1, h1, ⟨vc, sc⟩, hc, rfl⟩ := h
    obtain ⟨nlb, ntb, cb, vsb, rfl, -⟩ := visitStmt_frame b _ _ h1
    simp at hc
    obtain ⟨nlc, ntc, cc, rfl, -⟩ := visitExpr_frame c _ _ _ hc
    simp at hV'
    simp only [Stmt.decls] at hnd
    have Ib := visitStmt_annotated V b _ _ cb h1 (by simp) hnd (by simpa using hV)
      (by simpa using hV')
    have Ic := expr_annotated V c _ _ _ cc hc (by simp) (by simpa using hV')
    simp at hcode
    subst hcode
    simp at Ic Ib
    have := Annotated.ofDoWhile st.tr.labelCount st.current_break_label
      st.current_continue_label vc Ib Ic (by omega) (by omega) (by omega)
    simpa [Stmt.freeBreak, Stmt.freeCont] using this
  | Stmt.ForStmt ei vi cond upd b, st, st', code, h, hcode, hnd, hV, hV' => by
    rw [visitStmt_for] at h
    simp only [bind_eq_ok, pure_eq_ok] at h
    obtain ⟨s1, h1, rc, hrc, val, hval, s2, h2, s3, h3, rfl⟩ := h
    obtain ⟨c, rfl, hc⟩ := for_condition_ok _ _ _ _ hrc hval
    have v1 := visitForInit_vars ei vi _ _ h1
    have v2 := visitStmt_vars b _ _ h2
    have v3 := visitForUpdate_vars upd _ _ h3
    obtain ⟨nli, nti, ci, vsi, rfl, -⟩ := visitForInit_frame ei vi _ _ h1
    simp at hc v1
    obtain ⟨nlc, ntc, cc, hsc, -⟩ := visitExpr_frame c _ _ _ hc
    rw [hsc] at h2 hc v2
    simp at h2 v2
    obtain ⟨nlb, ntb, cb, vsb, rfl, -⟩ := visitStmt_frame b _ _ h2
    simp at h3 v2 v3
    obtain ⟨nlu, ntu, cu, vsu, rfl, -⟩ := visitForUpdate_frame upd _ _ h3
    simp at v3 hV'
    subst v3
    simp only [Stmt.decls] at hnd
    have hm := mid_inv hV hV' v1 v2 hnd
    have Ii := visitForInit_annotated V ei vi _ _ ci h1 (by simp) (by simpa using hV)
      (by simpa using hm)
    have Ic := expr_annotated V c _ _ _ cc hc (by simp) (by simpa using hm)
    have Ib := visitStmt_annotated V b _ _ cb h2 (by simp) (List.nodup_append.1 hnd).2.1
      (by simpa using hm) (by simpa using hV')
    have Iu := visitForUpdate_annotated V upd _ _ cu h3 (by simp) (by simpa using hV')
    simp at hcode
    subst hcode
    simp at Ii Ic Ib Iu
    have := Annotated.ofFor st.tr.labelCount st.current_break_label
      st.current_continue_label val Ii Ic Ib Iu (by omega) (by omega) (by omega) (by omega)
      (by omega)
    simpa [Stmt.freeBreak, Stmt.freeCont] using this
  | Stmt.BreakStmt, st, st', code, h, hcode, _, _, _ => by
    rw [visitStmt_break] at h
    simp only [Except.ok.injEq] at h
    subst h
    simp at hcode
    subst hcode
    exact Annotated.jumpBreak V _ _ _ _ _
  | Stmt.ContStmt, st, st', code, h, hcode, _, _, _ => by
    rw [visitStmt_cont] at h
    simp only [Except.ok.injEq] at h
    subst h
    simp at hcode
    subst hcode
    exact Annotated.jumpCont V _ _ _ _ _
  | Stmt.CompStmt l, st, st', code, h, hcode, hnd, hV, hV' => by
    rw [visitStmt_comp] at h
    simp only [Stmt.freeBreak, Stmt.freeCont]
    exact visitStmtList_annotated V l _ _ code h hcode (by simpa [Stmt.decls] using hnd) hV hV'
  | Stmt.ReturnStmt e, st, st', code, h, hcode, _, hV, _ => by
    rw [visitStmt_return] at h
    simp only [bind_eq_ok, pure_eq_ok] at h
    obtain ⟨⟨v, s1⟩, h1, rfl⟩ := h
    obtain ⟨nl, nt, c1, rfl, -⟩ := visitExpr_frame e _ _ _ h1
    have I := expr_annotated V e _ _ _ c1 h1 (by simp) hV
    simp at hcode
    subst hcode
    simp at I
    have := I.thenRead (Tac.Return v) (fun t h => by simpa [Tac.reads] using h) rfl
      (fun l h => by cases h) (Stmt.ReturnStmt e).freeBreak (Stmt.ReturnStmt e).freeCont
      st.current_break_label st.current_continue_label
    simpa using this
  | Stmt.EmptyStmt, st, st', code, h, hcode, _, _, _ => by
    rw [visitStmt_empty] at h
    simp only [Except.ok.injEq] at h
    subst h
    simp at hcode
    subst hcode
    exact Annotated.noCode _ _ _ _ _ _ _
/-- Statement lists: the code of the statements of a list is annotated. -/
theorem visitStmtList_annotated (V : Temp → Prop) : ∀ (l : StmtList) (st st' : Translation)
    (code : List Tac), visitStmtList l st = Except.ok st' → st'.tr.tacs = st.tr.tacs ++ code →
    l.decls.Nodup → (∀ x, V (st.vars x).temp) → (∀ x, V (st'.vars x).temp) →
    Annotated V st.tr.labelCount st'.tr.labelCount l.freeBreak l.freeCont
      st.current_break_label st.current_continue_label code
  | StmtList.nil, st, st', code, h, hcode, _, _, _ => by
    rw [visitStmtList_nil] at h
    simp only [Except.ok.injEq] at h
    subst h
    simp at hcode
    subst hcode
    exact Annotated.noCode _ _ _ _ _ _ _
  | StmtList.cons s l, st, st', code, h, hcode, hnd, hV, hV' => by
    rw [visitStmtList_cons] at h
    simp only [bind_eq_ok] at h
    obtain ⟨s1, h1, h2⟩ := h
    have v1 := visitStmt_vars s _ _ h1
    have v2 := visitStmtList_vars l _ _ h2
    obtain ⟨nl1, nt1, c1, vs1, rfl, -⟩ := visitStmt_frame s _ _ h1
    simp at v1 v2
    obtain ⟨nl2, nt2, c2, vs2, rfl, -⟩ := visitStmtList_frame l _ _ h2
    simp at v2 hV'
    simp only [StmtList.decls] at hnd
    have hm := mid_inv hV hV' v1 v2 hnd
    have I1 := visitStmt_annotated V s _ _ c1 h1 (by simp) (List.nodup_append.1 hnd).1 hV
      (by simpa using hm)
    have I2 := visitStmtList_annotated V l _ _ c2 h2 (by simp) (List.nodup_append.1 hnd).2.1
      (by simpa using hm) (by simpa using hV')
    simp at hcode
    subst hcode
    simp at I1 I2
    have := I1.sequence I2 (by omega) (by omega)
    simpa [StmtList.freeBreak, StmtList.freeCont] using this
end

/-! ## C12: temporaries are written before they are read -/

/-- C12, as stated, fails: the function `int main() { int x; return x; }`
is well-formed and is lowered to the piece function-enter, return of the
temporary 0, and the default return; on the path from function-enter to the
first return, which reads the temporary 0, the one earlier instruction writes
no temporary. -/
theorem read_before_write_counterexample :
    sampleUninitFunc.stmts.plainLvalues = true
      ∧ sampleUninitFunc.stmts.forsHaveCondition = true
      ∧ sampleUninitFunc.stmts.freeBreak = false
      ∧ sampleUninitFunc.stmts.freeCont = false
      ∧ (∃ st', visitFuncDefn sampleUninitFunc sampleState = Except.ok st'
          ∧ st'.tr.pieces = [sampleUninitPiece])
      ∧ IsPath sampleUninitPiece [0, 1]
      ∧ sampleUninitPiece[0]? = some Tac.FuncEnter
      ∧ sampleUninitPiece[1]? = some (Tac.Return 0)
      ∧ 0 ∈ (Tac.Return 0).reads
      ∧ ∀ k ∈ [0], ∀ w, sampleUninitPiece[k]? = some w → w.writes ≠ some 0 := by
  refine ⟨rfl, rfl, rfl, rfl, ⟨_, rfl, rfl⟩, by decide, rfl, rfl, by decide, ?_⟩
  intro k hk w hw
  simp only [List.mem_singleton] at hk
  subst hk
  simp only [sampleUninitPiece, List.getElem?_cons_zero, Option.some.injEq] at hw
  subst hw
  simp [Tac.writes]

/-- C12, amended: for a function whose lowering completes, with no `break`
or `continue` outside a loop and no symbol declared twice in its body, the
piece starts with function-enter, and on every control-flow path through the
piece from function-enter to an instruction that reads a temporary, an
instruction earlier on the path writes that temporary, or the temporary is
the one bound to a variable symbol when the lowering of the body starts or
when the function is lowered. -/
theorem written_before_read (f : FuncDefn) (st st' : Translation) (piece : List Tac)
    (h : visitFuncDefn f st = Except.ok st')
    (hp : st'.tr.pieces = st.tr.pieces ++ [piece])
    (hbreak : f.stmts.freeBreak = false) (hcont : f.stmts.freeCont = false)
    (hnd : f.stmts.decls.Nodup)
    (p : List Nat) (n : Nat) (i : Tac) (t : Temp)
    (h0 : (p ++ [n]).head? = some 0) (hpath : IsPath piece (p ++ [n]))
    (hn : piece[n]? = some i) (ht : t ∈ i.reads) :
    piece[0]? = some Tac.FuncEnter
    ∧ ((∃ k ∈ p, ∃ w, piece[k]? = some w ∧ w.writes = some t)
      ∨ ∃ x, ((funcBodyStart f st).vars x).temp = t ∨ (st'.vars x).temp = t) := by
  obtain ⟨s5, code, h5, ht5, -, -, hpieces⟩ := visitFuncDefn_piece f st st' h
  have hvars : st'.vars = s5.vars := by
    rw [visitFuncDefn_eq, h5] at h
    simp only [ok_bind, pure_eq_ok] at h
    rw [← h]
    rfl
  have hpiece : piece = [Tac.FuncEnter] ++ code
      ++ [Tac.LoadImm4 s5.tr.tempCount 0, Tac.Return s5.tr.tempCount, Tac.FuncExit] := by
    rw [hp] at hpieces
    simpa using hpieces
  have A := visitStmtList_annotated
    (fun t => ∃ x, ((funcBodyStart f st).vars x).temp = t ∨ (st'.vars x).temp = t)
    f.stmts _ s5 code h5 (by rw [ht5, funcBodyStart_tacs]) hnd
    (fun x => ⟨x, Or.inl rfl⟩) (fun x => ⟨x, Or.inr (by rw [hvars])⟩)
  rw [hbreak, hcont] at A
  obtain ⟨Lf, F⟩ := A
  have F1 := F Lf (fun _ _ _ => rfl) (fun hb => by cases hb) (fun hc => by cases hc)
  have F2 := ((flow_funcEnter (fun _ => False)).cat F1).cat
    ((flow_write (Tac.LoadImm4 s5.tr.tempCount 0) s5.tr.tempCount
        (fun t ht => by simp [Tac.reads] at ht) rfl (fun l hl => by cases hl) rfl).cat
      ((flow_return s5.tr.tempCount (fun _ => False) (Or.inl (Or.inr rfl))).cat
        (flow_funcExit (fun _ => False) (fun _ => False))))
  have F3 : Flow (fun t => ∃ x, ((funcBodyStart f st).vars x).temp = t ∨ (st'.vars x).temp = t)
      Lf (fun _ => False) piece (fun _ => False) := by
    rw [hpiece]
    simpa using F2
  refine ⟨by rw [hpiece]; simp, ?_⟩
  rcases F3.sound p n h0 hpath i t hn ht with hV | hW
  · exact Or.inr hV
  · exact Or.inl hW

/-- C12, amended, on `int main() { return 1 ? 2 : 3; }`: on the path through
the false branch to the return, which reads the temporary 1, the assignment
at the index 8 writes it. -/
theorem written_before_read_witness :
    (∃ st', visitFuncDefn sampleTernaryFunc sampleState = Except.ok st'
        ∧ st'.tr.pieces = [sampleTernaryPiece])
    ∧ IsPath sampleTernaryPiece ([0, 1, 2, 6, 7, 8, 9] ++ [10])
    ∧ sampleTernaryPiece[10]? = some (Tac.Return 1)
    ∧ ∃ k ∈ [0, 1, 2, 6, 7, 8, 9], ∃ w, sampleTernaryPiece[k]? = some w ∧ w.writes = some 1 := by
  have hpath : IsPath sampleTernaryPiece ([0, 1, 2, 6, 7, 8, 9] ++ [10]) := by decide
  refine ⟨⟨_, rfl, rfl⟩, hpath, rfl, ?_⟩
  have := (written_before_read sampleTernaryFunc sampleState _ sampleTernaryPiece rfl rfl rfl
    rfl (by decide) [0, 1, 2, 6, 7, 8, 9] 10 (Tac.Return 1) 1 rfl hpath rfl (by decide)).2
  rcases this with hw | ⟨x, hx | hx⟩
  · exact hw
  · exact absurd hx (Nat.zero_ne_one)
  · exact absurd hx (Nat.zero_ne_one)

end MiniDecaf
